import Mathlib

/-! # EthBroadcaster: nonce assignment and broadcast bookkeeping

A shallow embedding of `core/chains/evm/txmgr/eth_broadcaster.go`.

* The durable store is a record of three tables (lists of rows).  A SQL statement is a
  pure function on that record; `q.Transaction` commits the result of its body or, when
  the body fails, leaves the store as it was.  The statement errors that are modelled are
  the ones the store contents decide: `sql.ErrNoRows` from a `Get` that finds no row and the
  foreign-key violation of an attempt insert.  Connection failures are not modelled.
* External collaborators (fee estimator, signer, transmit checker, remote node, resume
  callback, clock, context) are fields of `World`.  Every call of a collaborator reads the
  field at the current `tick` of the state and advances the tick, so that two calls with the
  same arguments may answer differently.
* Go `error` values are `Option Err` (`none` is `nil`); a Go panic is the error `Err.panic`.
* `big.Int` and `int64` are `Int`: the Go code does no arithmetic on them, it only compares
  them, and the increment of the nonce is done by the database.
* `St.log` is a history variable: the functions append to it and never read it.
* Loops and recursion take fuel; a run that exhausts it ends in `Result.outOfFuel`.
-/

namespace Txmgr

abbrev Address := Nat
abbrev ChainID := Nat
abbrev Time := Nat

/-- Modelled from the spec: the transaction states of section 3 (`EthTxState` is declared in a
file of the package that is not part of the sources at hand). -/
inductive EthTxState
  | unstarted | inProgress | unconfirmed | fatalError | confirmed
  deriving DecidableEq, Repr

/-- Modelled from the spec: the attempt states of section 3 (`EthTxAttemptState` is declared
elsewhere in the package). -/
inductive EthTxAttemptState
  | inProgress | broadcast | insufficientEth
  deriving DecidableEq, Repr

/-- Modelled from the spec: the `Attempt` record of section 3 and the `tx_attempts` table of
section 6.  Nullable columns are options. -/
structure EthTxAttempt where
  ID : Nat
  EthTxID : Nat
  GasPrice : Option Int
  GasTipCap : Option Int
  GasFeeCap : Option Int
  ChainSpecificGasLimit : Nat
  Hash : Nat
  State : EthTxAttemptState
  TxType : Nat
  deriving DecidableEq, Repr

/-- Modelled from the spec: the `Tx` record of section 3 and the `txes` table of section 6.
`EthTxAttempts` is the association loaded by `loadEthTxAttempts`; it is not a column. -/
structure EthTx where
  ID : Nat
  Nonce : Option Int
  FromAddress : Address
  EVMChainID : ChainID
  EncodedPayload : Nat
  Value : Nat
  GasLimit : Nat
  Error : Option String
  BroadcastAt : Option Time
  InitialBroadcastAt : Option Time
  CreatedAt : Time
  State : EthTxState
  TransmitChecker : Nat
  PipelineTaskRunID : Option Nat
  Subject : Option Nat
  EthTxAttempts : List EthTxAttempt
  deriving DecidableEq, Repr

/-- Modelled from the spec: a row of `key_states` (section 6). -/
structure KeyState where
  Address : Address
  EVMChainID : ChainID
  NextNonce : Int
  UpdatedAt : Time
  deriving DecidableEq, Repr

/-- The durable store. -/
structure DB where
  eth_txes : List EthTx
  eth_tx_attempts : List EthTxAttempt
  eth_key_states : List KeyState
  deriving DecidableEq, Repr

/-- Modelled from the spec: the classified send error of section 4.4.  `evmclient.SendError`
exposes one predicate per category; the broadcaster only ever asks these questions. -/
structure SendError where
  message : String
  tooExpensive : Bool
  fatal : Bool
  nonceTooLow : Bool
  transactionAlreadyMined : Bool
  replacementUnderpriced : Bool
  terminallyUnderpriced : Bool
  optimismFeeTooLow : Bool
  optimismFeeTooHigh : Bool
  temporarilyUnderpriced : Bool
  insufficientEth : Bool
  deriving DecidableEq, Repr

/-- Error returned by a transmit checker: one of the two context errors, or a refusal. -/
inductive CheckErr
  | canceled
  | deadlineExceeded
  | refused (msg : String)
  deriving DecidableEq, Repr

/-- Error returned by the resume callback: `sql.ErrNoRows` or anything else. -/
inductive ResumeErr
  | noRows
  | failed (msg : String)
  deriving DecidableEq, Repr

/-- Go error values that leave the functions of this file. -/
inductive Err
  | new (msg : String)
  | wrap (cause : Err) (msg : String)
  | errEthTxRemoved
  | errNoRows
  | send (e : Option SendError)
  | panic (msg : String)
  deriving DecidableEq, Repr

/-- The test `errors.Is(err, errEthTxRemoved)`. -/
def Err.isEthTxRemoved : Err → Bool
  | .errEthTxRemoved => true
  | .wrap c _ => c.isEthTxRemoved
  | _ => false

/-- The test `errors.Is(err, e)` for a send error `e`. -/
def Err.isSend (target : Option SendError) : Err → Bool
  | .send e => decide (e = target)
  | .wrap c _ => c.isSend target
  | _ => false

/-- The text of `err.Error()` for a checker error. -/
def CheckErr.Error : CheckErr → String
  | .canceled => "context canceled"
  | .deadlineExceeded => "context deadline exceeded"
  | .refused m => m

/-- The test `errors.Is(err, context.Canceled)`. -/
def CheckErr.isCanceled : CheckErr → Bool
  | .canceled => true
  | _ => false

namespace SendError

/-- The text of `sendError.Error()`. -/
def Error (e : Option SendError) : String :=
  match e with
  | none => ""
  | some x => x.message

def IsTooExpensive (e : Option SendError) : Bool :=
  match e with | none => false | some x => x.tooExpensive

def Fatal (e : Option SendError) : Bool :=
  match e with | none => false | some x => x.fatal

def IsNonceTooLowError (e : Option SendError) : Bool :=
  match e with | none => false | some x => x.nonceTooLow

def IsTransactionAlreadyMined (e : Option SendError) : Bool :=
  match e with | none => false | some x => x.transactionAlreadyMined

def IsReplacementUnderpriced (e : Option SendError) : Bool :=
  match e with | none => false | some x => x.replacementUnderpriced

def IsTerminallyUnderpriced (e : Option SendError) : Bool :=
  match e with | none => false | some x => x.terminallyUnderpriced

def IsOptimismFeeTooLow (e : Option SendError) : Bool :=
  match e with | none => false | some x => x.optimismFeeTooLow

def IsOptimismFeeTooHigh (e : Option SendError) : Bool :=
  match e with | none => false | some x => x.optimismFeeTooHigh

def IsTemporarilyUnderpriced (e : Option SendError) : Bool :=
  match e with | none => false | some x => x.temporarilyUnderpriced

def IsInsufficientEth (e : Option SendError) : Bool :=
  match e with | none => false | some x => x.insufficientEth

end SendError

/-- The pair `gas.DynamicFee` of nullable big integers. -/
structure DynamicFee where
  FeeCap : Option Int
  TipCap : Option Int
  deriving DecidableEq, Repr

/-- The method `attempt.DynamicFee()`. -/
def EthTxAttempt.DynamicFee (a : EthTxAttempt) : DynamicFee :=
  { FeeCap := a.GasFeeCap, TipCap := a.GasTipCap }

/-- Committed store mutations and calls of collaborators, in the order they happened. -/
inductive Event
  | persistInProgress (etx : EthTx) (attempt : EthTxAttempt) (after : DB)
  | replaceAttempt (old : EthTxAttempt) (replacement : EthTxAttempt) (after : DB)
  | persistBroadcast (etx : EthTx) (attempt : EthTxAttempt) (after : DB)
  | persistFatal (etx : EthTx) (after : DB)
  | submit (etx : EthTx) (attempt : EthTxAttempt)
  | resume (taskRunID : Nat) (msg : String)
  deriving DecidableEq, Repr

/-- Configuration and external collaborators of one broadcaster. -/
structure World where
  chainID : ChainID
  EvmMaxInFlightTransactions : Nat
  EvmEIP1559DynamicFees : Bool
  EvmMaxGasPriceWei : Int
  IsOptimismClone : Bool
  cancelAt : Option Nat
  now : Nat → Time
  GetLegacyGas : Nat → Nat → Nat → Bool → Except String (Int × Nat)
  GetDynamicFee : Nat → Nat → Except String (DynamicFee × Nat)
  BumpLegacyGas : Nat → Option Int → Nat → Except String (Int × Nat)
  BumpDynamicFee : Nat → DynamicFee → Nat → Except String (DynamicFee × Nat)
  SignTx : Nat → EthTx → Except String Nat
  GetChecker : EthTx → Option String
  BuildChecker : EthTx → Option String
  Check : Nat → EthTx → EthTxAttempt → Option CheckErr
  sendTransaction : Nat → EthTxAttempt → EthTx → Option SendError
  resumeCallback : Option (Nat → Nat → String → Option ResumeErr)

/-- State threaded through the worker: the store, the call counter and the history. -/
structure St where
  db : DB
  tick : Nat
  log : List Event

/-- Advance the call counter. -/
def St.next (s : St) : St := { s with tick := s.tick + 1 }

/-- Append an event to the history. -/
def St.record (s : St) (e : Event) : St := { s with log := e :: s.log }

/-- Outcome of a function that returns a Go `error`. -/
inductive Result
  | ret (err : Option Err)
  | outOfFuel
  deriving DecidableEq, Repr

/-- The test `ctx.Err() != nil`: the context is done from tick `cancelAt` on. -/
def ctxErr (w : World) (s : St) : Bool :=
  match w.cancelAt with
  | none => false
  | some t => decide (t ≤ s.tick)

/-! ## Statements on the store -/

/-- Row update `UPDATE eth_txes SET ... WHERE id = $n RETURNING *` read with `Get`: every row
with the id is rewritten, the first one is returned, and no row is `sql.ErrNoRows`. -/
def updateEthTx (db : DB) (id : Nat) (f : EthTx → EthTx) : Except Err (DB × EthTx) :=
  match db.eth_txes.find? (fun r => decide (r.ID = id)) with
  | none => .error .errNoRows
  | some row =>
    .ok ({ db with eth_txes := db.eth_txes.map (fun r => if r.ID = id then f r else r) }, f row)

/-- Row update `UPDATE eth_tx_attempts SET state = $1 WHERE id = $2 RETURNING *`. -/
def updateEthTxAttemptState (db : DB) (id : Nat) (st : EthTxAttemptState) :
    Except Err (DB × EthTxAttempt) :=
  match db.eth_tx_attempts.find? (fun r => decide (r.ID = id)) with
  | none => .error .errNoRows
  | some row =>
    .ok ({ db with eth_tx_attempts :=
            db.eth_tx_attempts.map (fun r => if r.ID = id then { r with State := st } else r) },
         { row with State := st })

/-- Scan of a returned row into an `EthTx` value: the columns are overwritten, the loaded
association stays. -/
def scanEthTx (dest row : EthTx) : EthTx :=
  { row with EthTxAttempts := dest.EthTxAttempts }

/-- An attempt id that no stored attempt uses. -/
def freshAttemptID (db : DB) : Nat :=
  (db.eth_tx_attempts.map (fun a => a.ID)).foldr max 0 + 1

/-- Modelled from the spec: the statement `insertIntoEthTxAttemptsQuery` (a constant declared
elsewhere).  `tx_id` is a foreign key, so the insert fails when the transaction row is gone;
otherwise the row is stored under a new id and returned. -/
def insertEthTxAttempt (db : DB) (a : EthTxAttempt) : Option (DB × EthTxAttempt) :=
  if db.eth_txes.any (fun r => decide (r.ID = a.EthTxID)) then
    let row := { a with ID := freshAttemptID db }
    some ({ db with eth_tx_attempts := db.eth_tx_attempts ++ [row] }, row)
  else none

/-- GetNextNonce returns keys.next_nonce for the given address. -/
def GetNextNonce (db : DB) (address : Address) (chainID : ChainID) : Except Err Int :=
  match db.eth_key_states.find?
      (fun k => decide (k.Address = address) && decide (k.EVMChainID = chainID)) with
  | some k => .ok k.NextNonce
  | none => .error .errNoRows

/-- The rows selected by the `WHERE` clause of `IncrementNextNonce`. -/
def nonceRowMatches (address : Address) (chainID : ChainID) (currentNonce : Int)
    (k : KeyState) : Bool :=
  decide (k.Address = address) && decide (k.NextNonce = currentNonce)
    && decide (k.EVMChainID = chainID)

/-- IncrementNextNonce increments keys.next_nonce by 1: the `UPDATE` is executed, and the
function fails when it affected no row. -/
def IncrementNextNonce (db : DB) (address : Address) (chainID : ChainID) (currentNonce : Int)
    (now : Time) : Option Err × DB :=
  let rowsAffected := db.eth_key_states.countP (nonceRowMatches address chainID currentNonce)
  let db1 := { db with eth_key_states := db.eth_key_states.map (fun k =>
            if nonceRowMatches address chainID currentNonce k
            then { k with NextNonce := k.NextNonce + 1, UpdatedAt := now } else k) }
  if rowsAffected = 0 then
    (some (.new ("invariant violation: could not increment nonce because no rows matched query. "
      ++ "Either the key is missing or the nonce has been modified by an external process. "
      ++ "This is an unrecoverable error")), db1)
  else (none, db1)

/-- Modelled from the spec: `loadEthTxAttempts` (defined elsewhere in the package) loads the
attempts of the transaction. -/
def loadEthTxAttempts (db : DB) (etx : EthTx) : EthTx :=
  { etx with EthTxAttempts := db.eth_tx_attempts.filter (fun a => decide (a.EthTxID = etx.ID)) }

/-- Modelled from the spec: `count_unconfirmed(address, chain)` of section 4.2
(`CountUnconfirmedTransactions` is defined elsewhere in the package). -/
def CountUnconfirmedTransactions (db : DB) (fromAddress : Address) (chainID : ChainID) : Nat :=
  db.eth_txes.countP (fun r => decide (r.FromAddress = fromAddress)
    && decide (r.State = .unconfirmed) && decide (r.EVMChainID = chainID))

/-- Modelled from the spec: `count_unstarted(address, chain)` of section 4.2
(`CountUnstartedTransactions` is defined elsewhere in the package). -/
def CountUnstartedTransactions (db : DB) (fromAddress : Address) (chainID : ChainID) : Nat :=
  db.eth_txes.countP (fun r => decide (r.FromAddress = fromAddress)
    && decide (r.State = .unstarted) && decide (r.EVMChainID = chainID))

/-- getInProgressEthTx returns either 0 or 1 transaction that was left in an unfinished
state. -/
def getInProgressEthTx (db : DB) (fromAddress : Address) : Except Err (Option EthTx) :=
  match db.eth_txes.find?
      (fun r => decide (r.FromAddress = fromAddress) && decide (r.State = .inProgress)) with
  | none => .ok none
  | some row =>
    let etx := loadEthTxAttempts db (scanEthTx { row with EthTxAttempts := [] } row)
    match etx.EthTxAttempts with
    | [a] =>
      if a.State ≠ .inProgress then
        .error (.new "invariant violation: expected in_progress transaction to have exactly one unsent attempt")
      else .ok (some etx)
    | _ =>
      .error (.new "invariant violation: expected in_progress transaction to have exactly one unsent attempt")

/-- The order `value ASC, created_at ASC, id ASC`. -/
def unstartedBefore (a b : EthTx) : Bool :=
  decide (a.Value < b.Value) ||
    (decide (a.Value = b.Value) &&
      (decide (a.CreatedAt < b.CreatedAt) ||
        (decide (a.CreatedAt = b.CreatedAt) && decide (a.ID ≤ b.ID))))

/-- Finds earliest saved transaction that has yet to be broadcast from the given address. -/
def findNextUnstartedTransactionFromAddress (db : DB) (fromAddress : Address)
    (chainID : ChainID) : Option EthTx :=
  (db.eth_txes.filter (fun r => decide (r.FromAddress = fromAddress)
      && decide (r.State = .unstarted) && decide (r.EVMChainID = chainID))).foldl
    (fun best r =>
      match best with
      | none => some r
      | some m => if unstartedBefore m r then some m else some r)
    none

/-- Finds next transaction in the queue and assigns a nonce. -/
def nextUnstartedTransactionWithNonce (w : World) (db : DB) (fromAddress : Address) :
    Except Err (Option EthTx) :=
  match findNextUnstartedTransactionFromAddress db fromAddress w.chainID with
  | none => .ok none
  | some row =>
    let etx := scanEthTx { row with EthTxAttempts := [] } row
    match GetNextNonce db etx.FromAddress w.chainID with
    | .error e => .error e
    | .ok nonce => .ok (some { etx with Nonce := some nonce })

/-- The function `saveInProgressTransaction`: returns the error, the store, and the values
left behind the two pointers. -/
def saveInProgressTransaction (db : DB) (etx : EthTx) (attempt : EthTxAttempt) :
    Option Err × DB × EthTx × EthTxAttempt :=
  if etx.State ≠ .unstarted then
    (some (.new "can only transition to in_progress from unstarted"), db, etx, attempt)
  else if attempt.State ≠ .inProgress then
    (some (.new "attempt state must be in_progress"), db, etx, attempt)
  else
    let etx1 := { etx with State := .inProgress }
    match insertEthTxAttempt db attempt with
    | none => (some .errEthTxRemoved, db, etx1, attempt)
    | some (tx1, attempt1) =>
      match updateEthTx tx1 etx1.ID (fun r => { r with
          Nonce := etx1.Nonce, State := etx1.State, BroadcastAt := etx1.BroadcastAt,
          InitialBroadcastAt := etx1.InitialBroadcastAt }) with
      | .error e =>
        (some (.wrap e "saveInProgressTransaction failed to save eth_tx"), db, etx1, attempt1)
      | .ok (tx2, row) => (none, tx2, scanEthTx etx1 row, attempt1)

/-- Runs the finaliser callbacks of `saveAttempt` in order, stopping at the first error. -/
def runCallbacks : List (DB → Except Err DB) → DB → Except Err DB
  | [], tx => .ok tx
  | f :: rest, tx =>
    match f tx with
    | .error e => .error (.wrap e "saveUnconfirmed failed")
    | .ok tx1 => runCallbacks rest tx1

/-- The function `saveAttempt`: returns the error, the store, and the value left behind the
`etx` pointer. -/
def saveAttempt (db : DB) (etx : EthTx) (attempt : EthTxAttempt)
    (NewAttemptState : EthTxAttemptState) (callbacks : List (DB → Except Err DB))
    (now : Time) : Option Err × DB × EthTx :=
  if etx.State ≠ .inProgress then
    (some (.new "can only transition to unconfirmed from in_progress"), db, etx)
  else if attempt.State ≠ .inProgress then
    (some (.new "attempt must be in in_progress state"), db, etx)
  else if ¬ (NewAttemptState = .broadcast) then
    (some (.new "new attempt state must be broadcast"), db, etx)
  else
    let etx1 := { etx with State := .unconfirmed }
    let attempt1 := { attempt with State := NewAttemptState }
    match etx1.Nonce with
    | none => (some (.panic "nil pointer dereference"), db, etx1)
    | some nonce =>
      match IncrementNextNonce db etx1.FromAddress etx1.EVMChainID nonce now with
      | (some e, _) => (some (.wrap e "saveUnconfirmed failed"), db, etx1)
      | (none, tx1) =>
        match updateEthTx tx1 etx1.ID (fun r => { r with
            State := etx1.State, Error := etx1.Error, BroadcastAt := etx1.BroadcastAt,
            InitialBroadcastAt := etx1.InitialBroadcastAt }) with
        | .error e => (some (.wrap e "saveUnconfirmed failed to save eth_tx"), db, etx1)
        | .ok (tx2, row) =>
          let etx2 := scanEthTx etx1 row
          match updateEthTxAttemptState tx2 attempt1.ID attempt1.State with
          | .error e => (some (.wrap e "saveUnconfirmed failed to save eth_tx_attempt"), db, etx2)
          | .ok (tx3, _) =>
            match runCallbacks callbacks tx3 with
            | .error e => (some e, db, etx2)
            | .ok tx4 => (none, tx4, etx2)

/-- Modelled from the spec: `persist_replacement_attempt(old, new)` of section 4.2 deletes `old`
and inserts `new` in one database transaction, both in state in_progress
(`saveReplacementInProgressAttempt` is defined elsewhere in the package). -/
def saveReplacementInProgressAttempt (db : DB) (oldAttempt replacementAttempt : EthTxAttempt) :
    Option Err × DB × EthTxAttempt :=
  if oldAttempt.State ≠ .inProgress ∨ replacementAttempt.State ≠ .inProgress then
    (some (.new "expected attempts to be in_progress"), db, replacementAttempt)
  else
    let tx1 := { db with eth_tx_attempts :=
      db.eth_tx_attempts.filter (fun a => decide (a.ID ≠ oldAttempt.ID)) }
    match insertEthTxAttempt tx1 replacementAttempt with
    | none =>
      (some (.new "saveReplacementInProgressAttempt failed to insert replacement attempt"), db,
        replacementAttempt)
    | some (tx2, row) => (none, tx2, row)

/-! ## The worker -/

/-- Modelled from the spec: the signing service builds an attempt in state in_progress from an
unsigned transaction and a legacy fee (`NewLegacyAttempt` is defined elsewhere in the
package); it may fail. -/
def NewLegacyAttempt (w : World) (etx : EthTx) (gasPrice : Int) (gasLimit : Nat) (s : St) :
    Except Err EthTxAttempt × St :=
  match w.SignTx s.tick etx with
  | .error m => (.error (.new m), s.next)
  | .ok hash =>
    (.ok { ID := 0, EthTxID := etx.ID, GasPrice := some gasPrice, GasTipCap := none,
           GasFeeCap := none, ChainSpecificGasLimit := gasLimit, Hash := hash,
           State := .inProgress, TxType := 0 }, s.next)

/-- Modelled from the spec: the signing service builds an attempt in state in_progress from an
unsigned transaction and a dynamic fee (`NewDynamicFeeAttempt` is defined elsewhere in the
package); it may fail. -/
def NewDynamicFeeAttempt (w : World) (etx : EthTx) (fee : DynamicFee) (gasLimit : Nat) (s : St) :
    Except Err EthTxAttempt × St :=
  match w.SignTx s.tick etx with
  | .error m => (.error (.new m), s.next)
  | .ok hash =>
    (.ok { ID := 0, EthTxID := etx.ID, GasPrice := none, GasTipCap := fee.TipCap,
           GasFeeCap := fee.FeeCap, ChainSpecificGasLimit := gasLimit, Hash := hash,
           State := .inProgress, TxType := 2 }, s.next)

/-- Lines 698 to 705 of `saveFatallyErroredTransaction`: the resume callback is called when the
transaction has a pipeline task run and a callback is configured. -/
def callResume (w : World) (etx : EthTx) (msg : String) (s : St) : Option ResumeErr × St :=
  match etx.PipelineTaskRunID, w.resumeCallback with
  | some id, some cb =>
    (cb s.tick id ("fatal error while sending transaction: " ++ msg),
      (s.next).record (.resume id ("fatal error while sending transaction: " ++ msg)))
  | _, _ => (none, s)

/-- The function `saveFatallyErroredTransaction`. -/
def saveFatallyErroredTransaction (w : World) (etx : EthTx) (s : St) : Option Err × St :=
  if etx.State ≠ .inProgress then
    (some (.new "can only transition to fatal_error from in_progress"), s)
  else
    match etx.Error with
    | none => (some (.new "expected error field to be set"), s)
    | some msg =>
      match callResume w etx msg s with
      | (some (.failed m), s1) => (some (.wrap (.new m) "failed to resume pipeline"), s1)
      | (_, s1) =>
        let etx1 := { etx with Nonce := none, State := .fatalError }
        let tx1 := { s1.db with eth_tx_attempts :=
          s1.db.eth_tx_attempts.filter (fun a => decide (a.EthTxID ≠ etx1.ID)) }
        match updateEthTx tx1 etx1.ID (fun r => { r with
            State := etx1.State, Error := etx1.Error, BroadcastAt := none,
            InitialBroadcastAt := none, Nonce := none }) with
        | .error e =>
          (some (.wrap e "saveFatallyErroredTransaction failed to save eth_tx"), s1)
        | .ok (tx2, row) =>
          (none, ({ s1 with db := tx2 }).record (.persistFatal (scanEthTx etx1 row) tx2))

/-- The function `tryAgainWithNewLegacyGas`; `handle` is the recursive call of
`handleInProgressEthTx`. -/
def tryAgainWithNewLegacyGas (w : World) (handle : EthTx → EthTxAttempt → Time → St → Result × St)
    (etx : EthTx) (attempt : EthTxAttempt) (initialBroadcastAt : Time) (newGasPrice : Int)
    (newGasLimit : Nat) (s : St) : Result × St :=
  match NewLegacyAttempt w etx newGasPrice newGasLimit s with
  | (.error e, s1) => (.ret (some (.wrap e "tryAgainWithNewLegacyGas failed")), s1)
  | (.ok replacementAttempt, s1) =>
    match saveReplacementInProgressAttempt s1.db attempt replacementAttempt with
    | (some e, _, _) => (.ret (some (.wrap e "tryAgainWithNewLegacyGas failed")), s1)
    | (none, db1, replacementAttempt1) =>
      handle etx replacementAttempt1 initialBroadcastAt
        (({ s1 with db := db1 }).record (.replaceAttempt attempt replacementAttempt1 db1))

/-- The function `tryAgainWithNewDynamicFeeGas`. -/
def tryAgainWithNewDynamicFeeGas (w : World)
    (handle : EthTx → EthTxAttempt → Time → St → Result × St)
    (etx : EthTx) (attempt : EthTxAttempt) (initialBroadcastAt : Time) (newDynamicFee : DynamicFee)
    (newGasLimit : Nat) (s : St) : Result × St :=
  match NewDynamicFeeAttempt w etx newDynamicFee newGasLimit s with
  | (.error e, s1) => (.ret (some (.wrap e "tryAgainWithNewDynamicFeeGas failed")), s1)
  | (.ok replacementAttempt, s1) =>
    match saveReplacementInProgressAttempt s1.db attempt replacementAttempt with
    | (some e, _, _) => (.ret (some (.wrap e "tryAgainWithNewDynamicFeeGas failed")), s1)
    | (none, db1, replacementAttempt1) =>
      handle etx replacementAttempt1 initialBroadcastAt
        (({ s1 with db := db1 }).record (.replaceAttempt attempt replacementAttempt1 db1))

/-- The function `tryAgainBumpingLegacyGas`.  Comparing with a nil `big.Int` panics. -/
def tryAgainBumpingLegacyGas (w : World) (handle : EthTx → EthTxAttempt → Time → St → Result × St)
    (etx : EthTx) (attempt : EthTxAttempt) (initialBroadcastAt : Time) (s : St) : Result × St :=
  match w.BumpLegacyGas s.tick attempt.GasPrice etx.GasLimit with
  | .error m => (.ret (some (.wrap (.new m) "tryAgainBumpingLegacyGas failed")), s.next)
  | .ok (bumpedGasPrice, bumpedGasLimit) =>
    match attempt.GasPrice with
    | none => (.ret (some (.panic "nil pointer dereference")), s.next)
    | some gasPrice =>
      if bumpedGasPrice = gasPrice ∨ bumpedGasPrice ≥ w.EvmMaxGasPriceWei then
        (.ret (some (.new
          "Hit gas price bump ceiling, will not bump further. This is a terminal error")), s.next)
      else
        tryAgainWithNewLegacyGas w handle etx attempt initialBroadcastAt bumpedGasPrice
          bumpedGasLimit s.next

/-- The four comparisons of the ceiling test of `tryAgainBumpingDynamicFeeGas`, left to right
with the short circuit of `||`; `none` is the panic of a comparison with a nil `big.Int`. -/
def dynamicFeeCeiling (w : World) (bumpedFee : DynamicFee) (attempt : EthTxAttempt) :
    Option Bool :=
  match bumpedFee.TipCap, attempt.GasTipCap with
  | some tip, some oldTip =>
    if tip = oldTip then some true
    else
      match bumpedFee.FeeCap, attempt.GasFeeCap with
      | some fee, some oldFee =>
        if fee = oldFee then some true
        else if tip ≥ w.EvmMaxGasPriceWei then some true
        else if tip ≥ w.EvmMaxGasPriceWei then some true
        else some false
      | _, _ => none
  | _, _ => none

/-- The function `tryAgainBumpingDynamicFeeGas`. -/
def tryAgainBumpingDynamicFeeGas (w : World)
    (handle : EthTx → EthTxAttempt → Time → St → Result × St)
    (etx : EthTx) (attempt : EthTxAttempt) (initialBroadcastAt : Time) (s : St) : Result × St :=
  match w.BumpDynamicFee s.tick attempt.DynamicFee etx.GasLimit with
  | .error m => (.ret (some (.wrap (.new m) "tryAgainBumpingDynamicFeeGas failed")), s.next)
  | .ok (bumpedFee, bumpedGasLimit) =>
    match dynamicFeeCeiling w bumpedFee attempt with
    | none => (.ret (some (.panic "nil pointer dereference")), s.next)
    | some true =>
      (.ret (some (.new
        "Hit gas price bump ceiling, will not bump further. This is a terminal error")), s.next)
    | some false =>
      tryAgainWithNewDynamicFeeGas w handle etx attempt initialBroadcastAt bumpedFee
        bumpedGasLimit s.next

/-- The function `tryAgainBumpingGas`. -/
def tryAgainBumpingGas (w : World) (handle : EthTx → EthTxAttempt → Time → St → Result × St)
    (etx : EthTx) (attempt : EthTxAttempt) (initialBroadcastAt : Time) (s : St) : Result × St :=
  if attempt.TxType = 0 then
    tryAgainBumpingLegacyGas w handle etx attempt initialBroadcastAt s
  else if attempt.TxType = 2 then
    tryAgainBumpingDynamicFeeGas w handle etx attempt initialBroadcastAt s
  else
    (.ret (some (.new "invariant violation: Attempt had unrecognised transaction type")), s)

/-- The function `tryAgainWithNewEstimation`. -/
def tryAgainWithNewEstimation (w : World)
    (handle : EthTx → EthTxAttempt → Time → St → Result × St)
    (etx : EthTx) (attempt : EthTxAttempt) (initialBroadcastAt : Time) (s : St) : Result × St :=
  if attempt.TxType = 2 then
    (.ret (some (.new
      "AssumptionViolation: re-estimation is not supported for EIP-1559 transactions")), s)
  else
    match w.GetLegacyGas s.tick etx.EncodedPayload etx.GasLimit true with
    | .error m =>
      (.ret (some (.wrap (.new m) "tryAgainWithNewEstimation failed to estimate gas")), s.next)
    | .ok (gasPrice, gasLimit) =>
      tryAgainWithNewLegacyGas w handle etx attempt initialBroadcastAt gasPrice gasLimit s.next

/-- Lines 500 to 502 of `handleInProgressEthTx`: the attempt was accepted, record it with
`saveAttempt`. -/
def saveBroadcast (w : World) (etx : EthTx) (attempt : EthTxAttempt) (s : St) : Result × St :=
  match saveAttempt s.db etx attempt .broadcast [] (w.now s.tick) with
  | (some e, _, _) => (.ret (some e), s.next)
  | (none, db1, etx2) =>
    (.ret none, (({ s with db := db1 }).next).record (.persistBroadcast etx2 attempt db1))

/-- Lines 399 to 507 of `handleInProgressEthTx`: what is done with the answer of the remote
node. -/
def handleSendError (w : World) (handle : EthTx → EthTxAttempt → Time → St → Result × St)
    (etx : EthTx) (attempt : EthTxAttempt) (initialBroadcastAt : Time)
    (sendError : Option SendError) (s : St) : Result × St :=
  if SendError.IsTooExpensive sendError then
    let r := saveFatallyErroredTransaction w { etx with Error := some (SendError.Error sendError) } s
    (.ret r.1, r.2)
  else if SendError.Fatal sendError then
    let r := saveFatallyErroredTransaction w { etx with Error := some (SendError.Error sendError) } s
    (.ret r.1, r.2)
  else
    let etx1 := { etx with InitialBroadcastAt := some initialBroadcastAt,
                           BroadcastAt := some initialBroadcastAt }
    let sendError1 :=
      if SendError.IsNonceTooLowError sendError || SendError.IsTransactionAlreadyMined sendError
          || SendError.IsReplacementUnderpriced sendError then none else sendError
    if SendError.IsTerminallyUnderpriced sendError1 then
      tryAgainBumpingGas w handle etx1 attempt initialBroadcastAt s
    else if SendError.IsOptimismFeeTooLow sendError1 || SendError.IsOptimismFeeTooHigh sendError1 then
      if w.IsOptimismClone then
        tryAgainWithNewEstimation w handle etx1 attempt initialBroadcastAt s
      else
        (.ret (some (.wrap (.send sendError1)
          "this error type only handled for Optimism and clones")), s)
    else
      let sendError2 := if SendError.IsTemporarilyUnderpriced sendError1 then none else sendError1
      if SendError.IsInsufficientEth sendError2 then
        (.ret (some (.send sendError2)), s)
      else if sendError2 = none then
        saveBroadcast w etx1 attempt s
      else
        (.ret (some (.wrap (.send sendError2) "error while sending transaction")), s)

/-- There can be at most one in_progress transaction per address.  Here we complete the job
that we did not finish last time. -/
def handleInProgressEthTx (w : World) : Nat → EthTx → EthTxAttempt → Time → St → Result × St
  | 0, _, _, _, s => (.outOfFuel, s)
  | fuel + 1, etx, attempt, initialBroadcastAt, s =>
    if etx.State ≠ .inProgress then
      (.ret (some (.new "invariant violation: expected transaction to be in_progress")), s)
    else
      match w.GetChecker etx with
      | some m => (.ret (some (.wrap (.new m) "parsing transmit checker")), s)
      | none =>
        match w.BuildChecker etx with
        | some m => (.ret (some (.wrap (.new m) "building transmit checker")), s)
        | none =>
          let err := w.Check s.tick etx attempt
          let s1 := s.next
          let refused : Option CheckErr :=
            match err with
            | none => none
            | some e => if e.isCanceled then none else some e
          match refused with
          | some e =>
            let r := saveFatallyErroredTransaction w { etx with Error := some e.Error } s1
            (.ret r.1, r.2)
          | none =>
            let sendError := w.sendTransaction s1.tick attempt etx
            let s2 := (s1.next).record (.submit etx attempt)
            handleSendError w (handleInProgressEthTx w fuel) etx attempt initialBroadcastAt
              sendError s2

/-- The function `handleAnyInProgressEthTx` checks if there is any transaction in_progress and
if so, finishes the job. -/
def handleAnyInProgressEthTx (w : World) (fuel : Nat) (fromAddress : Address) (s : St) :
    Result × St :=
  let got := getInProgressEthTx s.db fromAddress
  if ctxErr w s then (.ret none, s.next)
  else
    match got with
    | .error e => (.ret (some (.wrap e "handleAnyInProgressEthTx failed")), s.next)
    | .ok none => (.ret none, s.next)
    | .ok (some etx) =>
      match etx.EthTxAttempts with
      | [] => (.ret (some (.panic "index out of range")), s.next)
      | a :: _ =>
        match handleInProgressEthTx w fuel etx a etx.CreatedAt s.next with
        | (.ret (some e), s1) => (.ret (some (.wrap e "handleAnyInProgressEthTx failed")), s1)
        | r => r

/-- What one pass through the body of the `for` loop of `processUnstartedEthTxs` ends in. -/
inductive Step
  | continue
  | done (r : Result)
  deriving DecidableEq, Repr

/-- Lines 288 to 307 of `processUnstartedEthTxs`: estimate the fee and build the attempt, in the
configured fee mode. -/
def newAttempt (w : World) (etx : EthTx) (s : St) : Except Err EthTxAttempt × St :=
  if w.EvmEIP1559DynamicFees then
    match w.GetDynamicFee s.tick etx.GasLimit with
    | .error m => (.error (.wrap (.new m) "failed to get dynamic gas fee"), s.next)
    | .ok (fee, gasLimit) =>
      match NewDynamicFeeAttempt w etx fee gasLimit s.next with
      | (.error e, s1) => (.error (.wrap e "processUnstartedEthTxs failed"), s1)
      | (.ok a, s1) => (.ok a, s1)
  else
    match w.GetLegacyGas s.tick etx.EncodedPayload etx.GasLimit false with
    | .error m => (.error (.wrap (.new m) "failed to estimate gas"), s.next)
    | .ok (gasPrice, gasLimit) =>
      match NewLegacyAttempt w etx gasPrice gasLimit s.next with
      | (.error e, s1) => (.error (.wrap e "processUnstartedEthTxs failed"), s1)
      | (.ok a, s1) => (.ok a, s1)

/-- Lines 309 to 318 of `processUnstartedEthTxs`: save the transaction as in_progress and hand it
to `handleInProgressEthTx`. -/
def promoteAndHandle (w : World) (fuel : Nat) (etx : EthTx) (a : EthTxAttempt) (s1 : St) :
    Step × St :=
  match saveInProgressTransaction s1.db etx a with
  | (some e, _, _, _) =>
    if e.isEthTxRemoved then (.continue, s1)
    else (.done (.ret (some (.wrap e "processUnstartedEthTxs failed"))), s1)
  | (none, db1, etx1, a1) =>
    let s2 := ({ s1 with db := db1 }).record (.persistInProgress etx1 a1 db1)
    let now := w.now s2.tick
    match handleInProgressEthTx w fuel etx1 a1 now s2.next with
    | (.ret none, s3) => (.continue, s3)
    | (.ret (some e), s3) =>
      (.done (.ret (some (.wrap e "processUnstartedEthTxs failed"))), s3)
    | (.outOfFuel, s3) => (.done .outOfFuel, s3)

/-- One pass through the body of the `for` loop of `processUnstartedEthTxs`. -/
def processUnstartedEthTxsBody (w : World) (fuel : Nat) (fromAddress : Address) (s : St) :
    Step × St :=
  let maxInFlightTransactions := w.EvmMaxInFlightTransactions
  if maxInFlightTransactions > 0 ∧
      CountUnconfirmedTransactions s.db fromAddress w.chainID ≥ maxInFlightTransactions then
    (.continue, s)
  else
    match nextUnstartedTransactionWithNonce w s.db fromAddress with
    | .error e => (.done (.ret (some (.wrap e "processUnstartedEthTxs failed"))), s)
    | .ok none => (.done (.ret none), s)
    | .ok (some etx) =>
      match newAttempt w etx s with
      | (.error e, s1) => (.done (.ret (some e)), s1)
      | (.ok a, s1) => promoteAndHandle w fuel etx a s1

/-- The `for` loop of `processUnstartedEthTxs`; `fuel` bounds the recursion of every call of
`handleInProgressEthTx`, the next argument the number of passes. -/
def processUnstartedEthTxsLoop (w : World) (fuel : Nat) (fromAddress : Address) :
    Nat → St → Result × St
  | 0, s => (.outOfFuel, s)
  | n + 1, s =>
    match processUnstartedEthTxsBody w fuel fromAddress s with
    | (.continue, s1) => processUnstartedEthTxsLoop w fuel fromAddress n s1
    | (.done r, s1) => (r, s1)

/-- First handle any in_progress transactions left over from last time.  Then keep looking up
unstarted transactions and processing them until there are none remaining. -/
def processUnstartedEthTxs (w : World) (fuel : Nat) (fromAddress : Address) (s : St) :
    Result × St :=
  match handleAnyInProgressEthTx w fuel fromAddress s with
  | (.outOfFuel, s1) => (.outOfFuel, s1)
  | (.ret err, s1) =>
    if ctxErr w s1 then (.ret none, s1.next)
    else
      match err with
      | some e => (.ret (some (.wrap e "processUnstartedEthTxs failed")), s1.next)
      | none => processUnstartedEthTxsLoop w fuel fromAddress fuel s1.next

/-! ## Classifications used by the statements -/

/-- The check lets the attempt through: it returned nil, or an error that is
`context.Canceled`. -/
def checkPasses (r : Option CheckErr) : Bool :=
  match r with
  | none => true
  | some e => e.isCanceled

/-- A send error that is insufficient-funds and answers no to every question asked before that
one: too expensive, fatal, nonce too low, already mined, replacement underpriced, terminally
underpriced, Optimism fee too low or too high, temporarily underpriced. -/
def classifiedInsufficientFunds (e : SendError) : Bool :=
  e.insufficientEth && !e.tooExpensive && !e.fatal && !e.nonceTooLow
    && !e.transactionAlreadyMined && !e.replacementUnderpriced && !e.terminallyUnderpriced
    && !e.optimismFeeTooLow && !e.optimismFeeTooHigh && !e.temporarilyUnderpriced

/-- A queued transaction of sender 10 on chain 1. -/
def queuedTx : EthTx where
  ID := 1
  Nonce := none
  FromAddress := 10
  EVMChainID := 1
  EncodedPayload := 0
  Value := 0
  GasLimit := 21000
  Error := none
  BroadcastAt := none
  InitialBroadcastAt := none
  CreatedAt := 5
  State := .unstarted
  TransmitChecker := 0
  PipelineTaskRunID := none
  Subject := none
  EthTxAttempts := []

/-- The same transaction after promotion with nonce 7. -/
def pendingTx : EthTx := { queuedTx with Nonce := some 7, State := .inProgress }

/-- The legacy attempt of `pendingTx`. -/
def pendingAttempt : EthTxAttempt where
  ID := 1
  EthTxID := 1
  GasPrice := some 20
  GasTipCap := none
  GasFeeCap := none
  ChainSpecificGasLimit := 21000
  Hash := 1000
  State := .inProgress
  TxType := 0

/-- The counter of sender 10 on chain 1 stands at 7. -/
def keyRow : KeyState := { Address := 10, EVMChainID := 1, NextNonce := 7, UpdatedAt := 0 }

/-- Sender 10 with `next_nonce = 7` and one unstarted transaction. -/
def queuedStore : DB :=
  { eth_txes := [queuedTx], eth_tx_attempts := [], eth_key_states := [keyRow] }

/-- Sender 10 with `next_nonce = 7` and one in_progress transaction holding nonce 7. -/
def pendingStore : DB :=
  { eth_txes := [pendingTx], eth_tx_attempts := [pendingAttempt], eth_key_states := [keyRow] }

/-- A world in which every collaborator succeeds and the remote node accepts. -/
def quietWorld : World where
  chainID := 1
  EvmMaxInFlightTransactions := 0
  EvmEIP1559DynamicFees := false
  EvmMaxGasPriceWei := 1000
  IsOptimismClone := false
  cancelAt := none
  now := fun t => 100 + t
  GetLegacyGas := fun _ _ g _ => .ok (20, g)
  GetDynamicFee := fun _ g => .ok ({ FeeCap := some 30, TipCap := some 2 }, g)
  BumpLegacyGas := fun _ p g => .ok (p.getD 0 + 10, g)
  BumpDynamicFee := fun _ f g =>
    .ok ({ FeeCap := f.FeeCap.map (· + 10), TipCap := f.TipCap.map (· + 1) }, g)
  SignTx := fun t _ => .ok (1000 + t)
  GetChecker := fun _ => none
  BuildChecker := fun _ => none
  Check := fun _ _ _ => none
  sendTransaction := fun _ _ _ => none
  resumeCallback := none

/-- A send error of one category only. -/
def plainSendError : SendError where
  message := "rejected"
  tooExpensive := false
  fatal := false
  nonceTooLow := false
  transactionAlreadyMined := false
  replacementUnderpriced := false
  terminallyUnderpriced := false
  optimismFeeTooLow := false
  optimismFeeTooHigh := false
  temporarilyUnderpriced := false
  insufficientEth := false

/-- The remote node answers insufficient funds. -/
def brokeWorld : World :=
  { quietWorld with
    sendTransaction := fun _ _ _ => some { plainSendError with insufficientEth := true } }

/-- The state a worker starts from. -/
def St.init (db : DB) : St := { db := db, tick := 0, log := [] }

/-- The transmit check runs into its deadline. -/
def deadlineWorld : World :=
  { quietWorld with Check := fun _ _ _ => some .deadlineExceeded }

/-- The transmit check is cut short by the cancellation of the context. -/
def canceledWorld : World :=
  { quietWorld with Check := fun _ _ _ => some .canceled }

/-- A world whose maximum gas price is just above the price of `pendingAttempt`. -/
def cappedWorld : World := { quietWorld with EvmMaxGasPriceWei := 25 }

/-! ## Invariants of the worker -/

/-- What a run from `s` to the result `r` has to leave behind: the invariant `P` on the store and
the history, `Q` on the store when nil is returned, and a call counter that did not go back. -/
def Post (P : DB → List Event → Prop) (Q : DB → Prop) (s : St) (r : Result × St) : Prop :=
  P r.2.db r.2.log ∧ (r.1 = .ret none → Q r.2.db) ∧ s.tick ≤ r.2.tick

/-- The two predicates `P` (on store and history) and `C` (between the transaction and attempt
that `handleInProgressEthTx` holds in memory and the store) are kept by every committed mutation
of the worker of `fromAddress`, and `Q` holds of the store once a transaction has been handled. -/
structure Closed (w : World) (fromAddress : Address) (P : DB → List Event → Prop)
    (C : EthTx → EthTxAttempt → DB → Prop) (Q : DB → Prop) : Prop where
  submit : ∀ db log etx a, P db log → P db (.submit etx a :: log)
  resume : ∀ db log id m, P db log → P db (.resume id m :: log)
  memory : ∀ db (etx etx1 : EthTx) a, etx1.ID = etx.ID → etx1.FromAddress = etx.FromAddress →
    etx1.EVMChainID = etx.EVMChainID → etx1.Nonce = etx.Nonce → etx1.State = etx.State →
    C etx a db → C etx1 a db
  replace : ∀ db log etx a (repl : EthTxAttempt) db1 row, P db log → C etx a db →
    repl.EthTxID = etx.ID → repl.State = .inProgress →
    saveReplacementInProgressAttempt db a repl = (none, db1, row) →
    P db1 (.replaceAttempt a row db1 :: log) ∧ C etx row db1
  broadcast : ∀ db log etx a now db1 etx2, P db log → C etx a db →
    saveAttempt db etx a .broadcast [] now = (none, db1, etx2) →
    P db1 (.persistBroadcast etx2 a db1 :: log) ∧ Q db1
  fatal : ∀ (s : St) etx a s1, P s.db s.log → C etx a s.db →
    saveFatallyErroredTransaction w etx s = (none, s1) → P s1.db s1.log ∧ Q s1.db
  promote : ∀ db log etx (a : EthTxAttempt) db1 etx1 a1, P db log → Q db →
    nextUnstartedTransactionWithNonce w db fromAddress = .ok (some etx) →
    a.EthTxID = etx.ID → a.State = .inProgress →
    saveInProgressTransaction db etx a = (none, db1, etx1, a1) →
    P db1 (.persistInProgress etx1 a1 db1 :: log) ∧ C etx1 a1 db1
  recover : ∀ db log etx a rest, P db log →
    getInProgressEthTx db fromAddress = .ok (some etx) → etx.EthTxAttempts = a :: rest →
    C etx a db
  idle : ∀ db log, P db log → getInProgressEthTx db fromAddress = .ok none → Q db

/-- The contract of the recursive call inside the retry functions. -/
def HandleSpec (P : DB → List Event → Prop) (C : EthTx → EthTxAttempt → DB → Prop)
    (Q : DB → Prop) (handle : EthTx → EthTxAttempt → Time → St → Result × St) : Prop :=
  ∀ etx a t s, P s.db s.log → C etx a s.db → Post P Q s (handle etx a t s)

/-- The worker of `fromAddress` run for one cycle per entry of the list, the entry being the
fuel of that cycle. -/
def runCycles (w : World) (fromAddress : Address) : List Nat → St → St
  | [], s => s
  | fuel :: rest, s => runCycles w fromAddress rest (processUnstartedEthTxs w fuel fromAddress s).2

/-- What a pass of the loop body from `s` has to leave behind. -/
def PostStep (P : DB → List Event → Prop) (Q : DB → Prop) (s : St) (r : Step × St) : Prop :=
  P r.2.db r.2.log ∧ (r.1 = .continue → Q r.2.db) ∧ s.tick ≤ r.2.tick

/-- The row is an in_progress transaction of the sender. -/
def inProgressOf (fromAddress : Address) (r : EthTx) : Bool :=
  decide (r.FromAddress = fromAddress) && decide (r.State = .inProgress)

/-- P2 on one store: the sender has at most one in_progress transaction, and every in_progress
transaction of the sender has exactly one attempt, which is in state in_progress. -/
def SingleInProgress (fromAddress : Address) (db : DB) : Prop :=
  db.eth_txes.countP (inProgressOf fromAddress) ≤ 1
  ∧ ∀ r ∈ db.eth_txes, inProgressOf fromAddress r = true →
      ∃ a, db.eth_tx_attempts.filter (fun x => decide (x.EthTxID = r.ID)) = [a]
        ∧ a.State = .inProgress

/-- The store a worker may start from: transaction ids are unique (primary key), P2 holds, and a
transaction of the sender that is still unstarted has no attempt (attempts are created by the
promotion). -/
structure WellFormed (fromAddress : Address) (db : DB) : Prop where
  ids : (db.eth_txes.map (fun r => r.ID)).Nodup
  single : SingleInProgress fromAddress db
  unstarted : ∀ r ∈ db.eth_txes, r.FromAddress = fromAddress → r.State = .unstarted →
    ∀ a ∈ db.eth_tx_attempts, a.EthTxID ≠ r.ID

/-- The store committed by an event, if the event is a commit. -/
def Event.snapshot : Event → Option DB
  | .persistInProgress _ _ d => some d
  | .replaceAttempt _ _ d => some d
  | .persistBroadcast _ _ d => some d
  | .persistFatal _ d => some d
  | .submit _ _ => none
  | .resume _ _ => none

/-- P2 on a history: every committed store satisfies P2, and in the store committed by a
promotion the promoted transaction is the only in_progress one of the sender. -/
def CommitsSingle (fromAddress : Address) (log : List Event) : Prop :=
  ∀ e ∈ log,
    (∀ d, e.snapshot = some d → SingleInProgress fromAddress d)
    ∧ (∀ etx a d, e = .persistInProgress etx a d →
        ∀ r ∈ d.eth_txes, inProgressOf fromAddress r = true → r.ID = etx.ID)

/-- The transaction held in memory mirrors a stored in_progress row of the sender. -/
def Mirrors (fromAddress : Address) (etx : EthTx) (db : DB) : Prop :=
  ∃ r ∈ db.eth_txes, r.ID = etx.ID ∧ r.FromAddress = fromAddress ∧ r.State = .inProgress
    ∧ etx.FromAddress = r.FromAddress ∧ etx.EVMChainID = r.EVMChainID ∧ etx.Nonce = r.Nonce
    ∧ etx.State = r.State

/-- The transaction held in memory mirrors the only in_progress row of the sender. -/
def Tracks (fromAddress : Address) (etx : EthTx) (db : DB) : Prop :=
  Mirrors fromAddress etx db
  ∧ ∀ r ∈ db.eth_txes, inProgressOf fromAddress r = true → r.ID = etx.ID

/-- The transaction held in memory is the only in_progress one of the sender and the attempt
held in memory is its only stored attempt. -/
def Holds (fromAddress : Address) (etx : EthTx) (a : EthTxAttempt) (db : DB) : Prop :=
  Tracks fromAddress etx db
  ∧ db.eth_tx_attempts.filter (fun x => decide (x.EthTxID = etx.ID)) = [a]
  ∧ a.State = .inProgress

/-- The sender has no in_progress transaction. -/
def NoInProgress (fromAddress : Address) (db : DB) : Prop :=
  ∀ r ∈ db.eth_txes, inProgressOf fromAddress r = false

/-! ## The nonce ledger -/

deriving instance DecidableEq for Except

/-- The nonces held by the transactions of an address and chain that are in one of the given
states. -/
def assignedNonces (states : List EthTxState) (db : DB) (address : Address) (chainID : ChainID) :
    List Int :=
  (db.eth_txes.filter (fun r => decide (r.FromAddress = address)
      && decide (r.EVMChainID = chainID) && decide (r.State ∈ states))).filterMap
    (fun r => r.Nonce)

/-- The largest element of a list of integers. -/
def largest : List Int → Option Int
  | [] => none
  | n :: l =>
    match largest l with
    | none => some n
    | some m => some (max n m)

/-- The counter of the address and chain equals 1 + the largest nonce held in one of the given
states, or the initial value `n0` when none is held. -/
def CounterEqualsHistory (states : List EthTxState) (n0 : Int) (db : DB) (address : Address)
    (chainID : ChainID) : Prop :=
  GetNextNonce db address chainID =
    .ok (match largest (assignedNonces states db address chainID) with
         | some m => m + 1
         | none => n0)

/-- The data-model invariants the counter depends on: unique transaction ids, at most one
in_progress transaction of the sender, an in_progress transaction that holds a nonce is on the
chain of the worker and holds the value of the counter, and the counter equals 1 + the largest
nonce of the unconfirmed and confirmed transactions (or its initial value). -/
structure Ledger (fromAddress : Address) (chainID : ChainID) (n0 : Int) (db : DB) : Prop where
  ids : (db.eth_txes.map (fun r => r.ID)).Nodup
  single : db.eth_txes.countP (inProgressOf fromAddress) ≤ 1
  pending : ∀ r ∈ db.eth_txes, inProgressOf fromAddress r = true → ∀ n, r.Nonce = some n →
    r.EVMChainID = chainID ∧ GetNextNonce db fromAddress chainID = .ok n
  history : CounterEqualsHistory [.unconfirmed, .confirmed] n0 db fromAddress chainID


/-! ## The sequence of broadcast nonces -/

/-- The nonces of the transactions moved to unconfirmed, in the order of the broadcasts (the
history is kept newest first). -/
def broadcastNonces : List Event → List (Option Int)
  | [] => []
  | .persistBroadcast etx _ _ :: log => broadcastNonces log ++ [etx.Nonce]
  | .persistInProgress _ _ _ :: log => broadcastNonces log
  | .replaceAttempt _ _ _ :: log => broadcastNonces log
  | .persistFatal _ _ :: log => broadcastNonces log
  | .submit _ _ :: log => broadcastNonces log
  | .resume _ _ :: log => broadcastNonces log

/-- The nonces `n0, n0+1, ..., n0+k-1`. -/
def nonceRun (n0 : Int) (k : Nat) : List (Option Int) :=
  (List.range k).map (fun (i : Nat) => some (n0 + (i : Int)))

/-- The broadcasts of the history carry the nonces from `n0` on without gap or repeat and the
counter is the next one; transaction ids are unique; a counter row of the address and chain
is below `n0` or not below the counter; a transaction of the sender that holds a nonce is on the
chain of the worker and its nonce lies between `n0` and the counter. -/
structure Sequenced (address : Address) (chainID : ChainID) (n0 : Int) (db : DB)
    (log : List Event) : Prop where
  ids : (db.eth_txes.map (fun r => r.ID)).Nodup
  run : broadcastNonces log = nonceRun n0 (broadcastNonces log).length
  counter : GetNextNonce db address chainID = .ok (n0 + ((broadcastNonces log).length : Int))
  keys : ∀ k ∈ db.eth_key_states, k.Address = address → k.EVMChainID = chainID →
    k.NextNonce < n0 ∨ n0 + ((broadcastNonces log).length : Int) ≤ k.NextNonce
  held : ∀ r ∈ db.eth_txes, r.FromAddress = address → ∀ n, r.Nonce = some n →
    r.EVMChainID = chainID ∧ n0 ≤ n ∧ n ≤ n0 + ((broadcastNonces log).length : Int)

/-- Sender 10 with `next_nonce = 7` and two unstarted transactions. -/
def queuedPair : DB :=
  { eth_txes := [queuedTx, { queuedTx with ID := 2, CreatedAt := 6 }], eth_tx_attempts := [],
    eth_key_states := [keyRow] }

/-! ## Definitions for the later statements -/

/-- The number of calls of the resume callback in a history. -/
def resumeCalls : List Event → Nat
  | [] => 0
  | .resume _ _ :: log => resumeCalls log + 1
  | .persistInProgress _ _ _ :: log => resumeCalls log
  | .replaceAttempt _ _ _ :: log => resumeCalls log
  | .persistBroadcast _ _ _ :: log => resumeCalls log
  | .persistFatal _ _ :: log => resumeCalls log
  | .submit _ _ :: log => resumeCalls log

/-- The store after `persist_fatal` of the transaction with the given id and error text: its
attempts are deleted and its row is fatal_error with nonce and broadcast times null. -/
def fatalStore (db : DB) (id : Nat) (msg : String) : DB :=
  { eth_txes := db.eth_txes.map (fun r => if r.ID = id then
      { r with
        State := .fatalError, Error := some msg, BroadcastAt := none,
        InitialBroadcastAt := none, Nonce := none } else r),
    eth_tx_attempts := db.eth_tx_attempts.filter (fun a => decide (a.EthTxID ≠ id)),
    eth_key_states := db.eth_key_states }

/-- The text handed to the resume callback. -/
def resumeText (msg : String) : String := "fatal error while sending transaction: " ++ msg

/-- The transaction `pendingTx` with a pipeline task run and an error set. -/
def pipelineTx : EthTx := { pendingTx with PipelineTaskRunID := some 5, Error := some "boom" }

/-- A world whose resume callback succeeds. -/
def resumingWorld : World := { quietWorld with resumeCallback := some (fun _ _ _ => none) }

/-- A world whose resume callback fails with an error other than row-missing. -/
def stuckWorld : World :=
  { quietWorld with resumeCallback := some (fun _ _ _ => some (.failed "pipeline down")) }

/-- Sender 10 with two unconfirmed transactions (nonces 5 and 6) and three unstarted ones. -/
def throttledStore : DB :=
  { eth_txes :=
      [{ queuedTx with ID := 1, Nonce := some 5, State := .unconfirmed },
       { queuedTx with ID := 2, Nonce := some 6, State := .unconfirmed },
       { queuedTx with ID := 3 }, { queuedTx with ID := 4 }, { queuedTx with ID := 5 }],
    eth_tx_attempts := [],
    eth_key_states := [keyRow] }

/-- A world that allows two transactions in flight per sender. -/
def throttlingWorld : World := { quietWorld with EvmMaxInFlightTransactions := 2 }

/-- A dynamic-fee attempt of `pendingTx`: tip cap 2, fee cap 30. -/
def dynamicAttempt : EthTxAttempt :=
  { pendingAttempt with GasPrice := none, GasTipCap := some 2, GasFeeCap := some 30, TxType := 2 }

/-- Sender 10 with one in_progress transaction holding nonce 7 and a dynamic-fee attempt. -/
def dynamicStore : DB :=
  { eth_txes := [pendingTx], eth_tx_attempts := [dynamicAttempt], eth_key_states := [keyRow] }

/-- A world (maximum gas price 1000) whose estimator bumps a dynamic fee to tip cap 3 and fee
cap 1000. -/
def steepWorld : World :=
  { quietWorld with
    BumpDynamicFee := fun _ _ g => .ok ({ FeeCap := some 1000, TipCap := some 3 }, g) }

/-- Sender 10 with two in_progress transactions, each with one in_progress attempt. -/
def twinStore : DB :=
  { eth_txes := [pendingTx, { pendingTx with ID := 2, Nonce := some 8 }],
    eth_tx_attempts := [pendingAttempt, { pendingAttempt with ID := 2, EthTxID := 2 }],
    eth_key_states := [keyRow] }

/-- What the event says of the broadcast times when it is the broadcast of transaction `id` at
reference time `t` that left the store `final`: the committed store is `final`, the row of the
transaction is stored, and every row with the id is unconfirmed with both times equal to `t`.
Other events say nothing. -/
def Event.stampedAt (t : Time) (id : Nat) (final : DB) : Event → Prop
  | .persistBroadcast etx _ d =>
    d = final ∧ etx.ID = id ∧ etx.BroadcastAt = some t ∧ etx.InitialBroadcastAt = some t
    ∧ (∃ row ∈ d.eth_txes, row.ID = id)
    ∧ ∀ row ∈ d.eth_txes, row.ID = id →
        row.State = .unconfirmed ∧ row.BroadcastAt = some t ∧ row.InitialBroadcastAt = some t
  | _ => True

/-- The run from `s` to `r` added events to the history, and every broadcast among them is
stamped with `t`. -/
def Stamps (t : Time) (id : Nat) (s : St) (r : Result × St) : Prop :=
  ∃ new, r.2.log = new ++ s.log ∧ ∀ e ∈ new, e.stampedAt t id r.2.db

/-- The transaction `pendingTx` with `initial_broadcast_at` already set to 3. -/
def stampedTx : EthTx := { pendingTx with InitialBroadcastAt := some 3 }

/-- The store `pendingStore` with `initial_broadcast_at` of the transaction already set to 3. -/
def stampedStore : DB :=
  { eth_txes := [stampedTx], eth_tx_attempts := [pendingAttempt], eth_key_states := [keyRow] }

/-- A world whose remote node answers terminally underpriced to the first submit and accepts
afterwards. -/
def retryWorld : World :=
  { quietWorld with
    sendTransaction := fun t _ _ =>
      if t ≤ 1 then some { plainSendError with terminallyUnderpriced := true } else none }

/-- Sender 10 with `next_nonce = 7` and one unstarted transaction that already has an attempt
(id 9, in state broadcast). -/
def strayStore : DB :=
  { eth_txes := [queuedTx],
    eth_tx_attempts := [{ pendingAttempt with ID := 9, State := .broadcast }],
    eth_key_states := [keyRow] }

/-- The store inside the database transaction of `saveAttempt` when its three statements have run
and no callback has run yet: the counter rows of the sender and chain that hold `n` are
advanced, the rows with the id of the transaction are unconfirmed with the error and the times of
`etx`, the rows with the id of the attempt are in state broadcast. -/
def broadcastStore (db : DB) (etx : EthTx) (attempt : EthTxAttempt) (n : Int) (now : Time) : DB :=
  { eth_txes := db.eth_txes.map (fun r => if r.ID = etx.ID then
      { r with
        State := .unconfirmed, Error := etx.Error, BroadcastAt := etx.BroadcastAt,
        InitialBroadcastAt := etx.InitialBroadcastAt } else r),
    eth_tx_attempts := db.eth_tx_attempts.map (fun r => if r.ID = attempt.ID then
      { r with State := .broadcast } else r),
    eth_key_states := db.eth_key_states.map (fun k =>
      if nonceRowMatches etx.FromAddress etx.EVMChainID n k
      then { k with NextNonce := k.NextNonce + 1, UpdatedAt := now } else k) }

/-- A finaliser callback that succeeds and leaves a mark: it sets `subject` of every
transaction to 77. -/
def markCallback : DB → Except Err DB :=
  fun d => .ok { d with eth_txes := d.eth_txes.map (fun r => { r with Subject := some 77 }) }

/-- A finaliser callback that fails. -/
def failingCallback : DB → Except Err DB := fun _ => .error (.new "finaliser failed")

/-! ## Lemmas on the statements -/

theorem nonceRowMatches_iff (address : Address) (chainID : ChainID) (e : Int) (k : KeyState) :
    nonceRowMatches address chainID e k = true ↔
      k.Address = address ∧ k.EVMChainID = chainID ∧ k.NextNonce = e := by
  simp [nonceRowMatches]; tauto

theorem map_keep_of_no_match (p : KeyState → Bool) (f : KeyState → KeyState) :
    ∀ l : List KeyState, (∀ k ∈ l, p k = false) → l.map (fun k => if p k then f k else k) = l
  | [], _ => rfl
  | k :: l, h => by
    have hk : p k = false := h k (List.mem_cons_self _ _)
    have hl := map_keep_of_no_match p f l (fun x hx => h x (List.mem_cons_of_mem _ hx))
    simp [hk, hl]

theorem forall₂_map_self {α : Type} (R : α → α → Prop) (g : α → α) (h : ∀ a, R a (g a)) :
    ∀ l : List α, List.Forall₂ R l (l.map g)
  | [] => List.Forall₂.nil
  | a :: l => List.Forall₂.cons (h a) (forall₂_map_self R g h l)

theorem updateEthTx_ok {db : DB} {id : Nat} {f : EthTx → EthTx} {db1 : DB} {row : EthTx}
    (h : updateEthTx db id f = .ok (db1, row)) :
    ∃ r0, db.eth_txes.find? (fun r => decide (r.ID = id)) = some r0 ∧ row = f r0 ∧
      db1 = { db with eth_txes := db.eth_txes.map (fun r => if r.ID = id then f r else r) } := by
  unfold updateEthTx at h
  split at h
  · cases h
  · rename_i r0 hr0
    injection h with h
    injection h with h1 h2
    exact ⟨r0, hr0, h2.symm, h1.symm⟩

theorem updateEthTx_of_find {db : DB} {id : Nat} {f : EthTx → EthTx} {r0 : EthTx}
    (h : db.eth_txes.find? (fun r => decide (r.ID = id)) = some r0) :
    updateEthTx db id f =
      .ok ({ db with eth_txes := db.eth_txes.map (fun r => if r.ID = id then f r else r) }, f r0) := by
  unfold updateEthTx
  rw [h]

theorem find_id_of_mem {l : List EthTx} {r : EthTx} (h : r ∈ l) :
    ∃ r0, l.find? (fun x => decide (x.ID = r.ID)) = some r0 := by
  cases hf : l.find? (fun x => decide (x.ID = r.ID)) with
  | some r0 => exact ⟨r0, rfl⟩
  | none =>
    rw [List.find?_eq_none] at hf
    exact absurd (by simp) (hf r h)

theorem updateEthTxAttemptState_ok {db : DB} {id : Nat} {st : EthTxAttemptState} {db1 : DB}
    {row : EthTxAttempt} (h : updateEthTxAttemptState db id st = .ok (db1, row)) :
    ∃ r0, db.eth_tx_attempts.find? (fun r => decide (r.ID = id)) = some r0 ∧
      row = { r0 with State := st } ∧
      db1 = { db with eth_tx_attempts :=
        db.eth_tx_attempts.map (fun r => if r.ID = id then { r with State := st } else r) } := by
  unfold updateEthTxAttemptState at h
  split at h
  · cases h
  · rename_i r0 hr0
    injection h with h
    injection h with h1 h2
    exact ⟨r0, hr0, h2.symm, h1.symm⟩

theorem IncrementNextNonce_snd (db : DB) (address : Address) (chainID : ChainID)
    (e : Int) (now : Time) :
    (IncrementNextNonce db address chainID e now).2 =
      { db with eth_key_states := db.eth_key_states.map (fun k =>
          if nonceRowMatches address chainID e k
          then { k with NextNonce := k.NextNonce + 1, UpdatedAt := now } else k) } := by
  simp only [IncrementNextNonce]
  split <;> rfl

theorem IncrementNextNonce_ok {db : DB} {address : Address} {chainID : ChainID}
    {e : Int} {now : Time} {db1 : DB}
    (h : IncrementNextNonce db address chainID e now = (none, db1)) :
    (∃ k ∈ db.eth_key_states, nonceRowMatches address chainID e k = true) ∧
    db1 = { db with eth_key_states := db.eth_key_states.map (fun k =>
          if nonceRowMatches address chainID e k
          then { k with NextNonce := k.NextNonce + 1, UpdatedAt := now } else k) } := by
  have h2 := IncrementNextNonce_snd db address chainID e now
  rw [h] at h2
  refine ⟨?_, h2⟩
  by_contra hne
  have h0 : db.eth_key_states.countP (nonceRowMatches address chainID e) = 0 := by
    rw [List.countP_eq_zero]
    intro k hk hm
    exact hne ⟨k, hk, hm⟩
  simp [IncrementNextNonce, h0] at h

/-- The store after a successful `saveAttempt`, written out table by table. -/
theorem saveAttempt_ok {db : DB} {etx : EthTx} {attempt : EthTxAttempt}
    {st : EthTxAttemptState} {callbacks : List (DB → Except Err DB)} {now : Time}
    {db1 : DB} {etx2 : EthTx}
    (h : saveAttempt db etx attempt st callbacks now = (none, db1, etx2)) :
    etx.State = .inProgress ∧ attempt.State = .inProgress ∧ st = .broadcast ∧
    ∃ (n : Int) (r0 : EthTx) (a0 : EthTxAttempt),
      etx.Nonce = some n
      ∧ (∃ k ∈ db.eth_key_states, nonceRowMatches etx.FromAddress etx.EVMChainID n k = true)
      ∧ db.eth_txes.find? (fun r => decide (r.ID = etx.ID)) = some r0
      ∧ db.eth_tx_attempts.find? (fun r => decide (r.ID = attempt.ID)) = some a0
      ∧ etx2 = { r0 with
                  State := .unconfirmed, Error := etx.Error, BroadcastAt := etx.BroadcastAt,
                  InitialBroadcastAt := etx.InitialBroadcastAt, EthTxAttempts := etx.EthTxAttempts }
      ∧ runCallbacks callbacks
          { eth_txes := db.eth_txes.map (fun r => if r.ID = etx.ID then
                { r with
                  State := .unconfirmed, Error := etx.Error, BroadcastAt := etx.BroadcastAt,
                  InitialBroadcastAt := etx.InitialBroadcastAt } else r),
            eth_tx_attempts := db.eth_tx_attempts.map (fun r => if r.ID = attempt.ID then
                { r with State := .broadcast } else r),
            eth_key_states := db.eth_key_states.map (fun k =>
                if nonceRowMatches etx.FromAddress etx.EVMChainID n k
                then { k with NextNonce := k.NextNonce + 1, UpdatedAt := now } else k) } = .ok db1 := by
  unfold saveAttempt at h
  split at h
  · simp at h
  split at h
  · simp at h
  split at h
  · simp at h
  rename_i hst hast hnew
  have hnew : st = .broadcast := not_not.1 hnew
  subst hnew
  simp only at h
  split at h
  · simp at h
  rename_i n hn
  split at h
  · simp at h
  rename_i tx1 hinc
  split at h
  · simp at h
  rename_i tx2 row hupd
  split at h
  · simp at h
  rename_i tx3 arow haupd
  split at h
  · simp at h
  rename_i tx4 hcb
  obtain ⟨hk, htx1⟩ := IncrementNextNonce_ok hinc
  obtain ⟨r0, hr0, hrow, htx2⟩ := updateEthTx_ok hupd
  obtain ⟨a0, ha0, harow, htx3⟩ := updateEthTxAttemptState_ok haupd
  simp only [Prod.mk.injEq, true_and] at h
  obtain ⟨h4, h5⟩ := h
  subst htx1 htx2 htx3 h4
  refine ⟨not_not.1 hst, not_not.1 hast, rfl, n, r0, a0, hn, hk, hr0, ha0, ?_, hcb⟩
  rw [← h5, hrow]
  rfl

/-- A failed `saveAttempt` leaves the store as it was. -/
theorem saveAttempt_err {db : DB} {etx : EthTx} {attempt : EthTxAttempt}
    {st : EthTxAttemptState} {callbacks : List (DB → Except Err DB)} {now : Time}
    (h : (saveAttempt db etx attempt st callbacks now).1 ≠ none) :
    (saveAttempt db etx attempt st callbacks now).2.1 = db := by
  revert h
  unfold saveAttempt
  split
  · simp
  split
  · simp
  split
  · simp
  simp only
  split
  · simp
  split
  · simp
  split
  · simp
  split
  · simp
  split
  · simp
  · simp

theorem callResume_db (w : World) (etx : EthTx) (msg : String) (s : St) :
    (callResume w etx msg s).2.db = s.db := by
  unfold callResume
  split <;> rfl

theorem callResume_log (w : World) (etx : EthTx) (msg : String) (s : St) :
    ∃ pre, (callResume w etx msg s).2.log = pre ++ s.log ∧
      ∀ e ∈ pre, ∃ id m, e = Event.resume id m := by
  unfold callResume
  split
  · exact ⟨[_], rfl, by simp⟩
  · exact ⟨[], rfl, by simp⟩

/-- The state after a successful `saveFatallyErroredTransaction`. -/
theorem saveFatallyErroredTransaction_ok {w : World} {etx : EthTx} {s s1 : St}
    (h : saveFatallyErroredTransaction w etx s = (none, s1)) :
    etx.State = .inProgress ∧
    ∃ (msg : String) (r0 : EthTx),
      etx.Error = some msg
      ∧ s.db.eth_txes.find? (fun r => decide (r.ID = etx.ID)) = some r0
      ∧ (∀ m, (callResume w etx msg s).1 ≠ some (.failed m))
      ∧ s1.db =
          { eth_txes := s.db.eth_txes.map (fun r => if r.ID = etx.ID then
              { r with
                State := .fatalError, Error := some msg, BroadcastAt := none,
                InitialBroadcastAt := none, Nonce := none } else r),
            eth_tx_attempts := s.db.eth_tx_attempts.filter (fun a => decide (a.EthTxID ≠ etx.ID)),
            eth_key_states := s.db.eth_key_states }
      ∧ s1.log = .persistFatal
            { r0 with
              State := .fatalError, Error := some msg, BroadcastAt := none,
              InitialBroadcastAt := none, Nonce := none, EthTxAttempts := etx.EthTxAttempts }
            s1.db :: (callResume w etx msg s).2.log := by
  unfold saveFatallyErroredTransaction at h
  split at h
  · simp at h
  rename_i hst
  split at h
  · simp at h
  rename_i msg hmsg
  have hdb := callResume_db w etx msg s
  generalize hres : callResume w etx msg s = res at h hdb
  obtain ⟨r, sr⟩ := res
  simp only at hdb
  split at h
  · simp at h
  rename_i r' sr' hne heq
  simp only [Prod.mk.injEq] at heq
  obtain ⟨rfl, rfl⟩ := heq
  simp only at h
  split at h
  · simp at h
  rename_i tx2 row hupd
  obtain ⟨r0, hr0, hrow, htx2⟩ := updateEthTx_ok hupd
  simp only [Prod.mk.injEq, true_and] at h
  rw [hdb] at hr0 htx2
  simp only at hr0 htx2
  refine ⟨not_not.1 hst, msg, r0, hmsg, hr0, ?_, ?_, ?_⟩
  · intro m hm
    rw [hres] at hm
    exact hne m hm
  · rw [← h, htx2]
    simp [St.record, hmsg, hdb]
  · rw [← h, hrow, hres]
    simp [St.record, scanEthTx, hmsg]

/-- A failed `saveFatallyErroredTransaction` leaves the store as it was. -/
theorem saveFatallyErroredTransaction_err {w : World} {etx : EthTx} {s : St}
    (h : (saveFatallyErroredTransaction w etx s).1 ≠ none) :
    (saveFatallyErroredTransaction w etx s).2.db = s.db := by
  revert h
  unfold saveFatallyErroredTransaction
  split
  · simp
  split
  · simp
  rename_i msg hmsg
  have hdb := callResume_db w etx msg s
  generalize callResume w etx msg s = res at hdb ⊢
  obtain ⟨r, sr⟩ := res
  simp only at hdb
  split
  · rename_i heq
    simp only [Prod.mk.injEq] at heq
    obtain ⟨_, rfl⟩ := heq
    intro _; exact hdb
  rename_i r' sr' hne heq
  simp only [Prod.mk.injEq] at heq
  obtain ⟨rfl, rfl⟩ := heq
  simp only
  split
  · intro _; exact hdb
  · simp

/-- The function `saveFatallyErroredTransaction` succeeds when the transaction is in_progress with
an error set, its row is stored and the resume callback does not fail. -/
theorem saveFatallyErroredTransaction_eq {w : World} {etx : EthTx} {s : St} {msg : String}
    {r0 : EthTx} (hst : etx.State = .inProgress) (hmsg : etx.Error = some msg)
    (hr0 : s.db.eth_txes.find? (fun r => decide (r.ID = etx.ID)) = some r0)
    (hres : ∀ m, (callResume w etx msg s).1 ≠ some (.failed m)) :
    (saveFatallyErroredTransaction w etx s).1 = none := by
  unfold saveFatallyErroredTransaction
  rw [if_neg (by simp [hst])]
  simp only [hmsg]
  have hdb := callResume_db w etx msg s
  generalize hres2 : callResume w etx msg s = res at hdb hres
  obtain ⟨r, sr⟩ := res
  simp only at hdb hres
  have hfind : List.find? (fun r => decide (r.ID = etx.ID))
      ({ sr.db with eth_tx_attempts :=
          sr.db.eth_tx_attempts.filter (fun a => decide (a.EthTxID ≠ etx.ID)) } : DB).eth_txes
        = some r0 := by rw [hdb]; exact hr0
  rcases r with _ | _ | m
  · simp only [updateEthTx_of_find hfind]
  · simp only [updateEthTx_of_find hfind]
  · exact absurd rfl (hres m)

theorem handleInProgressEthTx_send {w : World} {fuel : Nat} {etx : EthTx}
    {attempt : EthTxAttempt} {t : Time} {s : St}
    (hst : etx.State = .inProgress) (hgc : w.GetChecker etx = none)
    (hbc : w.BuildChecker etx = none) (hchk : checkPasses (w.Check s.tick etx attempt) = true) :
    handleInProgressEthTx w (fuel + 1) etx attempt t s =
      handleSendError w (handleInProgressEthTx w fuel) etx attempt t
        (w.sendTransaction (s.tick + 1) attempt etx)
        (((s.next).next).record (.submit etx attempt)) := by
  rw [handleInProgressEthTx]
  rw [if_neg (by simp [hst])]
  simp only [hgc, hbc]
  cases hc : w.Check s.tick etx attempt with
  | none => rfl
  | some c =>
    rw [hc] at hchk
    simp only [checkPasses] at hchk
    simp only [hchk, if_true]
    rfl

theorem handleInProgressEthTx_refused {w : World} {fuel : Nat} {etx : EthTx}
    {attempt : EthTxAttempt} {t : Time} {s : St} {c : CheckErr}
    (hst : etx.State = .inProgress) (hgc : w.GetChecker etx = none)
    (hbc : w.BuildChecker etx = none) (hchk : w.Check s.tick etx attempt = some c)
    (hc : c.isCanceled = false) :
    handleInProgressEthTx w (fuel + 1) etx attempt t s =
      (.ret (saveFatallyErroredTransaction w { etx with Error := some c.Error } s.next).1,
        (saveFatallyErroredTransaction w { etx with Error := some c.Error } s.next).2) := by
  rw [handleInProgressEthTx]
  rw [if_neg (by simp [hst])]
  simp only [hgc, hbc, hchk, hc]
  rfl

theorem handleSendError_insufficient {w : World}
    {handle : EthTx → EthTxAttempt → Time → St → Result × St} {etx : EthTx}
    {attempt : EthTxAttempt} {t : Time} {s : St} {e : SendError}
    (he : classifiedInsufficientFunds e = true) :
    handleSendError w handle etx attempt t (some e) s = (.ret (some (.send (some e))), s) := by
  simp only [classifiedInsufficientFunds, Bool.and_eq_true, Bool.not_eq_true'] at he
  obtain ⟨⟨⟨⟨⟨⟨⟨⟨⟨h0, h1⟩, h2⟩, h3⟩, h4⟩, h5⟩, h6⟩, h7⟩, h8⟩, h9⟩ := he
  simp [handleSendError, SendError.IsTooExpensive, SendError.Fatal, SendError.IsNonceTooLowError,
    SendError.IsTransactionAlreadyMined, SendError.IsReplacementUnderpriced,
    SendError.IsTerminallyUnderpriced, SendError.IsOptimismFeeTooLow,
    SendError.IsOptimismFeeTooHigh, SendError.IsTemporarilyUnderpriced,
    SendError.IsInsufficientEth, h0, h1, h2, h3, h4, h5, h6, h7, h8, h9]

/-- What `getInProgressEthTx` returns when it returns a transaction. -/
theorem getInProgressEthTx_some {db : DB} {A : Address} {etx : EthTx}
    (h : getInProgressEthTx db A = .ok (some etx)) :
    ∃ row a, db.eth_txes.find?
        (fun r => decide (r.FromAddress = A) && decide (r.State = .inProgress)) = some row
      ∧ etx = { row with EthTxAttempts := [a] }
      ∧ db.eth_tx_attempts.filter (fun x => decide (x.EthTxID = row.ID)) = [a]
      ∧ a.State = .inProgress := by
  unfold getInProgressEthTx at h
  split at h
  · cases h
  rename_i row hrow
  simp only [loadEthTxAttempts, scanEthTx] at h
  split at h
  · rename_i a ha
    split at h
    · cases h
    · rename_i hst
      injection h with h
      injection h with h
      refine ⟨row, a, hrow, ?_, ha, not_not.1 hst⟩
      rw [← h, ha]
  · cases h

/-! ## Lemmas on one pass of the worker -/

theorem find_attempt_id_of_mem {l : List EthTxAttempt} {a : EthTxAttempt} (h : a ∈ l) :
    ∃ a0, l.find? (fun x => decide (x.ID = a.ID)) = some a0 := by
  cases hf : l.find? (fun x => decide (x.ID = a.ID)) with
  | some a0 => exact ⟨a0, rfl⟩
  | none =>
    rw [List.find?_eq_none] at hf
    exact absurd (by simp) (hf a h)

/-- A successful `saveInProgressTransaction`, written out. -/
theorem saveInProgressTransaction_eq {db : DB} {etx : EthTx} {attempt : EthTxAttempt}
    {r0 : EthTx} (hst : etx.State = .unstarted) (hast : attempt.State = .inProgress)
    (hfk : attempt.EthTxID = etx.ID)
    (hr0 : db.eth_txes.find? (fun r => decide (r.ID = etx.ID)) = some r0) :
    saveInProgressTransaction db etx attempt =
      (none,
       ⟨db.eth_txes.map (fun r => if r.ID = etx.ID then
          { r with
            Nonce := etx.Nonce, State := .inProgress, BroadcastAt := etx.BroadcastAt,
            InitialBroadcastAt := etx.InitialBroadcastAt } else r),
        db.eth_tx_attempts ++ [{ attempt with ID := freshAttemptID db }],
        db.eth_key_states⟩,
       { r0 with
         Nonce := etx.Nonce, State := .inProgress, BroadcastAt := etx.BroadcastAt,
         InitialBroadcastAt := etx.InitialBroadcastAt, EthTxAttempts := etx.EthTxAttempts },
       { attempt with ID := freshAttemptID db }) := by
  have hany : (db.eth_txes.any fun r => decide (r.ID = attempt.EthTxID)) = true := by
    rw [hfk]
    have hp := List.find?_some hr0
    exact List.any_eq_true.2 ⟨r0, List.mem_of_find?_eq_some hr0, hp⟩
  unfold saveInProgressTransaction
  rw [if_neg (by simp [hst]), if_neg (by simp [hast])]
  simp only [insertEthTxAttempt, hany, if_true]
  rw [updateEthTx_of_find (by exact hr0)]
  rfl

theorem getInProgressEthTx_none {db : DB} {A : Address}
    (h : ∀ r ∈ db.eth_txes, r.FromAddress = A → r.State ≠ .inProgress) :
    getInProgressEthTx db A = .ok none := by
  have : db.eth_txes.find?
      (fun r => decide (r.FromAddress = A) && decide (r.State = .inProgress)) = none := by
    rw [List.find?_eq_none]
    intro r hr hp
    simp only [Bool.and_eq_true, decide_eq_true_eq] at hp
    exact h r hr hp.1 hp.2
  unfold getInProgressEthTx
  rw [this]



theorem GetNextNonce_find {db : DB} {A : Address} {c : ChainID} {n : Int}
    (h : GetNextNonce db A c = .ok n) :
    ∃ k, db.eth_key_states.find?
        (fun k => decide (k.Address = A) && decide (k.EVMChainID = c)) = some k
      ∧ k.Address = A ∧ k.EVMChainID = c ∧ k.NextNonce = n := by
  unfold GetNextNonce at h
  split at h
  · rename_i k hk
    have hp := List.find?_some hk
    simp only [Bool.and_eq_true, decide_eq_true_eq] at hp
    injection h with h
    exact ⟨k, hk, hp.1, hp.2, h⟩
  · cases h

/-- Reading the counter after the compare-and-swap on the value it held. -/
theorem GetNextNonce_after_cas {keys : List KeyState} {A : Address} {c : ChainID} {n : Int}
    {now : Time} {txes : List EthTx} {atts : List EthTxAttempt}
    (h : GetNextNonce ⟨txes, atts, keys⟩ A c = .ok n) (txes1 : List EthTx)
    (atts1 : List EthTxAttempt) :
    GetNextNonce ⟨txes1, atts1, keys.map (fun k =>
        if nonceRowMatches A c n k
        then { k with NextNonce := k.NextNonce + 1, UpdatedAt := now } else k)⟩ A c
      = .ok (n + 1) := by
  obtain ⟨k, hk, hA, hc, hn⟩ := GetNextNonce_find h
  simp only at hk
  unfold GetNextNonce
  simp only
  rw [List.find?_map]
  have hcomp : ((fun k : KeyState => decide (k.Address = A) && decide (k.EVMChainID = c)) ∘
      (fun k => if nonceRowMatches A c n k
        then { k with NextNonce := k.NextNonce + 1, UpdatedAt := now } else k))
      = (fun k : KeyState => decide (k.Address = A) && decide (k.EVMChainID = c)) := by
    funext k
    simp only [Function.comp]
    split <;> rfl
  rw [hcomp, hk]
  have hm : nonceRowMatches A c n k = true := (nonceRowMatches_iff _ _ _ _).2 ⟨hA, hc, hn⟩
  simp [hm, hn]


theorem countP_map_le {q : EthTx → Bool} {g : EthTx → EthTx} {id : Nat}
    (hg : ∀ r, r.ID ≠ id → g r = r) :
    ∀ l : List EthTx, (l.map g).countP q ≤ l.countP q + l.countP (fun r => decide (r.ID = id))
  | [] => by simp
  | r :: l => by
    have ih := countP_map_le hg l (q := q)
    by_cases hr : r.ID = id
    · simp only [List.map_cons, List.countP_cons, hr, decide_True, if_true]
      split <;> split <;> omega
    · rw [List.map_cons, hg r hr]
      simp only [List.countP_cons, hr, decide_False, Bool.false_eq_true, if_false]
      split <;> omega

theorem ctxErr_mono {w : World} {s s1 : St} (hle : s.tick ≤ s1.tick)
    (h : ctxErr w s1 = false) : ctxErr w s = false := by
  unfold ctxErr at h ⊢
  split
  · rfl
  · rename_i t ht
    simp only [ht, decide_eq_false_iff_not, not_le] at h ⊢
    omega

/-- A successful `saveInProgressTransaction`, read backwards. -/
theorem saveInProgressTransaction_ok {db : DB} {etx : EthTx} {attempt : EthTxAttempt}
    {db1 : DB} {etx1 : EthTx} {a1 : EthTxAttempt}
    (h : saveInProgressTransaction db etx attempt = (none, db1, etx1, a1)) :
    etx.State = .unstarted ∧ attempt.State = .inProgress ∧
    ∃ r0, db.eth_txes.find? (fun r => decide (r.ID = etx.ID)) = some r0
      ∧ db1 = ⟨db.eth_txes.map (fun r => if r.ID = etx.ID then
          { r with
            Nonce := etx.Nonce, State := .inProgress, BroadcastAt := etx.BroadcastAt,
            InitialBroadcastAt := etx.InitialBroadcastAt } else r),
        db.eth_tx_attempts ++ [{ attempt with ID := freshAttemptID db }],
        db.eth_key_states⟩
      ∧ etx1 = { r0 with
         Nonce := etx.Nonce, State := .inProgress, BroadcastAt := etx.BroadcastAt,
         InitialBroadcastAt := etx.InitialBroadcastAt, EthTxAttempts := etx.EthTxAttempts }
      ∧ a1 = { attempt with ID := freshAttemptID db } := by
  unfold saveInProgressTransaction at h
  split at h
  · simp at h
  rename_i hst
  split at h
  · simp at h
  rename_i hast
  simp only at h
  split at h
  · simp at h
  rename_i tx1 att1 hins
  split at h
  · simp at h
  rename_i tx2 row hupd
  obtain ⟨r0, hr0, hrow, htx2⟩ := updateEthTx_ok hupd
  unfold insertEthTxAttempt at hins
  split at hins
  · simp only [Option.some.injEq, Prod.mk.injEq] at hins
    obtain ⟨rfl, rfl⟩ := hins
    simp only [Prod.mk.injEq, true_and] at h
    obtain ⟨h1, h2, h3⟩ := h
    refine ⟨not_not.1 hst, not_not.1 hast, r0, hr0, ?_, ?_, h3.symm⟩
    · rw [← h1, htx2]
    · rw [← h2, hrow]; rfl
  · cases hins

/-- A successful `saveReplacementInProgressAttempt`, read backwards. -/
theorem saveReplacementInProgressAttempt_ok {db : DB} {old repl : EthTxAttempt}
    {db1 : DB} {row : EthTxAttempt}
    (h : saveReplacementInProgressAttempt db old repl = (none, db1, row)) :
    old.State = .inProgress ∧ repl.State = .inProgress
      ∧ db1 = ⟨db.eth_txes,
          db.eth_tx_attempts.filter (fun a => decide (a.ID ≠ old.ID)) ++ [row],
          db.eth_key_states⟩
      ∧ row.EthTxID = repl.EthTxID ∧ row.State = repl.State := by
  unfold saveReplacementInProgressAttempt at h
  split at h
  · simp at h
  rename_i hst
  simp only at h
  split at h
  · simp at h
  rename_i tx2 row2 hins
  unfold insertEthTxAttempt at hins
  split at hins
  · simp only [Option.some.injEq, Prod.mk.injEq] at hins
    obtain ⟨rfl, rfl⟩ := hins
    simp only [Prod.mk.injEq, true_and] at h
    obtain ⟨h1, h2⟩ := h
    have hst2 := not_or.1 hst
    refine ⟨not_not.1 hst2.1, not_not.1 hst2.2, ?_, ?_, ?_⟩
    · rw [← h1, ← h2]
    · rw [← h2]
    · rw [← h2]
  · cases hins

theorem foldl_best_mem (l : List EthTx) :
    ∀ (init : Option EthTx) (r : EthTx),
      l.foldl (fun best r =>
        match best with
        | none => some r
        | some m => if unstartedBefore m r then some m else some r) init = some r →
      r ∈ l ∨ init = some r := by
  induction l with
  | nil => intro init r h; exact Or.inr h
  | cons x l ih =>
    intro init r h
    rw [List.foldl_cons] at h
    rcases ih _ r h with h1 | h1
    · exact Or.inl (List.mem_cons_of_mem _ h1)
    · cases init with
      | none =>
        simp only [Option.some.injEq] at h1
        exact Or.inl (h1 ▸ List.mem_cons_self _ _)
      | some m =>
        simp only at h1
        split at h1
        · exact Or.inr h1
        · simp only [Option.some.injEq] at h1
          exact Or.inl (h1 ▸ List.mem_cons_self _ _)

theorem findNext_mem {db : DB} {A : Address} {c : ChainID} {row : EthTx}
    (h : findNextUnstartedTransactionFromAddress db A c = some row) :
    row ∈ db.eth_txes ∧ row.FromAddress = A ∧ row.State = .unstarted ∧ row.EVMChainID = c := by
  unfold findNextUnstartedTransactionFromAddress at h
  rcases foldl_best_mem _ _ _ h with h1 | h1
  · have h2 := List.mem_filter.1 h1
    simp only [Bool.and_eq_true, decide_eq_true_eq] at h2
    exact ⟨h2.1, h2.2.1.1, h2.2.1.2, h2.2.2⟩
  · cases h1

/-- The transaction handed out by `nextUnstartedTransactionWithNonce`. -/
theorem nextUnstartedTransactionWithNonce_some {w : World} {db : DB} {A : Address} {etx : EthTx}
    (h : nextUnstartedTransactionWithNonce w db A = .ok (some etx)) :
    ∃ row v, row ∈ db.eth_txes ∧ row.FromAddress = A ∧ row.State = .unstarted
      ∧ row.EVMChainID = w.chainID ∧ GetNextNonce db A w.chainID = .ok v
      ∧ etx = { row with EthTxAttempts := [], Nonce := some v } := by
  unfold nextUnstartedTransactionWithNonce at h
  split at h
  · cases h
  rename_i row hrow
  obtain ⟨h1, h2, h3, h4⟩ := findNext_mem hrow
  simp only [scanEthTx] at h
  split at h
  · cases h
  rename_i v hv
  rw [h2] at hv
  injection h with h
  injection h with h
  exact ⟨row, v, h1, h2, h3, h4, hv, h.symm⟩

/-! ## One induction for every invariant -/

section skeleton

variable {w : World} {A : Address} {P : DB → List Event → Prop}
  {C : EthTx → EthTxAttempt → DB → Prop} {Q : DB → Prop}

theorem post_err {s s1 : St} {e : Err} (hP : P s.db s.log) (hdb : s1.db = s.db)
    (hlog : s1.log = s.log) (ht : s.tick ≤ s1.tick) : Post P Q s (.ret (some e), s1) := by
  refine ⟨?_, ?_, ht⟩
  · show P s1.db s1.log
    rw [hdb, hlog]; exact hP
  · intro h; cases h

theorem post_fuel {s s1 : St} (hP : P s.db s.log) (hdb : s1.db = s.db)
    (hlog : s1.log = s.log) (ht : s.tick ≤ s1.tick) : Post P Q s (.outOfFuel, s1) := by
  refine ⟨?_, ?_, ht⟩
  · show P s1.db s1.log
    rw [hdb, hlog]; exact hP
  · intro h; cases h

theorem post_trans {s : St} (s1 : St) {r : Result × St} (ht : s.tick ≤ s1.tick)
    (h : Post P Q s1 r) : Post P Q s r :=
  ⟨h.1, h.2.1, Nat.le_trans ht h.2.2⟩

theorem callResume_tick (w : World) (etx : EthTx) (msg : String) (s : St) :
    s.tick ≤ (callResume w etx msg s).2.tick := by
  unfold callResume
  split
  · exact Nat.le_succ _
  · exact Nat.le_refl _

theorem P_resumes (hc : Closed w A P C Q) {db : DB} {log : List Event} (hP : P db log) :
    ∀ pre : List Event, (∀ e ∈ pre, ∃ id m, e = Event.resume id m) → P db (pre ++ log)
  | [], _ => hP
  | e :: pre, h => by
    obtain ⟨id, m, rfl⟩ := h e (List.mem_cons_self _ _)
    exact hc.resume _ _ _ _ (P_resumes hc hP pre (fun x hx => h x (List.mem_cons_of_mem _ hx)))

theorem saveFatallyErroredTransaction_err_log {w : World} {etx : EthTx} {s : St}
    (h : (saveFatallyErroredTransaction w etx s).1 ≠ none) :
    ∃ pre, (saveFatallyErroredTransaction w etx s).2.log = pre ++ s.log ∧
      ∀ e ∈ pre, ∃ id m, e = Event.resume id m := by
  revert h
  unfold saveFatallyErroredTransaction
  split
  · intro _; exact ⟨[], rfl, by simp⟩
  split
  · intro _; exact ⟨[], rfl, by simp⟩
  rename_i msg hmsg
  have hlog := callResume_log w etx msg s
  generalize callResume w etx msg s = res at hlog ⊢
  obtain ⟨r, sr⟩ := res
  rcases r with _ | _ | m
  · simp only
    split
    · intro _; exact hlog
    · simp
  · simp only
    split
    · intro _; exact hlog
    · simp
  · intro _; exact hlog

theorem saveFatallyErroredTransaction_tick (w : World) (etx : EthTx) (s : St) :
    s.tick ≤ (saveFatallyErroredTransaction w etx s).2.tick := by
  unfold saveFatallyErroredTransaction
  split
  · exact Nat.le_refl _
  split
  · exact Nat.le_refl _
  rename_i msg hmsg
  have ht := callResume_tick w etx msg s
  generalize callResume w etx msg s = res at ht ⊢
  obtain ⟨r, sr⟩ := res
  rcases r with _ | _ | m
  · simp only
    split <;> exact ht
  · simp only
    split <;> exact ht
  · exact ht

theorem spec_fatal (hc : Closed w A P C Q) {etx : EthTx} {a : EthTxAttempt} {s : St}
    (hP : P s.db s.log) (hC : C etx a s.db) :
    Post P Q s (.ret (saveFatallyErroredTransaction w etx s).1,
      (saveFatallyErroredTransaction w etx s).2) := by
  refine ⟨?_, ?_, saveFatallyErroredTransaction_tick w etx s⟩
  · by_cases h : (saveFatallyErroredTransaction w etx s).1 = none
    · exact (hc.fatal s etx a _ hP hC (by rw [← h])).1
    · obtain ⟨pre, hlog, hpre⟩ := saveFatallyErroredTransaction_err_log h
      show P (saveFatallyErroredTransaction w etx s).2.db (saveFatallyErroredTransaction w etx s).2.log
      rw [saveFatallyErroredTransaction_err h, hlog]
      exact P_resumes hc hP pre hpre
  · intro h
    have h' : (saveFatallyErroredTransaction w etx s).1 = none := by
      injection h with h
    exact (hc.fatal s etx a _ hP hC (by rw [← h'])).2

theorem spec_saveBroadcast (hc : Closed w A P C Q) {etx : EthTx} {a : EthTxAttempt} {s : St}
    (hP : P s.db s.log) (hC : C etx a s.db) :
    Post P Q s (saveBroadcast w etx a s) := by
  unfold saveBroadcast
  split
  · exact post_err hP rfl rfl (Nat.le_succ _)
  · rename_i db1 etx2 hsave
    obtain ⟨h1, h2⟩ := hc.broadcast _ _ _ _ _ _ _ hP hC hsave
    exact ⟨h1, fun _ => h2, Nat.le_succ _⟩

theorem NewLegacyAttempt_ok {w : World} {etx : EthTx} {p : Int} {gl : Nat} {s s1 : St}
    {a : EthTxAttempt} (h : NewLegacyAttempt w etx p gl s = (.ok a, s1)) :
    a.EthTxID = etx.ID ∧ a.State = .inProgress ∧ s1 = s.next := by
  unfold NewLegacyAttempt at h
  split at h
  · simp at h
  · simp only [Prod.mk.injEq, Except.ok.injEq] at h
    obtain ⟨rfl, rfl⟩ := h
    exact ⟨rfl, rfl, rfl⟩

theorem NewLegacyAttempt_snd (w : World) (etx : EthTx) (p : Int) (gl : Nat) (s : St) :
    (NewLegacyAttempt w etx p gl s).2 = s.next := by
  unfold NewLegacyAttempt
  split <;> rfl

theorem NewDynamicFeeAttempt_ok {w : World} {etx : EthTx} {f : DynamicFee} {gl : Nat}
    {s s1 : St} {a : EthTxAttempt} (h : NewDynamicFeeAttempt w etx f gl s = (.ok a, s1)) :
    a.EthTxID = etx.ID ∧ a.State = .inProgress ∧ s1 = s.next := by
  unfold NewDynamicFeeAttempt at h
  split at h
  · simp at h
  · simp only [Prod.mk.injEq, Except.ok.injEq] at h
    obtain ⟨rfl, rfl⟩ := h
    exact ⟨rfl, rfl, rfl⟩

theorem NewDynamicFeeAttempt_snd (w : World) (etx : EthTx) (f : DynamicFee) (gl : Nat)
    (s : St) : (NewDynamicFeeAttempt w etx f gl s).2 = s.next := by
  unfold NewDynamicFeeAttempt
  split <;> rfl

/-- The replacement step shared by the two `tryAgainWithNew...` functions. -/
theorem spec_replace (hc : Closed w A P C Q)
    {handle : EthTx → EthTxAttempt → Time → St → Result × St} (hh : HandleSpec P C Q handle)
    {etx : EthTx} {a repl : EthTxAttempt} {t : Time} {s : St}
    (hP : P s.db s.log) (hC : C etx a s.db) (hfk : repl.EthTxID = etx.ID)
    (hst : repl.State = .inProgress) (msg : String) :
    Post P Q s
      (match saveReplacementInProgressAttempt s.db a repl with
       | (some e, _, _) => (.ret (some (.wrap e msg)), s)
       | (none, db1, repl1) =>
         handle etx repl1 t (({ s with db := db1 }).record (.replaceAttempt a repl1 db1))) := by
  split
  · exact post_err hP rfl rfl (Nat.le_refl _)
  · rename_i db1 repl1 hsave
    obtain ⟨h1, h2⟩ := hc.replace _ _ _ _ _ _ _ hP hC hfk hst hsave
    exact hh etx repl1 t _ h1 h2

theorem spec_tryAgainWithNewLegacyGas (hc : Closed w A P C Q)
    {handle : EthTx → EthTxAttempt → Time → St → Result × St} (hh : HandleSpec P C Q handle)
    {etx : EthTx} {a : EthTxAttempt} {t : Time} {p : Int} {gl : Nat} {s : St}
    (hP : P s.db s.log) (hC : C etx a s.db) :
    Post P Q s (tryAgainWithNewLegacyGas w handle etx a t p gl s) := by
  unfold tryAgainWithNewLegacyGas
  have hsnd := NewLegacyAttempt_snd w etx p gl s
  cases hn : NewLegacyAttempt w etx p gl s with
  | mk r s1 =>
    rw [hn] at hsnd
    simp only at hsnd
    subst hsnd
    cases r with
    | error e => exact post_err hP rfl rfl (Nat.le_succ _)
    | ok repl =>
      obtain ⟨hfk, hst, _⟩ := NewLegacyAttempt_ok hn
      exact post_trans _ (Nat.le_succ _)
        (spec_replace hc hh (s := s.next) hP hC hfk hst "tryAgainWithNewLegacyGas failed")

theorem spec_tryAgainWithNewDynamicFeeGas (hc : Closed w A P C Q)
    {handle : EthTx → EthTxAttempt → Time → St → Result × St} (hh : HandleSpec P C Q handle)
    {etx : EthTx} {a : EthTxAttempt} {t : Time} {f : DynamicFee} {gl : Nat} {s : St}
    (hP : P s.db s.log) (hC : C etx a s.db) :
    Post P Q s (tryAgainWithNewDynamicFeeGas w handle etx a t f gl s) := by
  unfold tryAgainWithNewDynamicFeeGas
  have hsnd := NewDynamicFeeAttempt_snd w etx f gl s
  cases hn : NewDynamicFeeAttempt w etx f gl s with
  | mk r s1 =>
    rw [hn] at hsnd
    simp only at hsnd
    subst hsnd
    cases r with
    | error e => exact post_err hP rfl rfl (Nat.le_succ _)
    | ok repl =>
      obtain ⟨hfk, hst, _⟩ := NewDynamicFeeAttempt_ok hn
      exact post_trans _ (Nat.le_succ _)
        (spec_replace hc hh (s := s.next) hP hC hfk hst "tryAgainWithNewDynamicFeeGas failed")

theorem spec_tryAgainBumpingLegacyGas (hc : Closed w A P C Q)
    {handle : EthTx → EthTxAttempt → Time → St → Result × St} (hh : HandleSpec P C Q handle)
    {etx : EthTx} {a : EthTxAttempt} {t : Time} {s : St}
    (hP : P s.db s.log) (hC : C etx a s.db) :
    Post P Q s (tryAgainBumpingLegacyGas w handle etx a t s) := by
  unfold tryAgainBumpingLegacyGas
  split
  · exact post_err hP rfl rfl (Nat.le_succ _)
  · split
    · exact post_err hP rfl rfl (Nat.le_succ _)
    · split
      · exact post_err hP rfl rfl (Nat.le_succ _)
      · exact post_trans _ (Nat.le_succ _)
          (spec_tryAgainWithNewLegacyGas hc hh (s := s.next) hP hC)

theorem spec_tryAgainBumpingDynamicFeeGas (hc : Closed w A P C Q)
    {handle : EthTx → EthTxAttempt → Time → St → Result × St} (hh : HandleSpec P C Q handle)
    {etx : EthTx} {a : EthTxAttempt} {t : Time} {s : St}
    (hP : P s.db s.log) (hC : C etx a s.db) :
    Post P Q s (tryAgainBumpingDynamicFeeGas w handle etx a t s) := by
  unfold tryAgainBumpingDynamicFeeGas
  split
  · exact post_err hP rfl rfl (Nat.le_succ _)
  · split
    · exact post_err hP rfl rfl (Nat.le_succ _)
    · exact post_err hP rfl rfl (Nat.le_succ _)
    · exact post_trans _ (Nat.le_succ _)
        (spec_tryAgainWithNewDynamicFeeGas hc hh (s := s.next) hP hC)

theorem spec_tryAgainBumpingGas (hc : Closed w A P C Q)
    {handle : EthTx → EthTxAttempt → Time → St → Result × St} (hh : HandleSpec P C Q handle)
    {etx : EthTx} {a : EthTxAttempt} {t : Time} {s : St}
    (hP : P s.db s.log) (hC : C etx a s.db) :
    Post P Q s (tryAgainBumpingGas w handle etx a t s) := by
  unfold tryAgainBumpingGas
  split
  · exact spec_tryAgainBumpingLegacyGas hc hh hP hC
  · split
    · exact spec_tryAgainBumpingDynamicFeeGas hc hh hP hC
    · exact post_err hP rfl rfl (Nat.le_refl _)

theorem spec_tryAgainWithNewEstimation (hc : Closed w A P C Q)
    {handle : EthTx → EthTxAttempt → Time → St → Result × St} (hh : HandleSpec P C Q handle)
    {etx : EthTx} {a : EthTxAttempt} {t : Time} {s : St}
    (hP : P s.db s.log) (hC : C etx a s.db) :
    Post P Q s (tryAgainWithNewEstimation w handle etx a t s) := by
  unfold tryAgainWithNewEstimation
  split
  · exact post_err hP rfl rfl (Nat.le_refl _)
  · split
    · exact post_err hP rfl rfl (Nat.le_succ _)
    · exact post_trans _ (Nat.le_succ _)
        (spec_tryAgainWithNewLegacyGas hc hh (s := s.next) hP hC)

theorem spec_handleSendError (hc : Closed w A P C Q)
    {handle : EthTx → EthTxAttempt → Time → St → Result × St} (hh : HandleSpec P C Q handle)
    {etx : EthTx} {a : EthTxAttempt} {t : Time} {e : Option SendError} {s : St}
    (hP : P s.db s.log) (hC : C etx a s.db) :
    Post P Q s (handleSendError w handle etx a t e s) := by
  have hC1 : ∀ m, C { etx with Error := m } a s.db :=
    fun m => hc.memory _ etx _ a rfl rfl rfl rfl rfl hC
  have hC2 : C { etx with InitialBroadcastAt := some t, BroadcastAt := some t } a s.db :=
    hc.memory _ etx _ a rfl rfl rfl rfl rfl hC
  unfold handleSendError
  split
  · exact spec_fatal hc hP (hC1 _)
  split
  · exact spec_fatal hc hP (hC1 _)
  simp only
  generalize (if (SendError.IsNonceTooLowError e || SendError.IsTransactionAlreadyMined e
      || SendError.IsReplacementUnderpriced e) = true then none else e) = e1
  by_cases h1 : SendError.IsTerminallyUnderpriced e1 = true
  · rw [if_pos h1]
    exact spec_tryAgainBumpingGas hc hh hP hC2
  rw [if_neg h1]
  by_cases h2 : (SendError.IsOptimismFeeTooLow e1 || SendError.IsOptimismFeeTooHigh e1) = true
  · rw [if_pos h2]
    split
    · exact spec_tryAgainWithNewEstimation hc hh hP hC2
    · exact post_err hP rfl rfl (Nat.le_refl _)
  rw [if_neg h2]
  generalize (if SendError.IsTemporarilyUnderpriced e1 = true then none else e1) = e2
  by_cases h3 : SendError.IsInsufficientEth e2 = true
  · rw [if_pos h3]
    exact post_err hP rfl rfl (Nat.le_refl _)
  rw [if_neg h3]
  split
  · exact spec_saveBroadcast hc hP hC2
  · exact post_err hP rfl rfl (Nat.le_refl _)

theorem spec_handleInProgressEthTx (hc : Closed w A P C Q) :
    ∀ fuel, HandleSpec P C Q (handleInProgressEthTx w fuel)
  | 0 => fun _ _ _ _ hP _ => post_fuel hP rfl rfl (Nat.le_refl _)
  | fuel + 1 => by
    intro etx a t s hP hC
    rw [handleInProgressEthTx]
    split
    · exact post_err hP rfl rfl (Nat.le_refl _)
    split
    · exact post_err hP rfl rfl (Nat.le_refl _)
    split
    · exact post_err hP rfl rfl (Nat.le_refl _)
    simp only
    split
    · exact post_trans _ (Nat.le_succ _)
        (spec_fatal hc (s := s.next) hP (hc.memory _ etx _ a rfl rfl rfl rfl rfl hC))
    · refine post_trans ((s.next.next).record (.submit etx a))
        (Nat.le_trans (Nat.le_succ _) (Nat.le_succ _)) ?_
      exact spec_handleSendError hc (spec_handleInProgressEthTx hc fuel)
        (hc.submit _ _ _ _ hP) hC

theorem newAttempt_frame (w : World) (etx : EthTx) (s : St) :
    (newAttempt w etx s).2.db = s.db ∧ (newAttempt w etx s).2.log = s.log
      ∧ s.tick ≤ (newAttempt w etx s).2.tick := by
  unfold newAttempt
  split
  · split
    · exact ⟨rfl, rfl, Nat.le_succ _⟩
    · rename_i fee gl _
      have h := NewDynamicFeeAttempt_snd w etx fee gl s.next
      cases hn : NewDynamicFeeAttempt w etx fee gl s.next with
      | mk r s1 =>
        rw [hn] at h
        simp only at h
        subst h
        cases r <;> exact ⟨rfl, rfl, Nat.le_trans (Nat.le_succ _) (Nat.le_succ _)⟩
  · split
    · exact ⟨rfl, rfl, Nat.le_succ _⟩
    · rename_i p gl _
      have h := NewLegacyAttempt_snd w etx p gl s.next
      cases hn : NewLegacyAttempt w etx p gl s.next with
      | mk r s1 =>
        rw [hn] at h
        simp only at h
        subst h
        cases r <;> exact ⟨rfl, rfl, Nat.le_trans (Nat.le_succ _) (Nat.le_succ _)⟩

theorem newAttempt_ok {w : World} {etx : EthTx} {s s1 : St} {a : EthTxAttempt}
    (h : newAttempt w etx s = (.ok a, s1)) : a.EthTxID = etx.ID ∧ a.State = .inProgress := by
  unfold newAttempt at h
  split at h
  · split at h
    · simp at h
    · rename_i fee gl _
      cases hn : NewDynamicFeeAttempt w etx fee gl s.next with
      | mk r s2 =>
        rw [hn] at h
        cases r with
        | error e => simp at h
        | ok a2 =>
          simp only [Prod.mk.injEq, Except.ok.injEq] at h
          obtain ⟨rfl, _⟩ := h
          exact ⟨(NewDynamicFeeAttempt_ok hn).1, (NewDynamicFeeAttempt_ok hn).2.1⟩
  · split at h
    · simp at h
    · rename_i p gl _
      cases hn : NewLegacyAttempt w etx p gl s.next with
      | mk r s2 =>
        rw [hn] at h
        cases r with
        | error e => simp at h
        | ok a2 =>
          simp only [Prod.mk.injEq, Except.ok.injEq] at h
          obtain ⟨rfl, _⟩ := h
          exact ⟨(NewLegacyAttempt_ok hn).1, (NewLegacyAttempt_ok hn).2.1⟩

theorem spec_promoteAndHandle (hc : Closed w A P C Q) (fuel : Nat) (etx : EthTx)
    (a : EthTxAttempt) (s : St) (hP : P s.db s.log) (hQ : Q s.db)
    (hnext : nextUnstartedTransactionWithNonce w s.db A = .ok (some etx))
    (hfk : a.EthTxID = etx.ID) (hst : a.State = .inProgress) :
    PostStep P Q s (promoteAndHandle w fuel etx a s) := by
  unfold promoteAndHandle
  split
  · split
    · exact ⟨hP, fun _ => hQ, Nat.le_refl _⟩
    · exact ⟨hP, fun h => (by cases h), Nat.le_refl _⟩
  · rename_i db1 etx1 a1 hsave
    obtain ⟨h1, h2⟩ := hc.promote _ _ _ _ _ _ _ hP hQ hnext hfk hst hsave
    have hpost := spec_handleInProgressEthTx hc fuel etx1 a1
      (w.now (({ s with db := db1 }).record (.persistInProgress etx1 a1 db1)).tick)
      ((({ s with db := db1 }).record (.persistInProgress etx1 a1 db1)).next) h1 h2
    simp only
    generalize handleInProgressEthTx w fuel etx1 a1
      (w.now (({ s with db := db1 }).record (.persistInProgress etx1 a1 db1)).tick)
      ((({ s with db := db1 }).record (.persistInProgress etx1 a1 db1)).next) = r at hpost ⊢
    obtain ⟨res, s3⟩ := r
    obtain ⟨hp1, hp2, hp3⟩ := hpost
    have ht : s.tick ≤ s3.tick := Nat.le_trans (Nat.le_succ _) hp3
    rcases res with (_ | e) | _
    · exact ⟨hp1, fun _ => hp2 rfl, ht⟩
    · exact ⟨hp1, fun h => (by cases h), ht⟩
    · exact ⟨hp1, fun h => (by cases h), ht⟩

theorem spec_body (hc : Closed w A P C Q) (fuel : Nat) (s : St)
    (hP : P s.db s.log) (hQ : Q s.db) :
    PostStep P Q s (processUnstartedEthTxsBody w fuel A s) := by
  unfold processUnstartedEthTxsBody
  simp only
  split
  · exact ⟨hP, fun _ => hQ, Nat.le_refl _⟩
  · split
    · exact ⟨hP, fun h => (by cases h), Nat.le_refl _⟩
    · exact ⟨hP, fun h => (by cases h), Nat.le_refl _⟩
    · rename_i etx hnext
      obtain ⟨hdb, hlog, ht⟩ := newAttempt_frame w etx s
      cases hn : newAttempt w etx s with
      | mk r s1 =>
        rw [hn] at hdb hlog ht
        simp only at hdb hlog ht
        cases r with
        | error e =>
          refine ⟨?_, fun h => (by cases h), ht⟩
          show P s1.db s1.log
          rw [hdb, hlog]; exact hP
        | ok a =>
          obtain ⟨hfk, hst⟩ := newAttempt_ok hn
          have := spec_promoteAndHandle hc fuel etx a s1
            (by rw [hdb, hlog]; exact hP) (by rw [hdb]; exact hQ) (by rw [hdb]; exact hnext)
            hfk hst
          exact ⟨this.1, this.2.1, Nat.le_trans ht this.2.2⟩

theorem spec_loop (hc : Closed w A P C Q) (fuel : Nat) :
    ∀ (n : Nat) (s : St), P s.db s.log → Q s.db →
      P (processUnstartedEthTxsLoop w fuel A n s).2.db (processUnstartedEthTxsLoop w fuel A n s).2.log
  | 0, _, hP, _ => hP
  | n + 1, s, hP, hQ => by
    rw [processUnstartedEthTxsLoop]
    have hb := spec_body hc fuel s hP hQ
    generalize processUnstartedEthTxsBody w fuel A s = r at hb ⊢
    obtain ⟨st, s1⟩ := r
    cases st with
    | «continue» => exact spec_loop hc fuel n s1 hb.1 (hb.2.1 rfl)
    | done r => exact hb.1

theorem spec_handleAny (hc : Closed w A P C Q) (fuel : Nat) (s : St) (hP : P s.db s.log) :
    P (handleAnyInProgressEthTx w fuel A s).2.db (handleAnyInProgressEthTx w fuel A s).2.log
    ∧ ((handleAnyInProgressEthTx w fuel A s).1 = .ret none → ctxErr w s = false →
        Q (handleAnyInProgressEthTx w fuel A s).2.db)
    ∧ s.tick ≤ (handleAnyInProgressEthTx w fuel A s).2.tick := by
  unfold handleAnyInProgressEthTx
  simp only
  split
  · rename_i hctx
    exact ⟨hP, fun _ h => (by rw [hctx] at h; cases h), Nat.le_succ _⟩
  · split
    · exact ⟨hP, fun h => (by cases h), Nat.le_succ _⟩
    · rename_i hget
      exact ⟨hP, fun _ _ => hc.idle _ _ hP hget, Nat.le_succ _⟩
    · rename_i etx hget
      split
      · exact ⟨hP, fun h => (by cases h), Nat.le_succ _⟩
      · rename_i a rest hatt
        have hC := hc.recover _ _ _ _ _ hP hget hatt
        have hpost := spec_handleInProgressEthTx hc fuel etx a etx.CreatedAt s.next hP hC
        generalize handleInProgressEthTx w fuel etx a etx.CreatedAt s.next = r at hpost ⊢
        obtain ⟨res, s1⟩ := r
        obtain ⟨hp1, hp2, hp3⟩ := hpost
        have ht : s.tick ≤ s1.tick := Nat.le_trans (Nat.le_succ _) hp3
        rcases res with (_ | e) | _
        · exact ⟨hp1, fun _ _ => hp2 rfl, ht⟩
        · exact ⟨hp1, fun h => (by cases h), ht⟩
        · exact ⟨hp1, fun h => (by cases h), ht⟩

theorem spec_process (hc : Closed w A P C Q) (fuel : Nat) (s : St) (hP : P s.db s.log) :
    P (processUnstartedEthTxs w fuel A s).2.db (processUnstartedEthTxs w fuel A s).2.log := by
  unfold processUnstartedEthTxs
  have ha := spec_handleAny hc fuel s hP
  generalize handleAnyInProgressEthTx w fuel A s = r at ha ⊢
  obtain ⟨res, s1⟩ := r
  obtain ⟨h1, h2, h3⟩ := ha
  cases res with
  | outOfFuel => exact h1
  | ret err =>
    simp only
    split
    · exact h1
    · rename_i hctx
      have hctx0 : ctxErr w s = false :=
        ctxErr_mono h3 (by simpa using hctx)
      cases err with
      | some e => exact h1
      | none => exact spec_loop hc fuel fuel s1.next h1 (h2 rfl hctx0)

theorem spec_cycles (hc : Closed w A P C Q) :
    ∀ (fuels : List Nat) (s : St), P s.db s.log →
      P (runCycles w A fuels s).db (runCycles w A fuels s).log
  | [], _, hP => hP
  | fuel :: rest, s, hP => by
    rw [runCycles]
    exact spec_cycles hc rest _ (spec_process hc fuel s hP)

end skeleton

/-! ## P2: single in-progress -/

theorem inProgressOf_iff {A : Address} {r : EthTx} :
    inProgressOf A r = true ↔ r.FromAddress = A ∧ r.State = .inProgress := by
  simp [inProgressOf]

theorem eq_of_nodup_id {l : List EthTx} (h : (l.map (fun r => r.ID)).Nodup) {r1 r2 : EthTx}
    (h1 : r1 ∈ l) (h2 : r2 ∈ l) (hid : r1.ID = r2.ID) : r1 = r2 :=
  List.inj_on_of_nodup_map h h1 h2 hid

theorem map_update_id {l : List EthTx} {id : Nat} {f : EthTx → EthTx}
    (hf : ∀ r, (f r).ID = r.ID) :
    (l.map (fun r => if r.ID = id then f r else r)).map (fun r => r.ID)
      = l.map (fun r => r.ID) := by
  rw [List.map_map]
  apply List.map_congr_left
  intro r _
  simp only [Function.comp]
  split
  · exact hf r
  · rfl

theorem nodup_update {l : List EthTx} {id : Nat} {f : EthTx → EthTx} {db1 : DB}
    (hdb : db1.eth_txes = l.map (fun r => if r.ID = id then f r else r))
    (hf : ∀ r, (f r).ID = r.ID) (h : (l.map (fun r => r.ID)).Nodup) :
    (db1.eth_txes.map (fun r => r.ID)).Nodup := by
  rw [hdb, map_update_id hf]
  exact h

theorem eq_of_countP_le_one {p : EthTx → Bool} :
    ∀ {l : List EthTx}, l.countP p ≤ 1 → ∀ {a b : EthTx}, a ∈ l → b ∈ l →
      p a = true → p b = true → a = b
  | [], _, _, _, ha, _, _, _ => by cases ha
  | x :: l, h, a, b, ha, hb, hpa, hpb => by
    rw [List.countP_cons] at h
    rcases List.mem_cons.1 ha with rfl | ha'
    · rcases List.mem_cons.1 hb with rfl | hb'
      · rfl
      · exfalso
        have : 0 < l.countP p := List.countP_pos_iff.2 ⟨b, hb', hpb⟩
        simp only [hpa, if_true] at h
        omega
    · rcases List.mem_cons.1 hb with rfl | hb'
      · exfalso
        have : 0 < l.countP p := List.countP_pos_iff.2 ⟨a, ha', hpa⟩
        simp only [hpb, if_true] at h
        omega
      · exact eq_of_countP_le_one (by omega) ha' hb' hpa hpb

theorem countP_id_le_one :
    ∀ {l : List EthTx}, (l.map (fun r => r.ID)).Nodup → ∀ id,
      l.countP (fun r => decide (r.ID = id)) ≤ 1
  | [], _, _ => by simp
  | x :: l, h, id => by
    rw [List.map_cons, List.nodup_cons] at h
    have ih := countP_id_le_one h.2 id
    rw [List.countP_cons]
    by_cases hx : x.ID = id
    · have : l.countP (fun r => decide (r.ID = id)) = 0 := by
        rw [List.countP_eq_zero]
        intro r hr hp
        simp only [decide_eq_true_eq] at hp
        exact h.1 (List.mem_map.2 ⟨r, hr, by rw [hp, hx]⟩)
      simp [this, hx]
    · simp only [hx, decide_False, Bool.false_eq_true, if_false]
      omega

theorem countP_map_mono {p : EthTx → Bool} {g : EthTx → EthTx}
    (h : ∀ r, p (g r) = true → p r = true) :
    ∀ l : List EthTx, (l.map g).countP p ≤ l.countP p
  | [] => by simp
  | r :: l => by
    have ih := countP_map_mono h l
    rw [List.map_cons, List.countP_cons, List.countP_cons]
    by_cases hg : p (g r) = true
    · simp only [hg, h r hg, if_true]
      omega
    · simp only [hg, Bool.false_eq_true, if_false]
      by_cases hr : p r = true
      · simp only [hr, if_true]; omega
      · simp only [hr, Bool.false_eq_true, if_false]; omega



theorem getInProgressEthTx_none_noInProgress {db : DB} {A : Address}
    (h : getInProgressEthTx db A = .ok none) : NoInProgress A db := by
  unfold getInProgressEthTx at h
  split at h
  · rename_i hf
    rw [List.find?_eq_none] at hf
    intro r hr
    have := hf r hr
    simpa [inProgressOf] using this
  · rename_i row hrow
    simp only at h
    split at h
    · split at h <;> cases h
    · cases h

theorem noInProgress_countP {A : Address} {db : DB} (h : NoInProgress A db) :
    db.eth_txes.countP (inProgressOf A) = 0 := by
  rw [List.countP_eq_zero]
  intro r hr hp
  rw [h r hr] at hp
  cases hp

/-- After an update of the rows with one id to rows that are not in_progress, the sender has no
in_progress transaction, provided the rows with that id were its only in_progress ones. -/
theorem noInProgress_update {A : Address} {l : List EthTx} {id : Nat} {f : EthTx → EthTx}
    {db1 : DB} (hdb : db1.eth_txes = l.map (fun r => if r.ID = id then f r else r))
    (honly : ∀ r ∈ l, inProgressOf A r = true → r.ID = id)
    (hf : ∀ r, inProgressOf A (f r) = false) : NoInProgress A db1 := by
  intro r' hr'
  rw [hdb] at hr'
  obtain ⟨r, hr, rfl⟩ := List.mem_map.1 hr'
  by_cases hid : r.ID = id
  · simp only [hid, if_true]; exact hf r
  · simp only [hid, if_false]
    cases hp : inProgressOf A r with
    | false => rfl
    | true => exact absurd (honly r hr hp) hid

theorem singleInProgress_of_none {A : Address} {db : DB} (h : NoInProgress A db) :
    SingleInProgress A db := by
  refine ⟨by rw [noInProgress_countP h]; exact Nat.zero_le _, ?_⟩
  intro r hr hp
  rw [h r hr] at hp
  cases hp

theorem commitsSingle_cons {A : Address} {log : List Event} {e : Event}
    (hlog : CommitsSingle A log)
    (h1 : ∀ d, e.snapshot = some d → SingleInProgress A d)
    (h2 : ∀ etx a d, e = .persistInProgress etx a d →
        ∀ r ∈ d.eth_txes, inProgressOf A r = true → r.ID = etx.ID) :
    CommitsSingle A (e :: log) := by
  intro x hx
  rcases List.mem_cons.1 hx with rfl | hx
  · exact ⟨h1, h2⟩
  · exact hlog x hx

theorem commitsSingle_append_resumes {A : Address} {log : List Event}
    (hlog : CommitsSingle A log) (pre : List Event)
    (hpre : ∀ e ∈ pre, ∃ id m, e = Event.resume id m) : CommitsSingle A (pre ++ log) := by
  intro x hx
  rcases List.mem_append.1 hx with hx | hx
  · obtain ⟨id, m, rfl⟩ := hpre x hx
    exact ⟨fun d h => (by cases h), fun etx a d h => (by cases h)⟩
  · exact hlog x hx



theorem filter_replace_attempt {atts : List EthTxAttempt} {a row : EthTxAttempt} {id : Nat}
    (hone : atts.filter (fun x => decide (x.EthTxID = id)) = [a]) (hrow : row.EthTxID = id) :
    (atts.filter (fun x => decide (x.ID ≠ a.ID)) ++ [row]).filter
      (fun x => decide (x.EthTxID = id)) = [row] := by
  rw [List.filter_append, List.filter_filter]
  have : atts.filter (fun x => decide (x.EthTxID = id) && decide (x.ID ≠ a.ID)) = [] := by
    rw [List.filter_eq_nil_iff]
    intro x hx hpx
    simp only [Bool.and_eq_true, decide_eq_true_eq] at hpx
    have hmem : x ∈ atts.filter (fun x => decide (x.EthTxID = id)) :=
      List.mem_filter.2 ⟨hx, by simpa using hpx.1⟩
    rw [hone] at hmem
    exact hpx.2 (by rw [List.mem_singleton.1 hmem])
  rw [this]
  simp [hrow]

theorem wf_replace {A : Address} {db db1 : DB} {etx : EthTx} {a repl row : EthTxAttempt}
    (hwf : WellFormed A db) (hC : Holds A etx a db) (hfk : repl.EthTxID = etx.ID)
    (hst : repl.State = .inProgress)
    (h : saveReplacementInProgressAttempt db a repl = (none, db1, row)) :
    WellFormed A db1 ∧ Holds A etx row db1 := by
  obtain ⟨_, _, hdb1, hrfk, hrst⟩ := saveReplacementInProgressAttempt_ok h
  obtain ⟨⟨hmir, honly⟩, hatt, hast⟩ := hC
  have hrow : row.EthTxID = etx.ID := by rw [hrfk, hfk]
  have hfilter := filter_replace_attempt hatt hrow
  subst hdb1
  refine ⟨⟨hwf.ids, ⟨hwf.single.1, ?_⟩, ?_⟩, ⟨hmir, honly⟩, hfilter, by rw [hrst, hst]⟩
  · intro r hr hp
    have hid : r.ID = etx.ID := honly r hr hp
    exact ⟨row, by rw [hid]; exact hfilter, by rw [hrst, hst]⟩
  · intro r hr hfrom hstate x hx
    rcases List.mem_append.1 hx with hx | hx
    · exact hwf.unstarted r hr hfrom hstate x (List.mem_filter.1 hx).1
    · rw [List.mem_singleton.1 hx, hrow]
      obtain ⟨r0, hr0, hid0, _, hst0, _⟩ := hmir
      intro hid
      have : r0 = r := eq_of_nodup_id hwf.ids hr0 hr (by rw [hid0, hid])
      rw [this, hstate] at hst0
      cases hst0

theorem wf_broadcast {A : Address} {db db1 : DB} {etx etx2 : EthTx} {a : EthTxAttempt}
    {now : Time} (hwf : WellFormed A db) (hC : Holds A etx a db)
    (h : saveAttempt db etx a .broadcast [] now = (none, db1, etx2)) :
    WellFormed A db1 ∧ NoInProgress A db1 := by
  obtain ⟨_, _, _, n, r0, a0, _, _, _, _, _, hcb⟩ := saveAttempt_ok h
  simp only [runCallbacks, Except.ok.injEq] at hcb
  have htx : db1.eth_txes = db.eth_txes.map (fun r => if r.ID = etx.ID then
      { r with
        State := .unconfirmed, Error := etx.Error, BroadcastAt := etx.BroadcastAt,
        InitialBroadcastAt := etx.InitialBroadcastAt } else r) := by rw [← hcb]
  have hat : db1.eth_tx_attempts = db.eth_tx_attempts.map (fun r => if r.ID = a.ID then
      { r with State := .broadcast } else r) := by rw [← hcb]
  obtain ⟨⟨_, honly⟩, _, _⟩ := hC
  have hno : NoInProgress A db1 :=
    noInProgress_update htx honly (fun r => by simp [inProgressOf])
  refine ⟨⟨?_, singleInProgress_of_none hno, ?_⟩, hno⟩
  · exact nodup_update htx (fun r => rfl) hwf.ids
  · intro r' hr' hfrom hstate x' hx'
    rw [htx] at hr'
    rw [hat] at hx'
    obtain ⟨r, hr, rfl⟩ := List.mem_map.1 hr'
    obtain ⟨x, hx, rfl⟩ := List.mem_map.1 hx'
    by_cases hid : r.ID = etx.ID
    · simp [hid] at hstate
    · simp only [hid, if_false] at hfrom hstate ⊢
      have := hwf.unstarted r hr hfrom hstate x hx
      split <;> exact this

theorem wf_fatal {w : World} {A : Address} {s s1 : St} {etx : EthTx} {a : EthTxAttempt}
    (hwf : WellFormed A s.db) (hC : Holds A etx a s.db)
    (h : saveFatallyErroredTransaction w etx s = (none, s1)) :
    WellFormed A s1.db ∧ NoInProgress A s1.db := by
  obtain ⟨_, msg, r0, _, _, _, hdb, _⟩ := saveFatallyErroredTransaction_ok h
  have htx : s1.db.eth_txes = s.db.eth_txes.map (fun r => if r.ID = etx.ID then
      { r with
        State := .fatalError, Error := some msg, BroadcastAt := none,
        InitialBroadcastAt := none, Nonce := none } else r) := by rw [hdb]
  have hat : s1.db.eth_tx_attempts =
      s.db.eth_tx_attempts.filter (fun a => decide (a.EthTxID ≠ etx.ID)) := by rw [hdb]
  obtain ⟨⟨_, honly⟩, _, _⟩ := hC
  have hno : NoInProgress A s1.db :=
    noInProgress_update htx honly (fun r => by simp [inProgressOf])
  refine ⟨⟨?_, singleInProgress_of_none hno, ?_⟩, hno⟩
  · exact nodup_update htx (fun r => rfl) hwf.ids
  · intro r' hr' hfrom hstate x hx
    rw [htx] at hr'
    rw [hat] at hx
    obtain ⟨r, hr, rfl⟩ := List.mem_map.1 hr'
    by_cases hid : r.ID = etx.ID
    · simp [hid] at hstate
    · simp only [hid, if_false] at hfrom hstate ⊢
      exact hwf.unstarted r hr hfrom hstate x (List.mem_filter.1 hx).1



theorem wf_promote {w : World} {A : Address} {db db1 : DB} {etx etx1 : EthTx}
    {a a1 : EthTxAttempt} (hwf : WellFormed A db) (hQ : NoInProgress A db)
    (hnext : nextUnstartedTransactionWithNonce w db A = .ok (some etx))
    (hfk : a.EthTxID = etx.ID) (hst : a.State = .inProgress)
    (h : saveInProgressTransaction db etx a = (none, db1, etx1, a1)) :
    WellFormed A db1 ∧ Holds A etx1 a1 db1
      ∧ (∀ r ∈ db1.eth_txes, inProgressOf A r = true → r.ID = etx1.ID) := by
  obtain ⟨row, v, hrow, hfrom, hstate, hchain, hctr, hetx⟩ :=
    nextUnstartedTransactionWithNonce_some hnext
  obtain ⟨_, _, r0, hr0, hdb1, hetx1, ha1⟩ := saveInProgressTransaction_ok h
  have hid : etx.ID = row.ID := by rw [hetx]
  have hr0id : r0.ID = etx.ID := by simpa using List.find?_some hr0
  have hr0row : r0 = row :=
    eq_of_nodup_id hwf.ids (List.mem_of_find?_eq_some hr0) hrow (by rw [hr0id, hid])
  have htx : db1.eth_txes = db.eth_txes.map (fun r => if r.ID = etx.ID then
      { r with
        Nonce := etx.Nonce, State := .inProgress, BroadcastAt := etx.BroadcastAt,
        InitialBroadcastAt := etx.InitialBroadcastAt } else r) := by rw [hdb1]
  have hat : db1.eth_tx_attempts = db.eth_tx_attempts ++ [a1] := by rw [hdb1, ha1]
  have he1id : etx1.ID = etx.ID := by rw [hetx1]; exact hr0id
  have ha1fk : a1.EthTxID = etx.ID := by rw [ha1]; exact hfk
  have ha1st : a1.State = .inProgress := by rw [ha1]; exact hst
  -- the promoted row is the only in_progress one
  have honly : ∀ r ∈ db1.eth_txes, inProgressOf A r = true → r.ID = etx.ID := by
    intro r' hr' hp
    rw [htx] at hr'
    obtain ⟨r, hr, rfl⟩ := List.mem_map.1 hr'
    by_cases hrid : r.ID = etx.ID
    · simp [hrid]
    · simp only [hrid, if_false] at hp
      rw [hQ r hr] at hp
      cases hp
  have hfilter : db1.eth_tx_attempts.filter (fun x => decide (x.EthTxID = etx.ID)) = [a1] := by
    rw [hat, List.filter_append]
    have : db.eth_tx_attempts.filter (fun x => decide (x.EthTxID = etx.ID)) = [] := by
      rw [List.filter_eq_nil_iff]
      intro x hx hp
      simp only [decide_eq_true_eq] at hp
      exact hwf.unstarted row hrow hfrom hstate x hx (by rw [hp, hid])
    rw [this]
    simp [ha1fk]
  have hcount : db1.eth_txes.countP (inProgressOf A) ≤ 1 := by
    rw [htx]
    have h1 := @countP_map_le (inProgressOf A) (fun r => if r.ID = etx.ID then
      { r with
        Nonce := etx.Nonce, State := .inProgress, BroadcastAt := etx.BroadcastAt,
        InitialBroadcastAt := etx.InitialBroadcastAt } else r) etx.ID
      (by intro r hr; simp [hr]) db.eth_txes
    have h2 := countP_id_le_one hwf.ids etx.ID
    have h3 := noInProgress_countP hQ
    omega
  refine ⟨⟨nodup_update htx (fun r => rfl) hwf.ids, ⟨hcount, ?_⟩, ?_⟩,
    ⟨⟨?_, ?_⟩, ?_, ha1st⟩, ?_⟩
  · intro r hr hp
    exact ⟨a1, by rw [honly r hr hp]; exact hfilter, ha1st⟩
  · intro r' hr' hfrom' hstate' x hx
    rw [htx] at hr'
    rw [hat] at hx
    obtain ⟨r, hr, rfl⟩ := List.mem_map.1 hr'
    by_cases hrid : r.ID = etx.ID
    · simp [hrid] at hstate'
    · simp only [hrid, if_false] at hfrom' hstate' ⊢
      rcases List.mem_append.1 hx with hx | hx
      · exact hwf.unstarted r hr hfrom' hstate' x hx
      · rw [List.mem_singleton.1 hx, ha1fk]
        exact fun h => hrid h.symm
  · refine ⟨{ row with
              Nonce := etx.Nonce, State := .inProgress, BroadcastAt := etx.BroadcastAt,
              InitialBroadcastAt := etx.InitialBroadcastAt }, ?_, ?_, hfrom, rfl, ?_, ?_, ?_, ?_⟩
    · rw [htx]
      refine List.mem_map.2 ⟨row, hrow, ?_⟩
      simp [hid]
    · rw [he1id, hid]
    · rw [hetx1, hr0row]
    · rw [hetx1, hr0row]
    · rw [hetx1]
    · rw [hetx1]
  · intro r hr hp
    rw [he1id]
    exact honly r hr hp
  · rw [he1id]
    exact hfilter
  · intro r hr hp
    rw [he1id]
    exact honly r hr hp

theorem holds_recover {A : Address} {db : DB} {etx : EthTx} {a : EthTxAttempt}
    {rest : List EthTxAttempt} (hwf : WellFormed A db)
    (hget : getInProgressEthTx db A = .ok (some etx)) (hatt : etx.EthTxAttempts = a :: rest) :
    Holds A etx a db := by
  obtain ⟨row, a', hrow, hetx, hfilter, hast⟩ := getInProgressEthTx_some hget
  have hp := List.find?_some hrow
  have hmem := List.mem_of_find?_eq_some hrow
  have hp' : inProgressOf A row = true := hp
  obtain ⟨hfrom, hstate⟩ := inProgressOf_iff.1 hp'
  have haa : a = a' := by
    rw [hetx] at hatt
    simp only [List.cons.injEq] at hatt
    exact hatt.1.symm
  subst haa
  have hid : etx.ID = row.ID := by rw [hetx]
  refine ⟨⟨⟨row, hmem, hid.symm, hfrom, hstate, ?_, ?_, ?_, ?_⟩, ?_⟩, ?_, hast⟩
  · rw [hetx]
  · rw [hetx]
  · rw [hetx]
  · rw [hetx]
  · intro r hr hpr
    rw [hid, eq_of_countP_le_one hwf.single.1 hr hmem hpr hp']
  · rw [hid]
    exact hfilter

/-- Well-formedness of the store and P2 at every commit are kept by the worker. -/
theorem closed_single (w : World) (A : Address) :
    Closed w A (fun db log => WellFormed A db ∧ CommitsSingle A log) (Holds A)
      (NoInProgress A) where
  submit := fun _ _ _ _ h =>
    ⟨h.1, commitsSingle_cons h.2 (fun _ h => (by cases h)) (fun _ _ _ h => (by cases h))⟩
  resume := fun _ _ _ _ h =>
    ⟨h.1, commitsSingle_cons h.2 (fun _ h => (by cases h)) (fun _ _ _ h => (by cases h))⟩
  memory := by
    intro db etx etx1 a h1 h2 h3 h4 h5 ⟨⟨⟨r, hr, hid, hfrom, hst, e1, e2, e3, e4⟩, honly⟩, hatt, hast⟩
    refine ⟨⟨⟨r, hr, by rw [h1]; exact hid, hfrom, hst, by rw [h2]; exact e1,
      by rw [h3]; exact e2, by rw [h4]; exact e3, by rw [h5]; exact e4⟩, ?_⟩, ?_, hast⟩
    · rw [h1]; exact honly
    · rw [h1]; exact hatt
  replace := by
    intro db log etx a repl db1 row hP hC hfk hst h
    obtain ⟨h1, h2⟩ := wf_replace hP.1 hC hfk hst h
    exact ⟨⟨h1, commitsSingle_cons hP.2
      (fun d hd => by simp only [Event.snapshot, Option.some.injEq] at hd; rw [← hd]; exact h1.single)
      (fun _ _ _ h => (by cases h))⟩, h2⟩
  broadcast := by
    intro db log etx a now db1 etx2 hP hC h
    obtain ⟨h1, h2⟩ := wf_broadcast hP.1 hC h
    exact ⟨⟨h1, commitsSingle_cons hP.2
      (fun d hd => by simp only [Event.snapshot, Option.some.injEq] at hd; rw [← hd]; exact h1.single)
      (fun _ _ _ h => (by cases h))⟩, h2⟩
  fatal := by
    intro s etx a s1 hP hC h
    obtain ⟨h1, h2⟩ := wf_fatal hP.1 hC h
    obtain ⟨_, msg, r0, _, _, _, _, hlog⟩ := saveFatallyErroredTransaction_ok h
    obtain ⟨pre, hpre, hres⟩ := callResume_log w etx msg s
    refine ⟨⟨h1, ?_⟩, h2⟩
    rw [hlog, hpre]
    exact commitsSingle_cons (commitsSingle_append_resumes hP.2 pre hres)
      (fun d hd => by simp only [Event.snapshot, Option.some.injEq] at hd; rw [← hd]; exact h1.single)
      (fun _ _ _ h => (by cases h))
  promote := by
    intro db log etx a db1 etx1 a1 hP hQ hnext hfk hst h
    obtain ⟨h1, h2, h3⟩ := wf_promote hP.1 hQ hnext hfk hst h
    exact ⟨⟨h1, commitsSingle_cons hP.2
      (fun d hd => by simp only [Event.snapshot, Option.some.injEq] at hd; rw [← hd]; exact h1.single)
      (fun e2 a2 d hd => by
        simp only [Event.persistInProgress.injEq] at hd
        obtain ⟨rfl, _, rfl⟩ := hd
        exact h3)⟩, h2⟩
  recover := fun _ _ _ _ _ hP hget hatt => holds_recover hP.1 hget hatt
  idle := fun _ _ _ hget => getInProgressEthTx_none_noInProgress hget

/-! ## The nonce ledger is kept by the worker -/

theorem largest_eq_none {l : List Int} : largest l = none ↔ l = [] := by
  cases l with
  | nil => simp [largest]
  | cons n l =>
    simp only [largest]
    split <;> simp

theorem largest_eq_some {l : List Int} {m : Int} :
    largest l = some m ↔ m ∈ l ∧ ∀ x ∈ l, x ≤ m := by
  induction l generalizing m with
  | nil => simp [largest]
  | cons n l ih =>
    simp only [largest]
    cases hl : largest l with
    | none =>
      have hnil := largest_eq_none.1 hl
      subst hnil
      simp only [Option.some.injEq, List.mem_singleton, forall_eq]
      constructor
      · rintro rfl; exact ⟨rfl, le_refl _⟩
      · rintro ⟨h, _⟩; exact h.symm
    | some k =>
      obtain ⟨hk1, hk2⟩ := ih.1 hl
      simp only [Option.some.injEq, List.mem_cons, forall_eq_or_imp]
      constructor
      · rintro rfl
        refine ⟨?_, le_max_left _ _, fun x hx => le_trans (hk2 x hx) (le_max_right _ _)⟩
        rcases le_total n k with h | h
        · right; rw [max_eq_right h]; exact hk1
        · left; rw [max_eq_left h]
      · rintro ⟨hm, hn, hall⟩
        apply le_antisymm
        · exact max_le hn (hall k hk1)
        · rcases hm with rfl | hm
          · exact le_max_left _ _
          · exact le_trans (hk2 m hm) (le_max_right _ _)

theorem mem_assignedNonces {states : List EthTxState} {db : DB} {A : Address} {c : ChainID}
    {n : Int} :
    n ∈ assignedNonces states db A c ↔
      ∃ r ∈ db.eth_txes, r.FromAddress = A ∧ r.EVMChainID = c ∧ r.State ∈ states
        ∧ r.Nonce = some n := by
  unfold assignedNonces
  rw [List.mem_filterMap]
  constructor
  · rintro ⟨r, hr, hn⟩
    have h2 := List.mem_filter.1 hr
    simp only [Bool.and_eq_true, decide_eq_true_eq] at h2
    exact ⟨r, h2.1, h2.2.1.1, h2.2.1.2, h2.2.2, hn⟩
  · rintro ⟨r, hr, h1, h2, h3, hn⟩
    exact ⟨r, List.mem_filter.2 ⟨hr, by simp [h1, h2, h3]⟩, hn⟩

/-- The equation between counter and history, in terms of membership. -/
theorem counterEqualsHistory_iff {states : List EthTxState} {n0 : Int} {db : DB} {A : Address}
    {c : ChainID} :
    CounterEqualsHistory states n0 db A c ↔
      ∃ v, GetNextNonce db A c = .ok v ∧
        ((assignedNonces states db A c = [] ∧ v = n0) ∨
          (v - 1 ∈ assignedNonces states db A c
            ∧ ∀ x ∈ assignedNonces states db A c, x < v)) := by
  unfold CounterEqualsHistory
  cases hl : largest (assignedNonces states db A c) with
  | none =>
    have hnil := largest_eq_none.1 hl
    simp only
    constructor
    · intro h; exact ⟨n0, h, Or.inl ⟨hnil, rfl⟩⟩
    · rintro ⟨v, hv, h | h⟩
      · rw [hv, h.2]
      · rw [hnil] at h; cases h.1
  | some m =>
    obtain ⟨hm1, hm2⟩ := largest_eq_some.1 hl
    simp only
    constructor
    · intro h
      refine ⟨m + 1, h, Or.inr ⟨by simpa using hm1, fun x hx => ?_⟩⟩
      have := hm2 x hx
      omega
    · rintro ⟨v, hv, h | h⟩
      · rw [h.1] at hm1; cases hm1
      · have h1 := hm2 _ h.1
        have h2 := h.2 m hm1
        have : v = m + 1 := by omega
        rw [hv, this]

theorem GetNextNonce_congr {db db1 : DB} (h : db1.eth_key_states = db.eth_key_states)
    (A : Address) (c : ChainID) : GetNextNonce db1 A c = GetNextNonce db A c := by
  unfold GetNextNonce
  rw [h]



theorem GetNextNonce_after_cas_of {db db1 : DB} {A : Address} {c : ChainID} {n : Int}
    {now : Time} (h : GetNextNonce db A c = .ok n)
    (hk : db1.eth_key_states = db.eth_key_states.map (fun k =>
        if nonceRowMatches A c n k
        then { k with NextNonce := k.NextNonce + 1, UpdatedAt := now } else k)) :
    GetNextNonce db1 A c = .ok (n + 1) := by
  have h1 := @GetNextNonce_after_cas db.eth_key_states A c n now db.eth_txes
    db.eth_tx_attempts h db1.eth_txes db1.eth_tx_attempts
  rw [← hk] at h1
  exact h1

theorem history_same {states : List EthTxState} {n0 : Int} {db db1 : DB} {A : Address}
    {c : ChainID}
    (hmem : ∀ n, n ∈ assignedNonces states db1 A c ↔ n ∈ assignedNonces states db A c)
    (hkeys : db1.eth_key_states = db.eth_key_states)
    (h : CounterEqualsHistory states n0 db A c) : CounterEqualsHistory states n0 db1 A c := by
  rw [counterEqualsHistory_iff] at h ⊢
  obtain ⟨v, hv, hcase⟩ := h
  refine ⟨v, by rw [GetNextNonce_congr hkeys]; exact hv, ?_⟩
  rcases hcase with ⟨hnil, hv0⟩ | ⟨h1, h2⟩
  · left
    refine ⟨?_, hv0⟩
    rw [List.eq_nil_iff_forall_not_mem]
    intro x hx
    have := (hmem x).1 hx
    rw [hnil] at this
    cases this
  · right
    exact ⟨(hmem _).2 h1, fun x hx => h2 x ((hmem x).1 hx)⟩

/-- Rows outside the given states that are rewritten to rows outside the given states leave the
assigned nonces as they were. -/
theorem mem_assignedNonces_update {states : List EthTxState} {db db1 : DB} {A : Address}
    {c : ChainID} {id : Nat} {f : EthTx → EthTx}
    (hdb : db1.eth_txes = db.eth_txes.map (fun r => if r.ID = id then f r else r))
    (hold : ∀ r ∈ db.eth_txes, r.ID = id → r.State ∉ states)
    (hnew : ∀ r, (f r).State ∉ states) (n : Int) :
    n ∈ assignedNonces states db1 A c ↔ n ∈ assignedNonces states db A c := by
  rw [mem_assignedNonces, mem_assignedNonces]
  constructor
  · rintro ⟨r', hr', h1, h2, h3, h4⟩
    rw [hdb] at hr'
    obtain ⟨r, hr, rfl⟩ := List.mem_map.1 hr'
    by_cases hid : r.ID = id
    · simp only [hid, if_true] at h3
      exact absurd h3 (hnew r)
    · simp only [hid, if_false] at h1 h2 h3 h4
      exact ⟨r, hr, h1, h2, h3, h4⟩
  · rintro ⟨r, hr, h1, h2, h3, h4⟩
    have hid : r.ID ≠ id := fun hid => hold r hr hid h3
    refine ⟨r, ?_, h1, h2, h3, h4⟩
    rw [hdb]
    exact List.mem_map.2 ⟨r, hr, by simp [hid]⟩

theorem tracks_recover {A : Address} {db : DB} {etx : EthTx} {a : EthTxAttempt}
    {rest : List EthTxAttempt} (hsingle : db.eth_txes.countP (inProgressOf A) ≤ 1)
    (hget : getInProgressEthTx db A = .ok (some etx)) (_hatt : etx.EthTxAttempts = a :: rest) :
    Tracks A etx db := by
  obtain ⟨row, a', hrow, hetx, hfilter, hast⟩ := getInProgressEthTx_some hget
  have hp := List.find?_some hrow
  have hmem := List.mem_of_find?_eq_some hrow
  have hp' : inProgressOf A row = true := hp
  obtain ⟨hfrom, hstate⟩ := inProgressOf_iff.1 hp'
  have hid : etx.ID = row.ID := by rw [hetx]
  refine ⟨⟨row, hmem, hid.symm, hfrom, hstate, ?_, ?_, ?_, ?_⟩, ?_⟩
  · rw [hetx]
  · rw [hetx]
  · rw [hetx]
  · rw [hetx]
  · intro r hr hpr
    rw [hid, eq_of_countP_le_one hsingle hr hmem hpr hp']

/-- What a promotion does to the transaction rows, given unique ids and no in_progress
transaction of the sender. -/
theorem promote_rows {w : World} {A : Address} {db db1 : DB} {etx etx1 : EthTx}
    {a a1 : EthTxAttempt} (hids : (db.eth_txes.map (fun r => r.ID)).Nodup)
    (hQ : NoInProgress A db)
    (hnext : nextUnstartedTransactionWithNonce w db A = .ok (some etx))
    (h : saveInProgressTransaction db etx a = (none, db1, etx1, a1)) :
    ∃ row v, row ∈ db.eth_txes ∧ row.ID = etx.ID ∧ row.State = .unstarted
      ∧ row.EVMChainID = w.chainID ∧ GetNextNonce db A w.chainID = .ok v
      ∧ db1.eth_txes = db.eth_txes.map (fun r => if r.ID = etx.ID then
          { r with
            Nonce := some v, State := .inProgress, BroadcastAt := etx.BroadcastAt,
            InitialBroadcastAt := etx.InitialBroadcastAt } else r)
      ∧ db1.eth_key_states = db.eth_key_states
      ∧ (db1.eth_txes.map (fun r => r.ID)).Nodup
      ∧ db1.eth_txes.countP (inProgressOf A) ≤ 1
      ∧ Tracks A etx1 db1
      ∧ (∀ r ∈ db1.eth_txes, inProgressOf A r = true →
          r.ID = etx.ID ∧ r.Nonce = some v ∧ r.EVMChainID = w.chainID) := by
  obtain ⟨row, v, hrow, hfrom, hstate, hchain, hctr, hetx⟩ :=
    nextUnstartedTransactionWithNonce_some hnext
  obtain ⟨_, _, r0, hr0, hdb1, hetx1, ha1⟩ := saveInProgressTransaction_ok h
  have hid : etx.ID = row.ID := by rw [hetx]
  have hnonce : etx.Nonce = some v := by rw [hetx]
  have hr0id : r0.ID = etx.ID := by simpa using List.find?_some hr0
  have hr0row : r0 = row :=
    eq_of_nodup_id hids (List.mem_of_find?_eq_some hr0) hrow (by rw [hr0id, hid])
  have htx : db1.eth_txes = db.eth_txes.map (fun r => if r.ID = etx.ID then
      { r with
        Nonce := some v, State := .inProgress, BroadcastAt := etx.BroadcastAt,
        InitialBroadcastAt := etx.InitialBroadcastAt } else r) := by rw [hdb1, hnonce]
  have he1id : etx1.ID = etx.ID := by rw [hetx1]; exact hr0id
  have hrows : ∀ r ∈ db1.eth_txes, inProgressOf A r = true →
      r.ID = etx.ID ∧ r.Nonce = some v ∧ r.EVMChainID = w.chainID := by
    intro r' hr' hp
    rw [htx] at hr'
    obtain ⟨r, hr, rfl⟩ := List.mem_map.1 hr'
    by_cases hrid : r.ID = etx.ID
    · have hrr : r = row := eq_of_nodup_id hids hr hrow (by rw [hrid, hid])
      have hc : r.EVMChainID = w.chainID := by rw [hrr]; exact hchain
      rw [if_pos hrid]
      exact ⟨hrid, rfl, hc⟩
    · simp only [hrid, if_false] at hp
      rw [hQ r hr] at hp
      cases hp
  have hcount : db1.eth_txes.countP (inProgressOf A) ≤ 1 := by
    rw [htx]
    have h1 := @countP_map_le (inProgressOf A) (fun r => if r.ID = etx.ID then
      { r with
        Nonce := some v, State := .inProgress, BroadcastAt := etx.BroadcastAt,
        InitialBroadcastAt := etx.InitialBroadcastAt } else r) etx.ID
      (by intro r hr; simp [hr]) db.eth_txes
    have h2 := countP_id_le_one hids etx.ID
    have h3 := noInProgress_countP hQ
    omega
  refine ⟨row, v, hrow, hid.symm, hstate, hchain, hctr, htx, by rw [hdb1],
    nodup_update htx (fun r => rfl) hids, hcount, ⟨?_, ?_⟩, hrows⟩
  · refine ⟨{ row with
              Nonce := some v, State := .inProgress, BroadcastAt := etx.BroadcastAt,
              InitialBroadcastAt := etx.InitialBroadcastAt }, ?_, ?_, hfrom, rfl, ?_, ?_, ?_, ?_⟩
    · rw [htx]
      refine List.mem_map.2 ⟨row, hrow, ?_⟩
      simp [hid]
    · rw [he1id, hid]
    · rw [hetx1, hr0row]
    · rw [hetx1, hr0row]
    · rw [hetx1, hnonce]
    · rw [hetx1]
  · intro r hr hp
    rw [he1id]
    exact (hrows r hr hp).1



theorem assignedNonces_congr {states : List EthTxState} {db db1 : DB}
    (h : db1.eth_txes = db.eth_txes) (A : Address) (c : ChainID) :
    assignedNonces states db1 A c = assignedNonces states db A c := by
  unfold assignedNonces
  rw [h]

theorem ledger_congr {A : Address} {c : ChainID} {n0 : Int} {db db1 : DB}
    (htx : db1.eth_txes = db.eth_txes) (hk : db1.eth_key_states = db.eth_key_states)
    (h : Ledger A c n0 db) : Ledger A c n0 db1 := by
  refine ⟨by rw [htx]; exact h.ids, by rw [htx]; exact h.single, ?_, ?_⟩
  · intro r hr hp n hn
    rw [htx] at hr
    rw [GetNextNonce_congr hk]
    exact h.pending r hr hp n hn
  · have := h.history
    unfold CounterEqualsHistory at this ⊢
    rw [GetNextNonce_congr hk, assignedNonces_congr htx]
    exact this

theorem ledger_of_none {A : Address} {c : ChainID} {n0 : Int} {db1 : DB}
    (hids : (db1.eth_txes.map (fun r => r.ID)).Nodup) (hno : NoInProgress A db1)
    (hhist : CounterEqualsHistory [.unconfirmed, .confirmed] n0 db1 A c) :
    Ledger A c n0 db1 := by
  refine ⟨hids, by rw [noInProgress_countP hno]; exact Nat.zero_le _, ?_, hhist⟩
  intro r hr hp
  rw [hno r hr] at hp
  cases hp

theorem ledger_fatal {w : World} {A : Address} {c : ChainID} {n0 : Int} {s s1 : St}
    {etx : EthTx} (hl : Ledger A c n0 s.db) (hC : Tracks A etx s.db)
    (h : saveFatallyErroredTransaction w etx s = (none, s1)) :
    Ledger A c n0 s1.db ∧ NoInProgress A s1.db := by
  obtain ⟨_, msg, _, _, _, _, hdb, _⟩ := saveFatallyErroredTransaction_ok h
  have htx : s1.db.eth_txes = s.db.eth_txes.map (fun r => if r.ID = etx.ID then
      { r with
        State := .fatalError, Error := some msg, BroadcastAt := none,
        InitialBroadcastAt := none, Nonce := none } else r) := by rw [hdb]
  have hk : s1.db.eth_key_states = s.db.eth_key_states := by rw [hdb]
  obtain ⟨⟨r0, hr0, hid0, _, hst0, _⟩, honly⟩ := hC
  have hno : NoInProgress A s1.db :=
    noInProgress_update htx honly (fun r => by simp [inProgressOf])
  refine ⟨ledger_of_none (nodup_update htx (fun r => rfl) hl.ids) hno ?_, hno⟩
  refine history_same (mem_assignedNonces_update htx ?_ ?_) hk hl.history
  · intro r hr hid
    have : r = r0 := eq_of_nodup_id hl.ids hr hr0 (by rw [hid, hid0])
    rw [this, hst0]
    decide
  · intro r
    simp

theorem ledger_promote {w : World} {A : Address} {n0 : Int} {db db1 : DB} {etx etx1 : EthTx}
    {a a1 : EthTxAttempt} (hl : Ledger A w.chainID n0 db) (hQ : NoInProgress A db)
    (hnext : nextUnstartedTransactionWithNonce w db A = .ok (some etx))
    (h : saveInProgressTransaction db etx a = (none, db1, etx1, a1)) :
    Ledger A w.chainID n0 db1 ∧ Tracks A etx1 db1 := by
  obtain ⟨row, v, hrow, hid, hstate, _, hctr, htx, hk, hids1, hcount, htracks, hrows⟩ :=
    promote_rows hl.ids hQ hnext h
  refine ⟨⟨hids1, hcount, ?_, ?_⟩, htracks⟩
  · intro r hr hp n hn
    obtain ⟨_, h2, h3⟩ := hrows r hr hp
    rw [h2] at hn
    injection hn with hn
    rw [GetNextNonce_congr hk, ← hn]
    exact ⟨h3, hctr⟩
  · refine history_same (mem_assignedNonces_update htx ?_ ?_) hk hl.history
    · intro r hr hrid
      have : r = row := eq_of_nodup_id hl.ids hr hrow (by rw [hrid, hid])
      rw [this, hstate]
      decide
    · intro r
      simp

theorem ledger_broadcast {A : Address} {c : ChainID} {n0 : Int} {db db1 : DB}
    {etx etx2 : EthTx} {a : EthTxAttempt} {now : Time}
    (hl : Ledger A c n0 db) (hC : Tracks A etx db)
    (h : saveAttempt db etx a .broadcast [] now = (none, db1, etx2)) :
    Ledger A c n0 db1 ∧ NoInProgress A db1 := by
  obtain ⟨_, _, _, n, _, _, hn, _, _, _, _, hcb⟩ := saveAttempt_ok h
  simp only [runCallbacks, Except.ok.injEq] at hcb
  have htx : db1.eth_txes = db.eth_txes.map (fun r => if r.ID = etx.ID then
      { r with
        State := .unconfirmed, Error := etx.Error, BroadcastAt := etx.BroadcastAt,
        InitialBroadcastAt := etx.InitialBroadcastAt } else r) := by rw [← hcb]
  have hk : db1.eth_key_states = db.eth_key_states.map (fun k =>
      if nonceRowMatches etx.FromAddress etx.EVMChainID n k
      then { k with NextNonce := k.NextNonce + 1, UpdatedAt := now } else k) := by rw [← hcb]
  obtain ⟨⟨r0, hr0, hid0, hfrom0, hst0, e1, e2, e3, _⟩, honly⟩ := hC
  have hp0 : inProgressOf A r0 = true := inProgressOf_iff.2 ⟨hfrom0, hst0⟩
  have hn0 : r0.Nonce = some n := by rw [← e3]; exact hn
  obtain ⟨hchain0, hctr⟩ := hl.pending r0 hr0 hp0 n hn0
  have hfromA : etx.FromAddress = A := by rw [e1]; exact hfrom0
  have hchainc : etx.EVMChainID = c := by rw [e2]; exact hchain0
  rw [hfromA, hchainc] at hk
  have hno : NoInProgress A db1 :=
    noInProgress_update htx honly (fun r => by simp [inProgressOf])
  refine ⟨ledger_of_none (nodup_update htx (fun r => rfl) hl.ids) hno ?_, hno⟩
  have hctr1 : GetNextNonce db1 A c = .ok (n + 1) := GetNextNonce_after_cas_of hctr hk
  have hmem : ∀ x, x ∈ assignedNonces [.unconfirmed, .confirmed] db1 A c ↔
      x ∈ assignedNonces [.unconfirmed, .confirmed] db A c ∨ x = n := by
    intro x
    rw [mem_assignedNonces, mem_assignedNonces]
    constructor
    · rintro ⟨r', hr', h1, h2, h3, h4⟩
      rw [htx] at hr'
      obtain ⟨r, hr, rfl⟩ := List.mem_map.1 hr'
      by_cases hid : r.ID = etx.ID
      · right
        have hrr : r = r0 := eq_of_nodup_id hl.ids hr hr0 (by rw [hid, hid0])
        simp only [hid, if_true] at h4
        rw [hrr, hn0] at h4
        injection h4 with h4
        exact h4.symm
      · left
        simp only [hid, if_false] at h1 h2 h3 h4
        exact ⟨r, hr, h1, h2, h3, h4⟩
    · rintro (⟨r, hr, h1, h2, h3, h4⟩ | rfl)
      · have hid : r.ID ≠ etx.ID := by
          intro hid
          have hrr : r = r0 := eq_of_nodup_id hl.ids hr hr0 (by rw [hid, hid0])
          rw [hrr, hst0] at h3
          revert h3
          decide
        refine ⟨r, ?_, h1, h2, h3, h4⟩
        rw [htx]
        exact List.mem_map.2 ⟨r, hr, by simp [hid]⟩
      · refine ⟨{ r0 with
                  State := .unconfirmed, Error := etx.Error, BroadcastAt := etx.BroadcastAt,
                  InitialBroadcastAt := etx.InitialBroadcastAt }, ?_, hfrom0, hchain0,
          by simp, hn0⟩
        rw [htx]
        exact List.mem_map.2 ⟨r0, hr0, by simp [hid0]⟩
  rw [counterEqualsHistory_iff]
  refine ⟨n + 1, hctr1, Or.inr ⟨?_, ?_⟩⟩
  · rw [hmem]
    right
    omega
  · intro x hx
    rcases (hmem x).1 hx with hx | rfl
    · obtain ⟨v, hv, hcase⟩ := counterEqualsHistory_iff.1 hl.history
      rw [hctr] at hv
      injection hv with hv
      rcases hcase with ⟨hnil, _⟩ | ⟨_, h2⟩
      · rw [hnil] at hx; cases hx
      · have := h2 x hx
        omega
    · omega

/-- The ledger invariant is kept by the worker. -/
theorem closed_ledger (w : World) (A : Address) (n0 : Int) :
    Closed w A (fun db _ => Ledger A w.chainID n0 db) (fun etx _ db => Tracks A etx db)
      (NoInProgress A) where
  submit := fun _ _ _ _ h => h
  resume := fun _ _ _ _ h => h
  memory := by
    intro db etx etx1 a h1 h2 h3 h4 h5 ⟨⟨r, hr, hid, hfrom, hst, e1, e2, e3, e4⟩, honly⟩
    refine ⟨⟨r, hr, by rw [h1]; exact hid, hfrom, hst, by rw [h2]; exact e1,
      by rw [h3]; exact e2, by rw [h4]; exact e3, by rw [h5]; exact e4⟩, ?_⟩
    rw [h1]; exact honly
  replace := by
    intro db log etx a repl db1 row hP hC _ _ h
    obtain ⟨_, _, hdb1, _, _⟩ := saveReplacementInProgressAttempt_ok h
    have htx : db1.eth_txes = db.eth_txes := by rw [hdb1]
    have hk : db1.eth_key_states = db.eth_key_states := by rw [hdb1]
    refine ⟨ledger_congr htx hk hP, ?_⟩
    obtain ⟨⟨r, hr, hrest⟩, honly⟩ := hC
    exact ⟨⟨r, by rw [htx]; exact hr, hrest⟩, by rw [htx]; exact honly⟩
  broadcast := fun _ _ _ _ _ _ _ hP hC h => ledger_broadcast hP hC h
  fatal := fun _ _ _ _ hP hC h => ledger_fatal hP hC h
  promote := fun _ _ _ _ _ _ _ hP hQ hnext _ _ h => ledger_promote hP hQ hnext h
  recover := fun _ _ _ _ _ hP hget hatt => tracks_recover hP.single hget hatt
  idle := fun _ _ _ hget => getInProgressEthTx_none_noInProgress hget


/-! ## The sequence of broadcast nonces is kept by the worker -/

theorem nonceRun_succ (n0 : Int) (k : Nat) :
    nonceRun n0 (k + 1) = nonceRun n0 k ++ [some (n0 + (k : Int))] := by
  simp [nonceRun, List.range_succ]

theorem nonceRun_pairwise (n0 : Int) (k : Nat) :
    (nonceRun n0 k).Pairwise (fun a b => ∃ n m : Int, a = some n ∧ b = some m ∧ n < m) := by
  unfold nonceRun
  rw [List.pairwise_map]
  refine (List.pairwise_lt_range k).imp ?_
  intro i j hij
  exact ⟨_, _, rfl, rfl, by omega⟩

theorem broadcastNonces_resumes (pre log : List Event)
    (hpre : ∀ e ∈ pre, ∃ id m, e = Event.resume id m) :
    broadcastNonces (pre ++ log) = broadcastNonces log := by
  induction pre with
  | nil => rfl
  | cons e pre ih =>
    obtain ⟨id, m, rfl⟩ := hpre _ (List.mem_cons_self _ _)
    rw [List.cons_append, broadcastNonces]
    exact ih (fun x hx => hpre x (List.mem_cons_of_mem _ hx))

/-- A change of the transaction with one id that leaves counters and broadcasts alone. -/
theorem sequenced_update {A : Address} {c : ChainID} {n0 : Int} {db db1 : DB}
    {log log1 : List Event} {id : Nat} {f : EthTx → EthTx} (h : Sequenced A c n0 db log)
    (htx : db1.eth_txes = db.eth_txes.map (fun r => if r.ID = id then f r else r))
    (hf : ∀ r, (f r).ID = r.ID)
    (hk : db1.eth_key_states = db.eth_key_states)
    (he : broadcastNonces log1 = broadcastNonces log)
    (hnew : ∀ r ∈ db.eth_txes, r.ID = id → (f r).FromAddress = A → ∀ n, (f r).Nonce = some n →
      (f r).EVMChainID = c ∧ n0 ≤ n ∧ n ≤ n0 + ((broadcastNonces log).length : Int)) :
    Sequenced A c n0 db1 log1 := by
  refine ⟨nodup_update htx hf h.ids, by rw [he]; exact h.run,
    by rw [he, GetNextNonce_congr hk]; exact h.counter, by rw [he, hk]; exact h.keys, ?_⟩
  intro r' hr' hfrom n hn
  rw [he]
  rw [htx] at hr'
  obtain ⟨r, hr, rfl⟩ := List.mem_map.1 hr'
  by_cases hid : r.ID = id
  · rw [if_pos hid] at hfrom hn ⊢
    exact hnew r hr hid hfrom n hn
  · rw [if_neg hid] at hfrom hn ⊢
    exact h.held r hr hfrom n hn

/-- A change of the attempts or the history that leaves transactions, counters and broadcasts
alone. -/
theorem sequenced_congr {A : Address} {c : ChainID} {n0 : Int} {db db1 : DB}
    {log log1 : List Event} (h : Sequenced A c n0 db log) (htx : db1.eth_txes = db.eth_txes)
    (hk : db1.eth_key_states = db.eth_key_states)
    (he : broadcastNonces log1 = broadcastNonces log) : Sequenced A c n0 db1 log1 :=
  ⟨by rw [htx]; exact h.ids, by rw [he]; exact h.run,
    by rw [he, GetNextNonce_congr hk]; exact h.counter, by rw [he, hk]; exact h.keys,
    by rw [he, htx]; exact h.held⟩

theorem mirrors_recover {A : Address} {db : DB} {etx : EthTx}
    (hget : getInProgressEthTx db A = .ok (some etx)) : Mirrors A etx db := by
  obtain ⟨row, a', hrow, hetx, _, _⟩ := getInProgressEthTx_some hget
  have hp : inProgressOf A row = true := List.find?_some hrow
  have hmem := List.mem_of_find?_eq_some hrow
  obtain ⟨hfrom, hstate⟩ := inProgressOf_iff.1 hp
  refine ⟨row, hmem, ?_, hfrom, hstate, ?_, ?_, ?_, ?_⟩ <;> rw [hetx]

theorem sequenced_broadcast {A : Address} {c : ChainID} {n0 : Int} {db db1 : DB}
    {etx etx2 : EthTx} {a : EthTxAttempt} {now : Time} {log : List Event}
    (hs : Sequenced A c n0 db log) (hC : Mirrors A etx db)
    (h : saveAttempt db etx a .broadcast [] now = (none, db1, etx2)) :
    Sequenced A c n0 db1 (.persistBroadcast etx2 a db1 :: log) := by
  obtain ⟨_, _, _, n, r1, _, hn, ⟨k0, hk0, hmatch⟩, hfind, _, hetx2, hcb⟩ := saveAttempt_ok h
  simp only [runCallbacks, Except.ok.injEq] at hcb
  have htx : db1.eth_txes = db.eth_txes.map (fun r => if r.ID = etx.ID then
      { r with
        State := .unconfirmed, Error := etx.Error, BroadcastAt := etx.BroadcastAt,
        InitialBroadcastAt := etx.InitialBroadcastAt } else r) := by rw [← hcb]
  have hk : db1.eth_key_states = db.eth_key_states.map (fun k =>
      if nonceRowMatches etx.FromAddress etx.EVMChainID n k
      then { k with NextNonce := k.NextNonce + 1, UpdatedAt := now } else k) := by rw [← hcb]
  obtain ⟨r0, hr0, hid0, hfrom0, _, e1, e2, e3, _⟩ := hC
  have hn0 : r0.Nonce = some n := by rw [← e3]; exact hn
  obtain ⟨hchain0, hlo, hhi⟩ := hs.held r0 hr0 hfrom0 n hn0
  have hfromA : etx.FromAddress = A := by rw [e1]; exact hfrom0
  have hchainc : etx.EVMChainID = c := by rw [e2]; exact hchain0
  rw [hfromA, hchainc] at hk hmatch
  obtain ⟨hkA, hkc, hkn⟩ := (nonceRowMatches_iff A c n k0).1 hmatch
  have hnv : n = n0 + ((broadcastNonces log).length : Int) := by
    rcases hs.keys k0 hk0 hkA hkc with hlt | hge
    · omega
    · omega
  have hctr : GetNextNonce db A c = .ok n := by rw [hnv]; exact hs.counter
  have hctr1 : GetNextNonce db1 A c = .ok (n + 1) := GetNextNonce_after_cas_of hctr hk
  have hr1 : r1 = r0 := by
    have hp := List.find?_some hfind
    have hm := List.mem_of_find?_eq_some hfind
    exact eq_of_nodup_id hs.ids hm hr0 (by rw [hid0]; exact of_decide_eq_true hp)
  have hnonce : etx2.Nonce = some n := by rw [hetx2, hr1]; exact hn0
  have hb : broadcastNonces (.persistBroadcast etx2 a db1 :: log)
      = broadcastNonces log ++ [some n] := by rw [broadcastNonces, hnonce]
  have hlen : (((broadcastNonces log ++ [some n]).length : Nat) : Int)
      = ((broadcastNonces log).length : Int) + 1 := by
    rw [List.length_append, List.length_singleton]
    push_cast
    rfl
  refine ⟨nodup_update htx (fun r => rfl) hs.ids, ?_, ?_, ?_, ?_⟩
  · rw [hb, List.length_append, List.length_singleton, nonceRun_succ, ← hs.run, ← hnv]
  · rw [hb, hlen, hctr1, hnv, add_assoc]
  · intro k' hk' hA hc
    rw [hb, hlen]
    rw [hk] at hk'
    obtain ⟨k, hkm, rfl⟩ := List.mem_map.1 hk'
    by_cases hm : nonceRowMatches A c n k = true
    · rw [if_pos hm] at hA hc ⊢
      have := ((nonceRowMatches_iff A c n k).1 hm).2.2
      right
      show n0 + (((broadcastNonces log).length : Int) + 1) ≤ k.NextNonce + 1
      omega
    · rw [if_neg hm] at hA hc ⊢
      have hne : k.NextNonce ≠ n := fun hkn => hm ((nonceRowMatches_iff A c n k).2 ⟨hA, hc, hkn⟩)
      rcases hs.keys k hkm hA hc with hlt | hge
      · exact Or.inl hlt
      · right
        omega
  · intro r' hr' hfrom m hm
    rw [hb, hlen]
    rw [htx] at hr'
    obtain ⟨r, hr, rfl⟩ := List.mem_map.1 hr'
    have hfrom' : r.FromAddress = A := by
      by_cases hid : r.ID = etx.ID
      · rw [if_pos hid] at hfrom; exact hfrom
      · rw [if_neg hid] at hfrom; exact hfrom
    have hm' : r.Nonce = some m := by
      by_cases hid : r.ID = etx.ID
      · rw [if_pos hid] at hm; exact hm
      · rw [if_neg hid] at hm; exact hm
    obtain ⟨h1, h2, h3⟩ := hs.held r hr hfrom' m hm'
    refine ⟨?_, h2, by omega⟩
    by_cases hid : r.ID = etx.ID
    · rw [if_pos hid]; exact h1
    · rw [if_neg hid]; exact h1

theorem sequenced_fatal {w : World} {A : Address} {c : ChainID} {n0 : Int} {s s1 : St}
    {etx : EthTx} (hs : Sequenced A c n0 s.db s.log)
    (h : saveFatallyErroredTransaction w etx s = (none, s1)) :
    Sequenced A c n0 s1.db s1.log := by
  obtain ⟨_, msg, r0, _, _, _, hdb, hlog⟩ := saveFatallyErroredTransaction_ok h
  obtain ⟨pre, hpre, hres⟩ := callResume_log w etx msg s
  have htx : s1.db.eth_txes = s.db.eth_txes.map (fun r => if r.ID = etx.ID then
      { r with
        State := .fatalError, Error := some msg, BroadcastAt := none,
        InitialBroadcastAt := none, Nonce := none } else r) := by rw [hdb]
  refine sequenced_update hs htx (fun r => rfl) (by rw [hdb]) ?_ ?_
  · rw [hlog, hpre]
    exact broadcastNonces_resumes pre s.log hres
  · intro r _ _ _ n hn
    cases hn

theorem sequenced_promote {w : World} {A : Address} {n0 : Int} {db db1 : DB} {etx etx1 : EthTx}
    {a a1 : EthTxAttempt} {log : List Event} (hs : Sequenced A w.chainID n0 db log)
    (hnext : nextUnstartedTransactionWithNonce w db A = .ok (some etx))
    (h : saveInProgressTransaction db etx a = (none, db1, etx1, a1)) :
    Sequenced A w.chainID n0 db1 (.persistInProgress etx1 a1 db1 :: log)
    ∧ Mirrors A etx1 db1 := by
  obtain ⟨row, v, hrow, hfrom, hstate, hchain, hctr, hetx⟩ :=
    nextUnstartedTransactionWithNonce_some hnext
  obtain ⟨_, _, r0, hr0, hdb1, hetx1, ha1⟩ := saveInProgressTransaction_ok h
  have hid : etx.ID = row.ID := by rw [hetx]
  have hnonce : etx.Nonce = some v := by rw [hetx]
  have hr0id : r0.ID = etx.ID := by simpa using List.find?_some hr0
  have hr0row : r0 = row :=
    eq_of_nodup_id hs.ids (List.mem_of_find?_eq_some hr0) hrow (by rw [hr0id, hid])
  have htx : db1.eth_txes = db.eth_txes.map (fun r => if r.ID = etx.ID then
      { r with
        Nonce := some v, State := .inProgress, BroadcastAt := etx.BroadcastAt,
        InitialBroadcastAt := etx.InitialBroadcastAt } else r) := by rw [hdb1, hnonce]
  have hv : v = n0 + ((broadcastNonces log).length : Int) := by
    have := hs.counter
    rw [hctr] at this
    injection this
  have he1id : etx1.ID = etx.ID := by rw [hetx1]; exact hr0id
  refine ⟨sequenced_update hs htx (fun r => rfl) (by rw [hdb1]) rfl ?_, ?_⟩
  · intro r hr hrid _ n hn
    have hrr : r = row := eq_of_nodup_id hs.ids hr hrow (by rw [hrid, hid])
    have hnv : v = n := by injection hn
    refine ⟨by rw [hrr]; exact hchain, ?_, ?_⟩ <;> omega
  · refine ⟨{ row with
              Nonce := some v, State := .inProgress, BroadcastAt := etx.BroadcastAt,
              InitialBroadcastAt := etx.InitialBroadcastAt }, ?_, ?_, hfrom, rfl, ?_, ?_, ?_, ?_⟩
    · rw [htx]
      refine List.mem_map.2 ⟨row, hrow, ?_⟩
      simp [hid]
    · rw [he1id, hid]
    · rw [hetx1, hr0row]
    · rw [hetx1, hr0row]
    · rw [hetx1, hnonce]
    · rw [hetx1]

/-- The sequence of broadcast nonces is kept by the worker. -/
theorem closed_sequenced (w : World) (A : Address) (n0 : Int) :
    Closed w A (Sequenced A w.chainID n0) (fun etx _ db => Mirrors A etx db)
      (fun _ => True) where
  submit := fun _ _ _ _ h => sequenced_congr h rfl rfl rfl
  resume := fun _ _ _ _ h => sequenced_congr h rfl rfl rfl
  memory := by
    intro db etx etx1 a h1 h2 h3 h4 h5 ⟨r, hr, hid, hfrom, hst, e1, e2, e3, e4⟩
    exact ⟨r, hr, by rw [h1]; exact hid, hfrom, hst, by rw [h2]; exact e1,
      by rw [h3]; exact e2, by rw [h4]; exact e3, by rw [h5]; exact e4⟩
  replace := by
    intro db log etx a repl db1 row hP hC _ _ h
    obtain ⟨_, _, hdb1, _, _⟩ := saveReplacementInProgressAttempt_ok h
    have htx : db1.eth_txes = db.eth_txes := by rw [hdb1]
    refine ⟨sequenced_congr hP htx (by rw [hdb1]) rfl, ?_⟩
    obtain ⟨r, hr, hrest⟩ := hC
    exact ⟨r, by rw [htx]; exact hr, hrest⟩
  broadcast := fun _ _ _ _ _ _ _ hP hC h => ⟨sequenced_broadcast hP hC h, trivial⟩
  fatal := fun _ _ _ _ hP _ h => ⟨sequenced_fatal hP h, trivial⟩
  promote := fun _ _ _ _ _ _ _ hP _ hnext _ _ h => sequenced_promote hP hnext h
  recover := fun _ _ _ _ _ _ hget _ => mirrors_recover hget
  idle := fun _ _ _ _ => trivial


/-! ## The resume callback, the first in_progress row, the broadcast times, the throttle -/

theorem saveFatallyErroredTransaction_called {w : World} {etx : EthTx} {s : St} {msg : String}
    {r0 : EthTx} {id : Nat} {cb : Nat → Nat → String → Option ResumeErr}
    (hst : etx.State = .inProgress) (hmsg : etx.Error = some msg)
    (hr0 : s.db.eth_txes.find? (fun r => decide (r.ID = etx.ID)) = some r0)
    (hid : etx.PipelineTaskRunID = some id) (hcb : w.resumeCallback = some cb)
    (hres : cb s.tick id (resumeText msg) = none ∨ cb s.tick id (resumeText msg) = some .noRows) :
    saveFatallyErroredTransaction w etx s
      = (none, { db := fatalStore s.db etx.ID msg, tick := s.tick + 1,
                 log := [.persistFatal
                          { r0 with
                            State := .fatalError, Error := some msg, BroadcastAt := none,
                            InitialBroadcastAt := none, Nonce := none,
                            EthTxAttempts := etx.EthTxAttempts }
                          (fatalStore s.db etx.ID msg),
                         .resume id (resumeText msg)] ++ s.log }) := by
  have hfind : List.find? (fun r => decide (r.ID = etx.ID))
      ({ s.db with eth_tx_attempts :=
          s.db.eth_tx_attempts.filter (fun a => decide (a.EthTxID ≠ etx.ID)) } : DB).eth_txes
        = some r0 := hr0
  unfold saveFatallyErroredTransaction
  rw [if_neg (by simp [hst])]
  simp only [hmsg, callResume, hid, hcb]
  unfold resumeText at hres
  rcases hres with hres | hres
  · simp only [hres, St.next, St.record, updateEthTx_of_find hfind]
    rfl
  · simp only [hres, St.next, St.record, updateEthTx_of_find hfind]
    rfl

theorem saveFatallyErroredTransaction_failed {w : World} {etx : EthTx} {s : St} {msg : String}
    {id : Nat} {cb : Nat → Nat → String → Option ResumeErr} {m : String}
    (hst : etx.State = .inProgress) (hmsg : etx.Error = some msg)
    (hid : etx.PipelineTaskRunID = some id) (hcb : w.resumeCallback = some cb)
    (hres : cb s.tick id (resumeText msg) = some (.failed m)) :
    saveFatallyErroredTransaction w etx s
      = (some (.wrap (.new m) "failed to resume pipeline"),
          { db := s.db, tick := s.tick + 1, log := .resume id (resumeText msg) :: s.log }) := by
  unfold saveFatallyErroredTransaction
  rw [if_neg (by simp [hst])]
  unfold resumeText at hres
  simp only [hmsg, callResume, hid, hcb, hres]
  rfl

theorem saveFatallyErroredTransaction_uncalled {w : World} {etx : EthTx} {s : St} {msg : String}
    {r0 : EthTx} (hst : etx.State = .inProgress) (hmsg : etx.Error = some msg)
    (hr0 : s.db.eth_txes.find? (fun r => decide (r.ID = etx.ID)) = some r0)
    (hno : etx.PipelineTaskRunID = none ∨ w.resumeCallback = none) :
    saveFatallyErroredTransaction w etx s
      = (none, { db := fatalStore s.db etx.ID msg, tick := s.tick,
                 log := .persistFatal
                          { r0 with
                            State := .fatalError, Error := some msg, BroadcastAt := none,
                            InitialBroadcastAt := none, Nonce := none,
                            EthTxAttempts := etx.EthTxAttempts }
                          (fatalStore s.db etx.ID msg) :: s.log }) := by
  have hfind : List.find? (fun r => decide (r.ID = etx.ID))
      ({ s.db with eth_tx_attempts :=
          s.db.eth_tx_attempts.filter (fun a => decide (a.EthTxID ≠ etx.ID)) } : DB).eth_txes
        = some r0 := hr0
  have hcall : callResume w etx msg s = (none, s) := by
    unfold callResume
    rcases hno with h | h
    · rw [h]
    · rw [h]
      cases etx.PipelineTaskRunID <;> rfl
  unfold saveFatallyErroredTransaction
  rw [if_neg (by simp [hst])]
  simp only [hmsg, hcall, St.record, updateEthTx_of_find hfind]
  rfl

theorem getInProgressEthTx_first {db : DB} {A : Address} {row : EthTx}
    (hrow : db.eth_txes.find? (inProgressOf A) = some row) :
    (∀ a, db.eth_tx_attempts.filter (fun x => decide (x.EthTxID = row.ID)) = [a] →
        a.State = .inProgress →
        getInProgressEthTx db A = .ok (some { row with EthTxAttempts := [a] }))
    ∧ ((¬ ∃ a, db.eth_tx_attempts.filter (fun x => decide (x.EthTxID = row.ID)) = [a]
          ∧ a.State = .inProgress) →
        ∃ m, getInProgressEthTx db A = .error (.new m)) := by
  have hrow2 : db.eth_txes.find?
      (fun r => decide (r.FromAddress = A) && decide (r.State = .inProgress)) = some row := hrow
  constructor
  · intro a ha hst
    unfold getInProgressEthTx
    rw [hrow2]
    simp only [loadEthTxAttempts, scanEthTx, ha, hst, ne_eq, not_true_eq_false, if_false]
  · intro hno
    unfold getInProgressEthTx
    rw [hrow2]
    simp only [loadEthTxAttempts, scanEthTx]
    split
    · rename_i a ha
      by_cases hst : a.State = .inProgress
      · exact absurd ⟨a, ha, hst⟩ hno
      · rw [if_pos hst]
        exact ⟨_, rfl⟩
    · exact ⟨_, rfl⟩

theorem stamps_same {t : Time} {id : Nat} {s s1 : St} (r : Result) (hlog : s1.log = s.log) :
    Stamps t id s (r, s1) :=
  ⟨[], hlog, fun _ h => by cases h⟩

theorem stamps_trans {t : Time} {id : Nat} {s : St} (s1 : St) {r : Result × St}
    (pre : List Event) (hlog : s1.log = pre ++ s.log)
    (hpre : ∀ e ∈ pre, ∀ d, e.stampedAt t id d) (h : Stamps t id s1 r) : Stamps t id s r := by
  obtain ⟨new, hnew, hall⟩ := h
  refine ⟨new ++ pre, by rw [hnew, hlog, List.append_assoc], ?_⟩
  intro e he
  rcases List.mem_append.1 he with he | he
  · exact hall e he
  · exact hpre e he _

theorem stamps_saveFatallyErroredTransaction (w : World) (t : Time) (id : Nat) (etx : EthTx)
    (s : St) :
    Stamps t id s (.ret (saveFatallyErroredTransaction w etx s).1,
      (saveFatallyErroredTransaction w etx s).2) := by
  by_cases h : (saveFatallyErroredTransaction w etx s).1 = none
  · obtain ⟨_, msg, r0, _, _, _, _, hlog⟩ :=
      saveFatallyErroredTransaction_ok (show saveFatallyErroredTransaction w etx s =
        (none, (saveFatallyErroredTransaction w etx s).2) by rw [← h])
    obtain ⟨pre, hpre, hres⟩ := callResume_log w etx msg s
    refine ⟨_ :: pre, by rw [hlog, hpre]; rfl, ?_⟩
    intro e he
    rcases List.mem_cons.1 he with rfl | he
    · trivial
    · obtain ⟨i, m, rfl⟩ := hres e he
      trivial
  · obtain ⟨pre, hlog, hpre⟩ := saveFatallyErroredTransaction_err_log h
    refine ⟨pre, hlog, ?_⟩
    intro e he
    obtain ⟨i, m, rfl⟩ := hpre e he
    trivial

theorem stamps_saveBroadcast (w : World) {t : Time} {etx : EthTx} (a : EthTxAttempt) (s : St)
    (hb : etx.BroadcastAt = some t) (hi : etx.InitialBroadcastAt = some t) :
    Stamps t etx.ID s (saveBroadcast w etx a s) := by
  unfold saveBroadcast
  split
  · exact stamps_same _ rfl
  · rename_i db1 etx2 hsave
    obtain ⟨_, _, _, n, r0, _, _, _, hfind, _, hetx2, hcb⟩ := saveAttempt_ok hsave
    simp only [runCallbacks, Except.ok.injEq] at hcb
    have hid : r0.ID = etx.ID := by simpa using List.find?_some hfind
    refine ⟨[_], rfl, ?_⟩
    intro e he
    rw [List.mem_singleton] at he
    subst he
    refine ⟨rfl, by rw [hetx2]; exact hid, by rw [hetx2]; exact hb, by rw [hetx2]; exact hi,
      ?_, ?_⟩
    · rw [← hcb]
      refine ⟨_, List.mem_map.2 ⟨r0, List.mem_of_find?_eq_some hfind, rfl⟩, ?_⟩
      simp [hid]
    · rw [← hcb]
      intro row hrow hrid
      obtain ⟨r, _, rfl⟩ := List.mem_map.1 hrow
      by_cases hr : r.ID = etx.ID
      · rw [if_pos hr]
        exact ⟨rfl, hb, hi⟩
      · rw [if_neg hr] at hrid
        exact absurd hrid hr

/-- The contract of the recursive call inside the retry functions, for the broadcast times. -/
theorem stamps_replace {t : Time}
    {handle : EthTx → EthTxAttempt → Time → St → Result × St}
    (hh : ∀ etx a s, Stamps t etx.ID s (handle etx a t s))
    (etx : EthTx) (a repl : EthTxAttempt) (s : St) (msg : String) :
    Stamps t etx.ID s
      (match saveReplacementInProgressAttempt s.db a repl with
       | (some e, _, _) => (.ret (some (.wrap e msg)), s)
       | (none, db1, repl1) =>
         handle etx repl1 t (({ s with db := db1 }).record (.replaceAttempt a repl1 db1))) := by
  split
  · exact stamps_same _ rfl
  · rename_i db1 repl1 hsave
    exact stamps_trans _ [_] rfl (fun e he d => by rw [List.mem_singleton.1 he]; trivial)
      (hh etx repl1 _)

theorem stamps_tryAgainWithNewLegacyGas {w : World} {t : Time}
    {handle : EthTx → EthTxAttempt → Time → St → Result × St}
    (hh : ∀ etx a s, Stamps t etx.ID s (handle etx a t s))
    (etx : EthTx) (a : EthTxAttempt) (p : Int) (gl : Nat) (s : St) :
    Stamps t etx.ID s (tryAgainWithNewLegacyGas w handle etx a t p gl s) := by
  unfold tryAgainWithNewLegacyGas
  have hsnd := NewLegacyAttempt_snd w etx p gl s
  cases hn : NewLegacyAttempt w etx p gl s with
  | mk r s1 =>
    rw [hn] at hsnd
    simp only at hsnd
    subst hsnd
    cases r with
    | error e => exact stamps_same _ rfl
    | ok repl =>
      exact stamps_trans s.next [] rfl (fun e he => by cases he)
        (@stamps_replace t handle hh etx a repl s.next "tryAgainWithNewLegacyGas failed")

theorem stamps_tryAgainWithNewDynamicFeeGas {w : World} {t : Time}
    {handle : EthTx → EthTxAttempt → Time → St → Result × St}
    (hh : ∀ etx a s, Stamps t etx.ID s (handle etx a t s))
    (etx : EthTx) (a : EthTxAttempt) (f : DynamicFee) (gl : Nat) (s : St) :
    Stamps t etx.ID s (tryAgainWithNewDynamicFeeGas w handle etx a t f gl s) := by
  unfold tryAgainWithNewDynamicFeeGas
  have hsnd := NewDynamicFeeAttempt_snd w etx f gl s
  cases hn : NewDynamicFeeAttempt w etx f gl s with
  | mk r s1 =>
    rw [hn] at hsnd
    simp only at hsnd
    subst hsnd
    cases r with
    | error e => exact stamps_same _ rfl
    | ok repl =>
      exact stamps_trans s.next [] rfl (fun e he => by cases he)
        (@stamps_replace t handle hh etx a repl s.next "tryAgainWithNewDynamicFeeGas failed")

theorem stamps_tryAgainBumpingGas {w : World} {t : Time}
    {handle : EthTx → EthTxAttempt → Time → St → Result × St}
    (hh : ∀ etx a s, Stamps t etx.ID s (handle etx a t s))
    (etx : EthTx) (a : EthTxAttempt) (s : St) :
    Stamps t etx.ID s (tryAgainBumpingGas w handle etx a t s) := by
  unfold tryAgainBumpingGas
  split
  · unfold tryAgainBumpingLegacyGas
    split
    · exact stamps_same _ rfl
    · split
      · exact stamps_same _ rfl
      · split
        · exact stamps_same _ rfl
        · exact stamps_trans s.next [] rfl (fun e he => by cases he)
            (stamps_tryAgainWithNewLegacyGas hh etx a _ _ s.next)
  · split
    · unfold tryAgainBumpingDynamicFeeGas
      split
      · exact stamps_same _ rfl
      · split
        · exact stamps_same _ rfl
        · exact stamps_same _ rfl
        · exact stamps_trans s.next [] rfl (fun e he => by cases he)
            (stamps_tryAgainWithNewDynamicFeeGas hh etx a _ _ s.next)
    · exact stamps_same _ rfl

theorem stamps_tryAgainWithNewEstimation {w : World} {t : Time}
    {handle : EthTx → EthTxAttempt → Time → St → Result × St}
    (hh : ∀ etx a s, Stamps t etx.ID s (handle etx a t s))
    (etx : EthTx) (a : EthTxAttempt) (s : St) :
    Stamps t etx.ID s (tryAgainWithNewEstimation w handle etx a t s) := by
  unfold tryAgainWithNewEstimation
  split
  · exact stamps_same _ rfl
  · split
    · exact stamps_same _ rfl
    · exact stamps_trans s.next [] rfl (fun e he => by cases he)
        (stamps_tryAgainWithNewLegacyGas hh etx a _ _ s.next)

theorem stamps_handleSendError {w : World} {t : Time}
    {handle : EthTx → EthTxAttempt → Time → St → Result × St}
    (hh : ∀ etx a s, Stamps t etx.ID s (handle etx a t s))
    (etx : EthTx) (a : EthTxAttempt) (e : Option SendError) (s : St) :
    Stamps t etx.ID s (handleSendError w handle etx a t e s) := by
  unfold handleSendError
  split
  · exact stamps_saveFatallyErroredTransaction w t etx.ID _ s
  split
  · exact stamps_saveFatallyErroredTransaction w t etx.ID _ s
  simp only
  generalize (if (SendError.IsNonceTooLowError e || SendError.IsTransactionAlreadyMined e
      || SendError.IsReplacementUnderpriced e) = true then none else e) = e1
  by_cases h1 : SendError.IsTerminallyUnderpriced e1 = true
  · rw [if_pos h1]
    exact stamps_tryAgainBumpingGas hh
      { etx with InitialBroadcastAt := some t, BroadcastAt := some t } a s
  rw [if_neg h1]
  by_cases h2 : (SendError.IsOptimismFeeTooLow e1 || SendError.IsOptimismFeeTooHigh e1) = true
  · rw [if_pos h2]
    split
    · exact stamps_tryAgainWithNewEstimation hh
        { etx with InitialBroadcastAt := some t, BroadcastAt := some t } a s
    · exact stamps_same _ rfl
  rw [if_neg h2]
  generalize (if SendError.IsTemporarilyUnderpriced e1 = true then none else e1) = e2
  by_cases h3 : SendError.IsInsufficientEth e2 = true
  · rw [if_pos h3]
    exact stamps_same _ rfl
  rw [if_neg h3]
  split
  · exact @stamps_saveBroadcast w t
      { etx with InitialBroadcastAt := some t, BroadcastAt := some t } a s rfl rfl
  · exact stamps_same _ rfl

/-- Every broadcast recorded during a call of `handleInProgressEthTx` with reference time `t`
carries `t` in both times. -/
theorem stamps_handleInProgressEthTx (w : World) (t : Time) :
    ∀ fuel etx a s, Stamps t etx.ID s (handleInProgressEthTx w fuel etx a t s)
  | 0 => fun _ _ _ => stamps_same _ rfl
  | fuel + 1 => by
    intro etx a s
    rw [handleInProgressEthTx]
    split
    · exact stamps_same _ rfl
    split
    · exact stamps_same _ rfl
    split
    · exact stamps_same _ rfl
    simp only
    split
    · exact stamps_trans s.next [] rfl (fun e he => by cases he)
        (stamps_saveFatallyErroredTransaction w t etx.ID _ s.next)
    · exact stamps_trans ((s.next.next).record (.submit etx a)) [_] rfl
        (fun e he d => by rw [List.mem_singleton.1 he]; trivial)
        (stamps_handleSendError (stamps_handleInProgressEthTx w t fuel) etx a _ _)

theorem body_throttled {w : World} {fuel : Nat} {A : Address} {s : St}
    (h : w.EvmMaxInFlightTransactions > 0 ∧
      CountUnconfirmedTransactions s.db A w.chainID ≥ w.EvmMaxInFlightTransactions) :
    processUnstartedEthTxsBody w fuel A s = (.continue, s) := by
  unfold processUnstartedEthTxsBody
  simp only
  rw [if_pos h]

theorem body_open {w : World} {fuel : Nat} {A : Address} {s s1 : St} {etx : EthTx}
    {a : EthTxAttempt}
    (h : w.EvmMaxInFlightTransactions = 0 ∨
      CountUnconfirmedTransactions s.db A w.chainID < w.EvmMaxInFlightTransactions)
    (hnext : nextUnstartedTransactionWithNonce w s.db A = .ok (some etx))
    (hnew : newAttempt w etx s = (.ok a, s1)) :
    processUnstartedEthTxsBody w fuel A s = promoteAndHandle w fuel etx a s1 := by
  unfold processUnstartedEthTxsBody
  simp only
  rw [if_neg (by omega), hnext]
  simp only [hnew]

theorem handleInProgressEthTx_log (w : World) (fuel : Nat) (etx : EthTx) (a : EthTxAttempt)
    (t : Time) (s : St) {r : Result} {s3 : St}
    (h : handleInProgressEthTx w fuel etx a t s = (r, s3)) : ∃ new, s3.log = new ++ s.log := by
  obtain ⟨new, hlog, _⟩ := stamps_handleInProgressEthTx w t fuel etx a s
  rw [h] at hlog
  exact ⟨new, hlog⟩

theorem promoteAndHandle_log {w : World} {fuel : Nat} {s1 : St} {etx etx1 : EthTx}
    {a a1 : EthTxAttempt} {db1 : DB}
    (hsave : saveInProgressTransaction s1.db etx a = (none, db1, etx1, a1)) :
    ∃ new, (promoteAndHandle w fuel etx a s1).2.log
      = new ++ .persistInProgress etx1 a1 db1 :: s1.log := by
  unfold promoteAndHandle
  rw [hsave]
  simp only
  split
  · rename_i s3 heq
    exact handleInProgressEthTx_log _ _ _ _ _ _ heq
  · rename_i e s3 heq
    exact handleInProgressEthTx_log _ _ _ _ _ _ heq
  · rename_i s3 heq
    exact handleInProgressEthTx_log _ _ _ _ _ _ heq

/-- A promotion is recorded in the history, whatever the submit path does afterwards. -/
theorem promoteAndHandle_promotes {w : World} {fuel : Nat} {s1 : St} {etx : EthTx}
    {a : EthTxAttempt} {r0 : EthTx}
    (hst : etx.State = .unstarted) (hast : a.State = .inProgress) (hfk : a.EthTxID = etx.ID)
    (hr0 : s1.db.eth_txes.find? (fun r => decide (r.ID = etx.ID)) = some r0) :
    ∃ etx1 a1 d new,
      (promoteAndHandle w fuel etx a s1).2.log = new ++ .persistInProgress etx1 a1 d :: s1.log
      ∧ etx1.ID = etx.ID ∧ etx1.State = .inProgress ∧ etx1.Nonce = etx.Nonce
      ∧ (∃ row ∈ d.eth_txes, row.ID = etx.ID)
      ∧ ∀ row ∈ d.eth_txes, row.ID = etx.ID → row.State = .inProgress := by
  have hid : r0.ID = etx.ID := by simpa using List.find?_some hr0
  have hsave := saveInProgressTransaction_eq hst hast hfk hr0
  obtain ⟨new, hnew⟩ := @promoteAndHandle_log w fuel _ _ _ _ _ _ hsave
  refine ⟨_, _, _, new, hnew, hid, rfl, rfl, ?_, ?_⟩
  · refine ⟨_, List.mem_map.2 ⟨r0, List.mem_of_find?_eq_some hr0, rfl⟩, ?_⟩
    rw [if_pos hid]
    exact hid
  · intro row hrow hrid
    obtain ⟨r, _, rfl⟩ := List.mem_map.1 hrow
    by_cases hr : r.ID = etx.ID
    · rw [if_pos hr]
    · rw [if_neg hr] at hrid
      exact absurd hrid hr

theorem runCallbacks_error_wrap (callbacks : List (DB → Except Err DB)) :
    ∀ (tx : DB) (e : Err), runCallbacks callbacks tx = .error e →
      ∃ e0, e = .wrap e0 "saveUnconfirmed failed" := by
  induction callbacks with
  | nil =>
    intro tx e h
    simp [runCallbacks] at h
  | cons f rest ih =>
    intro tx e h
    rw [runCallbacks] at h
    cases hf : f tx with
    | error e0 =>
      rw [hf] at h
      simp only [Except.error.injEq] at h
      exact ⟨e0, h.symm⟩
    | ok tx1 =>
      rw [hf] at h
      exact ih tx1 e h

/-- Past its guards and with every row in place, `saveAttempt` hands the store after its three
statements to the callbacks, and their outcome decides. -/
theorem saveAttempt_run {db : DB} {etx : EthTx} {attempt : EthTxAttempt} {now : Time}
    {n : Int} {r0 : EthTx} {a0 : EthTxAttempt} {k : KeyState}
    (callbacks : List (DB → Except Err DB))
    (hst : etx.State = .inProgress) (hast : attempt.State = .inProgress)
    (hn : etx.Nonce = some n)
    (hk : k ∈ db.eth_key_states)
    (hkm : nonceRowMatches etx.FromAddress etx.EVMChainID n k = true)
    (hr0 : db.eth_txes.find? (fun r => decide (r.ID = etx.ID)) = some r0)
    (ha0 : db.eth_tx_attempts.find? (fun r => decide (r.ID = attempt.ID)) = some a0) :
    ((saveAttempt db etx attempt .broadcast callbacks now).1,
      (saveAttempt db etx attempt .broadcast callbacks now).2.1) =
      match runCallbacks callbacks (broadcastStore db etx attempt n now) with
      | .error e => (some e, db)
      | .ok d => (none, d) := by
  have hcount : db.eth_key_states.countP (nonceRowMatches etx.FromAddress etx.EVMChainID n) ≠ 0 := by
    rw [Ne, List.countP_eq_zero]
    intro h
    exact h k hk hkm
  have ha1 : List.find? (fun r => decide (r.ID = attempt.ID)) db.eth_tx_attempts = some a0 := ha0
  unfold saveAttempt
  rw [if_neg (by simp [hst]), if_neg (by simp [hast]), if_neg (by simp)]
  simp only [hn, IncrementNextNonce, hcount, if_false]
  rw [updateEthTx_of_find (by exact hr0)]
  simp only [updateEthTxAttemptState, ha1]
  unfold broadcastStore
  cases runCallbacks callbacks _ <;> rfl

/-- A pass of the loop body that is not throttled hands the transaction it looked up, with the
attempt built for it, to the promotion, and the promotion succeeds. -/
theorem body_promotes {w : World} {fuel : Nat} {A : Address} {s s1 : St} {etx : EthTx}
    {a : EthTxAttempt}
    (hopen : w.EvmMaxInFlightTransactions = 0 ∨
      CountUnconfirmedTransactions s.db A w.chainID < w.EvmMaxInFlightTransactions)
    (hnext : nextUnstartedTransactionWithNonce w s.db A = .ok (some etx))
    (hnew : newAttempt w etx s = (.ok a, s1)) :
    ∃ db1 etx1 a1, saveInProgressTransaction s.db etx a = (none, db1, etx1, a1)
      ∧ etx1.ID = etx.ID ∧ etx1.State = .inProgress ∧ etx1.Nonce = etx.Nonce
      ∧ (∀ r ∈ s.db.eth_txes, r.ID ≠ etx.ID → r ∈ db1.eth_txes)
      ∧ db1.eth_key_states = s.db.eth_key_states
      ∧ s1.db = s.db ∧ s1.log = s.log
      ∧ processUnstartedEthTxsBody w fuel A s = promoteAndHandle w fuel etx a s1 := by
  obtain ⟨row, v, hrow, _, hstate, _, _, hetx⟩ := nextUnstartedTransactionWithNonce_some hnext
  obtain ⟨hfk, hast⟩ := newAttempt_ok hnew
  have hframe := newAttempt_frame w etx s
  rw [hnew] at hframe
  obtain ⟨hdb, hlog, _⟩ := hframe
  simp only at hdb hlog
  obtain ⟨r0, hr0⟩ := find_id_of_mem hrow
  have hid : etx.ID = row.ID := by rw [hetx]
  have hst : etx.State = .unstarted := by rw [hetx]; exact hstate
  rw [← hid] at hr0
  have hr0id : r0.ID = etx.ID := by simpa using List.find?_some hr0
  have hsave := saveInProgressTransaction_eq hst hast hfk hr0
  refine ⟨_, _, _, hsave, hr0id, rfl, rfl, ?_, rfl, hdb, hlog, body_open hopen hnext hnew⟩
  intro r hr hne
  refine List.mem_map.2 ⟨r, hr, ?_⟩
  rw [if_neg hne]


/-- Claim C2 (monotone gap-free nonces, P1): for every sender, collaborators (world) and sequence
of worker cycles with any fuel, started with an empty history from a store (with unique
transaction ids) whose counter is `n0` and in which no transaction of the sender holds a nonce,
the transactions moved to unconfirmed carry, in the order of their broadcasts, exactly the nonces
`n0, n0+1, ..., n0+k-1`, where `k` is the number of broadcasts; a transaction broadcast earlier
has a strictly smaller nonce; and the counter stands at `n0+k`. -/
theorem monotone_gap_free_nonces (w : World) (fromAddress : Address) (n0 : Int)
    (fuels : List Nat) (s : St)
    (hids : (s.db.eth_txes.map (fun r => r.ID)).Nodup)
    (hctr : GetNextNonce s.db fromAddress w.chainID = .ok n0)
    (hnone : ∀ r ∈ s.db.eth_txes, r.FromAddress = fromAddress → r.Nonce = none)
    (hlog : s.log = []) :
    broadcastNonces (runCycles w fromAddress fuels s).log
      = nonceRun n0 (broadcastNonces (runCycles w fromAddress fuels s).log).length
    ∧ (broadcastNonces (runCycles w fromAddress fuels s).log).Pairwise
        (fun a b => ∃ n m : Int, a = some n ∧ b = some m ∧ n < m)
    ∧ GetNextNonce (runCycles w fromAddress fuels s).db fromAddress w.chainID
      = .ok (n0 + ((broadcastNonces (runCycles w fromAddress fuels s).log).length : Int)) := by
  have hs : Sequenced fromAddress w.chainID n0 s.db s.log := by
    rw [hlog]
    refine ⟨hids, rfl, by simpa [broadcastNonces] using hctr, ?_, ?_⟩
    · intro k _ _ _
      simp only [broadcastNonces, List.length_nil, Nat.cast_zero, add_zero]
      omega
    · intro r hr hfrom n hn
      rw [hnone r hr hfrom] at hn
      cases hn
  have h := spec_cycles (closed_sequenced w fromAddress n0) fuels s hs
  exact ⟨h.run, by rw [h.run]; exact nonceRun_pairwise _ _, h.counter⟩

/-- Witness for C2: one cycle over two queued transactions broadcasts nonces 7 and 8. -/
theorem monotone_gap_free_nonces_witness :
    (broadcastNonces (runCycles quietWorld 10 [3] (St.init queuedPair)).log
        = nonceRun 7 (broadcastNonces (runCycles quietWorld 10 [3] (St.init queuedPair)).log).length
      ∧ (broadcastNonces (runCycles quietWorld 10 [3] (St.init queuedPair)).log).Pairwise
        (fun a b => ∃ n m : Int, a = some n ∧ b = some m ∧ n < m)
      ∧ GetNextNonce (runCycles quietWorld 10 [3] (St.init queuedPair)).db 10 quietWorld.chainID
        = .ok (7 + ((broadcastNonces
            (runCycles quietWorld 10 [3] (St.init queuedPair)).log).length : Int)))
    ∧ broadcastNonces (runCycles quietWorld 10 [3] (St.init queuedPair)).log = [some 7, some 8] :=
  ⟨monotone_gap_free_nonces quietWorld 10 7 [3] (St.init queuedPair)
    (by decide) (by decide) (by decide) rfl, by decide⟩


/-- Claim C3 (counter and history, amended): from a store that satisfies the ledger invariants
(unique transaction ids, at most one in_progress transaction of the sender, an in_progress
transaction with a nonce holds the value of the counter, the counter is 1 + the largest nonce of
the unconfirmed and confirmed transactions of the address and chain, or `n0` when there is none),
the store left by any sequence of worker cycles, whatever each cycle returned, satisfies them
again: the counter equals 1 + the largest nonce held by an unconfirmed or confirmed transaction
(or `n0`), and an in_progress transaction of the sender holds the counter value itself. -/
theorem counter_equals_broadcast_history (w : World) (fromAddress : Address) (n0 : Int)
    (fuels : List Nat) (s : St) (h : Ledger fromAddress w.chainID n0 s.db) :
    Ledger fromAddress w.chainID n0 (runCycles w fromAddress fuels s).db
    ∧ CounterEqualsHistory [.unconfirmed, .confirmed] n0 (runCycles w fromAddress fuels s).db
        fromAddress w.chainID
    ∧ ∀ r ∈ (runCycles w fromAddress fuels s).db.eth_txes, inProgressOf fromAddress r = true →
        ∀ n, r.Nonce = some n →
          GetNextNonce (runCycles w fromAddress fuels s).db fromAddress w.chainID = .ok n := by
  have h1 := spec_cycles (closed_ledger w fromAddress n0) fuels s h
  exact ⟨h1, h1.history, fun r hr hp n hn => (h1.pending r hr hp n hn).2⟩

/-- Witness for C3: one cycle over `queuedStore` with a remote that reports insufficient funds. -/
theorem counter_equals_broadcast_history_witness :
    CounterEqualsHistory [.unconfirmed, .confirmed] 7
      (runCycles brokeWorld 10 [2] (St.init queuedStore)).db 10 1 :=
  (counter_equals_broadcast_history brokeWorld 10 7 [2] (St.init queuedStore)
    ⟨by decide, by decide,
      fun r hr hp =>
        absurd hp ((by decide : ∀ r ∈ queuedStore.eth_txes, ¬ inProgressOf 10 r = true) r hr),
      by unfold CounterEqualsHistory; decide⟩).2.1

/-- Counterexample for C3 as stated: `queuedStore` (counter 7, one unstarted transaction, no nonce
assigned) is well-formed and satisfies the stated equation; a cycle whose submit is
answered with insufficient funds returns an error and leaves the transaction in_progress with
nonce 7 while the counter is still 7, not 8. -/
theorem counter_lags_in_progress :
    WellFormed 10 queuedStore
    ∧ CounterEqualsHistory [.inProgress, .unconfirmed, .confirmed] 7 queuedStore 10 1
    ∧ (∃ e, (processUnstartedEthTxs brokeWorld 2 10 (St.init queuedStore)).1 = .ret (some e))
    ∧ GetNextNonce (processUnstartedEthTxs brokeWorld 2 10 (St.init queuedStore)).2.db 10 1 = .ok 7
    ∧ assignedNonces [.inProgress, .unconfirmed, .confirmed]
        (processUnstartedEthTxs brokeWorld 2 10 (St.init queuedStore)).2.db 10 1 = [7]
    ∧ ∀ n0, ¬ CounterEqualsHistory [.inProgress, .unconfirmed, .confirmed] n0
        (processUnstartedEthTxs brokeWorld 2 10 (St.init queuedStore)).2.db 10 1 := by
  refine ⟨⟨by decide, ⟨by decide, fun r hr hp =>
      absurd hp ((by decide : ∀ r ∈ queuedStore.eth_txes, ¬ inProgressOf 10 r = true) r hr)⟩,
    by decide⟩, by unfold CounterEqualsHistory; decide, ⟨_, rfl⟩, by decide, by decide, ?_⟩
  intro n0 h
  have h2 : GetNextNonce (processUnstartedEthTxs brokeWorld 2 10 (St.init queuedStore)).2.db 10 1
      = .ok 8 := h
  revert h2
  decide
/-- Claim C4 (single in-progress, P2, amended): from a well-formed store (unique transaction
ids, P2, no attempt on an unstarted transaction of the sender) and an empty history, after any
number of worker cycles with any fuel and any answers of the collaborators, the store is
well-formed again, every store committed on the way (persist in-progress, replace attempt,
persist broadcast, persist fatal) has at most one in_progress transaction of the sender, each
with exactly one attempt, in state in_progress, and in the store committed by a promotion the
promoted transaction is the only in_progress one of the sender, so none was left in_progress
when it was promoted. -/
theorem single_in_progress (w : World) (fromAddress : Address) (fuels : List Nat) (s : St)
    (hwf : WellFormed fromAddress s.db) (hlog : s.log = []) :
    WellFormed fromAddress (runCycles w fromAddress fuels s).db
    ∧ SingleInProgress fromAddress (runCycles w fromAddress fuels s).db
    ∧ ∀ e ∈ (runCycles w fromAddress fuels s).log,
        (∀ d, e.snapshot = some d → SingleInProgress fromAddress d)
        ∧ (∀ etx a d, e = .persistInProgress etx a d →
            ∀ r ∈ d.eth_txes, inProgressOf fromAddress r = true → r.ID = etx.ID) := by
  have h := spec_cycles (closed_single w fromAddress) fuels s
    ⟨hwf, by rw [hlog]; intro e he; cases he⟩
  exact ⟨h.1, h.1.single, h.2⟩

/-- Witness for C4: one cycle over `queuedStore`, which is well-formed. -/
theorem single_in_progress_witness :
    SingleInProgress 10 (runCycles quietWorld 10 [2] (St.init queuedStore)).db :=
  (single_in_progress quietWorld 10 [2] (St.init queuedStore)
    ⟨by decide,
      ⟨by decide, fun r hr hp =>
        absurd hp ((by decide : ∀ r ∈ queuedStore.eth_txes, ¬ inProgressOf 10 r = true) r hr)⟩,
      by decide⟩ rfl).2.1

/-- Counterexample for C4 as stated: `strayStore` has unique ids and satisfies P2 (no transaction
is in_progress), but its unstarted transaction already has an attempt; the promotion inserts a
second one, so the store committed by the promotion, and the store a cycle ends in when the
submit is answered with insufficient funds, hold an in_progress transaction with two attempts
(9 in state broadcast, 10 in state in_progress). -/
theorem stray_attempt_breaks_single_in_progress :
    (strayStore.eth_txes.map (fun r => r.ID)).Nodup
    ∧ SingleInProgress 10 strayStore
    ∧ (runCycles brokeWorld 10 [2] (St.init strayStore)).db.eth_txes.map
        (fun r => (r.ID, r.FromAddress, r.State)) = [(1, 10, .inProgress)]
    ∧ (runCycles brokeWorld 10 [2] (St.init strayStore)).db.eth_tx_attempts.map
        (fun a => (a.ID, a.EthTxID, a.State)) = [(9, 1, .broadcast), (10, 1, .inProgress)]
    ∧ ¬ SingleInProgress 10 (runCycles brokeWorld 10 [2] (St.init strayStore)).db
    ∧ (runCycles brokeWorld 10 [2] (St.init strayStore)).log.map Event.snapshot
        = [none, some (runCycles brokeWorld 10 [2] (St.init strayStore)).db] := by
  have hlen : ∀ d : DB, SingleInProgress 10 d → ∀ r ∈ d.eth_txes, inProgressOf 10 r = true →
      (d.eth_tx_attempts.filter (fun x => decide (x.EthTxID = r.ID))).length = 1 := by
    intro d hs r hr hp
    obtain ⟨a, ha, _⟩ := hs.2 r hr hp
    rw [ha]
    rfl
  refine ⟨by decide, ⟨by decide, fun r hr hp =>
      absurd hp ((by decide : ∀ r ∈ strayStore.eth_txes, ¬ inProgressOf 10 r = true) r hr)⟩,
    by decide, by decide, fun h => absurd (hlen _ h) (by decide), by decide⟩

/-- Claim C5 (broadcast atomicity, amended): for every call of `saveAttempt`,
(1) if it does not return nil the store is the one it was given;
(2) if it returns nil the transaction held a nonce `n`, a counter row of its sender and chain held
`n`, the rows of the transaction and of the attempt were stored, and the store returned is
`broadcastStore` with every callback applied to it in order, each on the store left by the one
before (a left fold over the callbacks);
(3) in `broadcastStore` every counter row of the sender and chain that held `n` holds `n + 1`
(and the time of the update) and the other counter rows are as before, the rows with the id of
the transaction are unconfirmed with the error and the two times of the transaction and the other
transactions are as before, the rows with the id of the attempt are the same attempts in state
broadcast and the other attempts are as before;
(4) past the guards, with the nonce, the counter row and the two rows in place, the callbacks
decide: if all succeed in order the call returns nil with the store they leave, and if one fails
the call returns that error wrapped and the store it was given;
(5) when no counter row of the sender and chain holds the nonce the call fails with the store it
was given;
(6) the call panics on the nil dereference of the nonce, instead of returning, exactly when the
guards pass and the transaction holds no nonce, and by (1) the store is then untouched as well;
so for a transaction that holds a nonce the call returns nil or returns an error. -/
theorem saveAttempt_atomic (db : DB) (etx : EthTx) (attempt : EthTxAttempt)
    (NewAttemptState : EthTxAttemptState) (callbacks : List (DB → Except Err DB)) (now : Time) :
    ((saveAttempt db etx attempt NewAttemptState callbacks now).1 ≠ none →
      (saveAttempt db etx attempt NewAttemptState callbacks now).2.1 = db)
    ∧ ((saveAttempt db etx attempt NewAttemptState callbacks now).1 = none →
      ∃ n : Int,
        etx.Nonce = some n
        ∧ (∃ k ∈ db.eth_key_states,
            k.Address = etx.FromAddress ∧ k.EVMChainID = etx.EVMChainID ∧ k.NextNonce = n)
        ∧ (∃ r ∈ db.eth_txes, r.ID = etx.ID)
        ∧ (∃ a ∈ db.eth_tx_attempts, a.ID = attempt.ID)
        ∧ callbacks.foldlM (fun d f => f d) (broadcastStore db etx attempt n now)
            = .ok (saveAttempt db etx attempt NewAttemptState callbacks now).2.1)
    ∧ (∀ n : Int,
        List.Forall₂ (fun old new =>
            if old.Address = etx.FromAddress ∧ old.EVMChainID = etx.EVMChainID ∧ old.NextNonce = n
            then new = { old with NextNonce := n + 1, UpdatedAt := now }
            else new = old) db.eth_key_states (broadcastStore db etx attempt n now).eth_key_states
        ∧ List.Forall₂ (fun old new =>
            if old.ID = etx.ID
            then new = { old with
                         State := .unconfirmed, Error := etx.Error,
                         BroadcastAt := etx.BroadcastAt,
                         InitialBroadcastAt := etx.InitialBroadcastAt }
            else new = old) db.eth_txes (broadcastStore db etx attempt n now).eth_txes
        ∧ List.Forall₂ (fun old new =>
            if old.ID = attempt.ID then new = { old with State := .broadcast } else new = old)
            db.eth_tx_attempts (broadcastStore db etx attempt n now).eth_tx_attempts)
    ∧ (∀ n : Int, etx.State = .inProgress → attempt.State = .inProgress →
        NewAttemptState = .broadcast → etx.Nonce = some n →
        (∃ k ∈ db.eth_key_states,
            k.Address = etx.FromAddress ∧ k.EVMChainID = etx.EVMChainID ∧ k.NextNonce = n) →
        (∃ r ∈ db.eth_txes, r.ID = etx.ID) → (∃ a ∈ db.eth_tx_attempts, a.ID = attempt.ID) →
        (∀ d, callbacks.foldlM (fun d f => f d) (broadcastStore db etx attempt n now) = .ok d →
          (saveAttempt db etx attempt NewAttemptState callbacks now).1 = none
          ∧ (saveAttempt db etx attempt NewAttemptState callbacks now).2.1 = d)
        ∧ (∀ e, callbacks.foldlM (fun d f => f d) (broadcastStore db etx attempt n now)
              = .error e →
          (saveAttempt db etx attempt NewAttemptState callbacks now).1
            = some (.wrap e "saveUnconfirmed failed")
          ∧ (saveAttempt db etx attempt NewAttemptState callbacks now).2.1 = db))
    ∧ (∀ n : Int, etx.Nonce = some n →
        (∀ k ∈ db.eth_key_states,
          ¬ (k.Address = etx.FromAddress ∧ k.EVMChainID = etx.EVMChainID ∧ k.NextNonce = n)) →
        (saveAttempt db etx attempt NewAttemptState callbacks now).1 ≠ none
        ∧ (saveAttempt db etx attempt NewAttemptState callbacks now).2.1 = db)
    ∧ ((∃ m, (saveAttempt db etx attempt NewAttemptState callbacks now).1 = some (.panic m)) ↔
        etx.State = .inProgress ∧ attempt.State = .inProgress ∧ NewAttemptState = .broadcast
          ∧ etx.Nonce = none) := by
  have hfold : ∀ (cbs : List (DB → Except Err DB)) (tx : DB),
      (∀ result, runCallbacks cbs tx = .ok result ↔
        cbs.foldlM (fun d f => f d) tx = .ok result)
      ∧ (∀ e, cbs.foldlM (fun d f => f d) tx = .error e ↔
        runCallbacks cbs tx = .error (.wrap e "saveUnconfirmed failed")) := by
    intro cbs
    induction cbs with
    | nil =>
      intro tx
      simp [runCallbacks, pure, Except.pure]
    | cons f rest ih =>
      intro tx
      rw [runCallbacks, List.foldlM_cons]
      cases hf : f tx with
      | error e0 => simp [bind, Except.bind]
      | ok tx1 =>
        simp only [bind, Except.bind]
        exact ih tx1
  have hok : (saveAttempt db etx attempt NewAttemptState callbacks now).1 = none →
      etx.State = .inProgress ∧ attempt.State = .inProgress ∧ NewAttemptState = .broadcast ∧
      ∃ (n : Int) (r0 : EthTx) (a0 : EthTxAttempt),
        etx.Nonce = some n
        ∧ (∃ k ∈ db.eth_key_states, nonceRowMatches etx.FromAddress etx.EVMChainID n k = true)
        ∧ db.eth_txes.find? (fun r => decide (r.ID = etx.ID)) = some r0
        ∧ db.eth_tx_attempts.find? (fun r => decide (r.ID = attempt.ID)) = some a0
        ∧ runCallbacks callbacks (broadcastStore db etx attempt n now)
            = .ok (saveAttempt db etx attempt NewAttemptState callbacks now).2.1 := by
    intro h
    obtain ⟨h1, h2, h3, n, r0, a0, hn, hk, hr0, ha0, _, hcb⟩ :=
      saveAttempt_ok (show saveAttempt db etx attempt NewAttemptState callbacks now =
        (none, (saveAttempt db etx attempt NewAttemptState callbacks now).2.1,
          (saveAttempt db etx attempt NewAttemptState callbacks now).2.2) by rw [← h])
    exact ⟨h1, h2, h3, n, r0, a0, hn, hk, hr0, ha0, hcb⟩
  refine ⟨saveAttempt_err, ?_, ?_, ?_, ?_, ?_⟩
  · intro h
    obtain ⟨_, _, _, n, r0, a0, hn, ⟨k, hk, hkm⟩, hr0, ha0, hcb⟩ := hok h
    exact ⟨n, hn, ⟨k, hk, (nonceRowMatches_iff _ _ _ _).1 hkm⟩,
      ⟨r0, List.mem_of_find?_eq_some hr0, by simpa using List.find?_some hr0⟩,
      ⟨a0, List.mem_of_find?_eq_some ha0, by simpa using List.find?_some ha0⟩,
      ((hfold _ _).1 _).1 hcb⟩
  · intro n
    refine ⟨?_, ?_, ?_⟩
    · apply forall₂_map_self
      intro k
      by_cases hm : nonceRowMatches etx.FromAddress etx.EVMChainID n k = true
      · have hm2 := (nonceRowMatches_iff _ _ _ _).1 hm
        simp [hm, hm2]
      · have hm2 := mt (nonceRowMatches_iff _ _ _ _).2 hm
        simp [hm, hm2]
    · apply forall₂_map_self
      intro r
      by_cases hr : r.ID = etx.ID <;> simp [hr]
    · apply forall₂_map_self
      intro a
      by_cases ha : a.ID = attempt.ID <;> simp [ha]
  · intro n hst hast hnew hn ⟨k, hk, hkm⟩ ⟨r, hr, hrid⟩ ⟨a, ha, haid⟩
    subst hnew
    obtain ⟨r0, hr0⟩ := find_id_of_mem hr
    rw [hrid] at hr0
    obtain ⟨a0, ha0⟩ := find_attempt_id_of_mem ha
    rw [haid] at ha0
    have hrun := @saveAttempt_run db etx attempt now n r0 a0 k callbacks hst hast hn hk
      ((nonceRowMatches_iff _ _ _ _).2 hkm) hr0 ha0
    constructor
    · intro d hd
      rw [((hfold _ _).1 _).2 hd] at hrun
      simp only [Prod.mk.injEq] at hrun
      exact hrun
    · intro e he
      rw [((hfold _ _).2 _).1 he] at hrun
      simp only [Prod.mk.injEq] at hrun
      exact hrun
  · intro n hn hno
    have hne : (saveAttempt db etx attempt NewAttemptState callbacks now).1 ≠ none := by
      intro h
      obtain ⟨_, _, _, m, _, _, hm, ⟨k, hk, hkm⟩, _⟩ := hok h
      rw [hn] at hm
      injection hm with hm
      subst hm
      exact hno k hk ((nonceRowMatches_iff _ _ _ _).1 hkm)
    exact ⟨hne, saveAttempt_err hne⟩
  · constructor
    · rintro ⟨m, hm⟩
      revert hm
      unfold saveAttempt
      split
      · simp
      rename_i h1
      split
      · simp
      rename_i h2
      split
      · simp
      rename_i h3
      simp only
      split
      · rename_i hnone
        intro _
        exact ⟨not_not.1 h1, not_not.1 h2, not_not.1 h3, hnone⟩
      split
      · simp
      split
      · simp
      split
      · simp
      split
      · rename_i e hcb
        obtain ⟨e0, rfl⟩ := runCallbacks_error_wrap _ _ _ hcb
        simp
      · simp
    · rintro ⟨h1, h2, h3, h4⟩
      refine ⟨"nil pointer dereference", ?_⟩
      unfold saveAttempt
      rw [if_neg (by simp [h1]), if_neg (by simp [h2]), if_neg (by simp [h3])]
      simp only [h4]

/-- Witness for C5: on `pendingStore` with a callback that leaves a mark followed by one that
fails, the call returns the wrapped error of the failing callback and the store it was given;
with the marking callback alone it returns nil and the store is the broadcast store with the
mark. -/
theorem saveAttempt_atomic_witness :
    ((saveAttempt pendingStore pendingTx pendingAttempt .broadcast
          [markCallback, failingCallback] 50).1
        = some (.wrap (.new "finaliser failed") "saveUnconfirmed failed")
      ∧ (saveAttempt pendingStore pendingTx pendingAttempt .broadcast
          [markCallback, failingCallback] 50).2.1 = pendingStore)
    ∧ ((saveAttempt pendingStore pendingTx pendingAttempt .broadcast [markCallback] 50).1 = none
      ∧ (saveAttempt pendingStore pendingTx pendingAttempt .broadcast [markCallback] 50).2.1
        = { eth_txes := [{ pendingTx with State := .unconfirmed, Subject := some 77 }],
            eth_tx_attempts := [{ pendingAttempt with State := .broadcast }],
            eth_key_states := [{ keyRow with NextNonce := 8, UpdatedAt := 50 }] })
    ∧ (saveAttempt pendingStore pendingTx pendingAttempt .broadcast
          [failingCallback, markCallback] 50).2.1 = pendingStore
    ∧ (saveAttempt pendingStore pendingTx pendingAttempt .broadcast
          [failingCallback, markCallback] 50).1 ≠ none :=
  ⟨((saveAttempt_atomic pendingStore pendingTx pendingAttempt .broadcast
        [markCallback, failingCallback] 50).2.2.2.1 7 rfl rfl rfl rfl
        ⟨keyRow, by decide, by decide⟩ ⟨pendingTx, by decide, rfl⟩
        ⟨pendingAttempt, by decide, rfl⟩).2 (.new "finaliser failed") rfl,
    ((saveAttempt_atomic pendingStore pendingTx pendingAttempt .broadcast
        [markCallback] 50).2.2.2.1 7 rfl rfl rfl rfl
        ⟨keyRow, by decide, by decide⟩ ⟨pendingTx, by decide, rfl⟩
        ⟨pendingAttempt, by decide, rfl⟩).1 _ rfl,
    by decide, by decide⟩

/-- Counterexample for C5 as stated: a call of `saveAttempt` for an in_progress transaction that
holds no nonce, with an in_progress attempt and the new state broadcast, neither returns nil nor
returns an error: it panics on the nil dereference of the nonce (the store is untouched). -/
theorem saveAttempt_nil_nonce_panics :
    ({ pendingTx with Nonce := none } : EthTx).State = .inProgress
    ∧ pendingAttempt.State = .inProgress
    ∧ (saveAttempt pendingStore { pendingTx with Nonce := none } pendingAttempt .broadcast [] 50).1
        = some (.panic "nil pointer dereference")
    ∧ (saveAttempt pendingStore { pendingTx with Nonce := none } pendingAttempt .broadcast [] 50).2.1
        = pendingStore := by
  decide


/-- Claim C6 (nonce compare-and-swap): `IncrementNextNonce` returns nil exactly when a counter
row of the address and chain holds the expected value `e`; then the transactions and attempts are
untouched, every such row holds `e + 1` and every other counter row is as before; when no row
matches it returns an error and the store is as before. -/
theorem IncrementNextNonce_compare_and_swap (db : DB) (address : Address) (chainID : ChainID)
    (e : Int) (now : Time) :
    ((IncrementNextNonce db address chainID e now).1 = none ↔
        ∃ k ∈ db.eth_key_states, k.Address = address ∧ k.EVMChainID = chainID ∧ k.NextNonce = e)
    ∧ ((IncrementNextNonce db address chainID e now).1 = none →
        (IncrementNextNonce db address chainID e now).2.eth_txes = db.eth_txes
        ∧ (IncrementNextNonce db address chainID e now).2.eth_tx_attempts = db.eth_tx_attempts
        ∧ List.Forall₂ (fun old new =>
            if old.Address = address ∧ old.EVMChainID = chainID ∧ old.NextNonce = e
            then new.Address = address ∧ new.EVMChainID = chainID ∧ new.NextNonce = e + 1
            else new = old)
          db.eth_key_states (IncrementNextNonce db address chainID e now).2.eth_key_states)
    ∧ ((¬ ∃ k ∈ db.eth_key_states, k.Address = address ∧ k.EVMChainID = chainID ∧ k.NextNonce = e) →
        (∃ msg, (IncrementNextNonce db address chainID e now).1 = some (.new msg))
        ∧ (IncrementNextNonce db address chainID e now).2 = db) := by
  have hcount : db.eth_key_states.countP (nonceRowMatches address chainID e) = 0 ↔
      ¬ ∃ k ∈ db.eth_key_states, k.Address = address ∧ k.EVMChainID = chainID ∧ k.NextNonce = e := by
    rw [List.countP_eq_zero]
    constructor
    · rintro h ⟨k, hk, hm⟩
      exact h k hk ((nonceRowMatches_iff _ _ _ _).2 hm)
    · intro h k hk hm
      exact h ⟨k, hk, (nonceRowMatches_iff _ _ _ _).1 hm⟩
  refine ⟨?_, ?_, ?_⟩
  · by_cases h : db.eth_key_states.countP (nonceRowMatches address chainID e) = 0
    · have := hcount.1 h
      simp [IncrementNextNonce, h, this]
    · have := not_not.1 (mt hcount.2 h)
      simp [IncrementNextNonce, h, this]
  · intro _
    rw [IncrementNextNonce_snd]
    refine ⟨rfl, rfl, ?_⟩
    apply forall₂_map_self
    intro k
    by_cases hm : nonceRowMatches address chainID e k = true
    · have hm2 := (nonceRowMatches_iff _ _ _ _).1 hm
      simp [hm, hm2]
    · have hm2 := mt (nonceRowMatches_iff _ _ _ _).2 hm
      simp [hm, hm2]
  · intro h
    have h0 := hcount.2 h
    have hall : ∀ k ∈ db.eth_key_states, nonceRowMatches address chainID e k = false := by
      intro k hk
      have := (List.countP_eq_zero.1 h0) k hk
      simpa using this
    refine ⟨?_, ?_⟩
    · simp only [IncrementNextNonce, h0, if_true]
      exact ⟨_, rfl⟩
    · rw [IncrementNextNonce_snd, map_keep_of_no_match _ _ _ hall]

/-- Witness for C6: expected value 7 against a counter of 7 succeeds, expected value 8 leaves the
store as it was. -/
theorem IncrementNextNonce_compare_and_swap_witness :
    (IncrementNextNonce pendingStore 10 1 7 50).1 = none
    ∧ (IncrementNextNonce pendingStore 10 1 8 50).2 = pendingStore :=
  ⟨(IncrementNextNonce_compare_and_swap pendingStore 10 1 7 50).1.2
      ⟨keyRow, by decide, by decide⟩,
    ((IncrementNextNonce_compare_and_swap pendingStore 10 1 8 50).2.2 (by decide)).2⟩

/-- Claim C7 (fatal cleanliness): when `saveFatallyErroredTransaction` returns nil the transaction
was in_progress, its row is stored, every row with its id is fatal_error with nonce, broadcast_at
and initial_broadcast_at null and error non-null, no attempt of the transaction is left, and the
counter rows are as before; with the error unset it fails and leaves the whole state as it was;
whenever it fails the store is as before; it creates no fatal_error row with a null error; and it
does return nil for an in_progress transaction with an error whose row is stored when the resume
callback does not fail. -/
theorem saveFatallyErroredTransaction_clean (w : World) (etx : EthTx) (s : St) :
    ((saveFatallyErroredTransaction w etx s).1 = none →
      etx.State = .inProgress
      ∧ (∃ row ∈ (saveFatallyErroredTransaction w etx s).2.db.eth_txes, row.ID = etx.ID)
      ∧ (∀ row ∈ (saveFatallyErroredTransaction w etx s).2.db.eth_txes, row.ID = etx.ID →
          row.State = .fatalError ∧ row.Nonce = none ∧ row.BroadcastAt = none
          ∧ row.InitialBroadcastAt = none ∧ row.Error ≠ none)
      ∧ (∀ a ∈ (saveFatallyErroredTransaction w etx s).2.db.eth_tx_attempts, a.EthTxID ≠ etx.ID)
      ∧ (saveFatallyErroredTransaction w etx s).2.db.eth_key_states = s.db.eth_key_states)
    ∧ (etx.Error = none →
        (saveFatallyErroredTransaction w etx s).1 ≠ none
        ∧ (saveFatallyErroredTransaction w etx s).2 = s)
    ∧ ((saveFatallyErroredTransaction w etx s).1 ≠ none →
        (saveFatallyErroredTransaction w etx s).2.db = s.db)
    ∧ (∀ row ∈ (saveFatallyErroredTransaction w etx s).2.db.eth_txes,
        row.State = .fatalError → row.Error = none → row ∈ s.db.eth_txes)
    ∧ (etx.State = .inProgress → (∃ r ∈ s.db.eth_txes, r.ID = etx.ID) →
        (∀ msg m, (callResume w etx msg s).1 ≠ some (.failed m)) → etx.Error ≠ none →
        (saveFatallyErroredTransaction w etx s).1 = none) := by
  refine ⟨?_, ?_, saveFatallyErroredTransaction_err, ?_, ?_⟩
  · intro h
    obtain ⟨hst, msg, r0, hmsg, hr0, _, hdb, _⟩ :=
      saveFatallyErroredTransaction_ok (show saveFatallyErroredTransaction w etx s =
        (none, (saveFatallyErroredTransaction w etx s).2) by rw [← h])
    have hid : r0.ID = etx.ID := by simpa using List.find?_some hr0
    refine ⟨hst, ?_, ?_, ?_, ?_⟩
    · rw [hdb]
      refine ⟨_, List.mem_map.2 ⟨r0, List.mem_of_find?_eq_some hr0, rfl⟩, ?_⟩
      simp [hid]
    · rw [hdb]
      intro row hrow hrid
      obtain ⟨r, _, rfl⟩ := List.mem_map.1 hrow
      by_cases hr : r.ID = etx.ID
      · simp [hr]
      · simp only [hr, if_false] at hrid
    · rw [hdb]
      intro a ha
      simpa using (List.mem_filter.1 ha).2
    · rw [hdb]
  · intro h
    unfold saveFatallyErroredTransaction
    split <;> simp [h]
  · intro row hrow hst herr
    by_cases h : (saveFatallyErroredTransaction w etx s).1 = none
    · obtain ⟨_, msg, r0, hmsg, hr0, _, hdb, _⟩ :=
        saveFatallyErroredTransaction_ok (show saveFatallyErroredTransaction w etx s =
          (none, (saveFatallyErroredTransaction w etx s).2) by rw [← h])
      rw [hdb] at hrow
      obtain ⟨r, hr, rfl⟩ := List.mem_map.1 hrow
      by_cases hrid : r.ID = etx.ID
      · simp [hrid] at herr
      · simpa [hrid] using hr
    · rw [saveFatallyErroredTransaction_err h] at hrow
      exact hrow
  · intro hst ⟨r, hr, hrid⟩ hres herr
    obtain ⟨msg, hmsg⟩ := Option.ne_none_iff_exists'.1 herr
    obtain ⟨r0, hr0⟩ := find_id_of_mem hr
    rw [hrid] at hr0
    exact saveFatallyErroredTransaction_eq hst hmsg hr0 (hres msg)

/-- Witness for C7: the in_progress transaction of `pendingStore` is saved as fatal and its attempt
is gone. -/
theorem saveFatallyErroredTransaction_clean_witness :
    ∀ a ∈ (saveFatallyErroredTransaction quietWorld { pendingTx with Error := some "boom" }
        (St.init pendingStore)).2.db.eth_tx_attempts, a.EthTxID ≠ 1 :=
  ((saveFatallyErroredTransaction_clean quietWorld { pendingTx with Error := some "boom" }
      (St.init pendingStore)).1 (by decide)).2.2.2.1
/-- Claim C8 (insufficient funds): (1) when the check lets the attempt through and the remote
node answers insufficient funds (and nothing that is tested earlier), `handleInProgressEthTx`
returns that very error, the store is unchanged and the only thing recorded is the submission;
(2) a cycle of `processUnstartedEthTxs` that finds this transaction in_progress leaves the store
unchanged, records nothing but the submission (so promotes nothing), and returns the wrapped
error, or nil when the context is done by then; (3) in the loop, a pass that is not throttled promotes the
transaction it looked up, and when the check lets its attempt through and the remote node answers
insufficient funds to its submit, the loop returns the wrapped error at that pass, however many
passes it had left: the store is the one committed by that one promotion (the other transactions
and the counter rows are as before the pass) and the history gains that promotion and its
submission only; (4) so a cycle that starts with no transaction in_progress returns the error
after promoting one transaction and no other. -/
theorem insufficient_funds_leaves_store (w : World) :
    (∀ (fuel : Nat) (etx : EthTx) (attempt : EthTxAttempt) (t : Time) (s : St) (e : SendError),
      etx.State = .inProgress → w.GetChecker etx = none → w.BuildChecker etx = none →
      checkPasses (w.Check s.tick etx attempt) = true →
      w.sendTransaction (s.tick + 1) attempt etx = some e →
      classifiedInsufficientFunds e = true →
        (handleInProgressEthTx w (fuel + 1) etx attempt t s).1 = .ret (some (.send (some e)))
        ∧ (handleInProgressEthTx w (fuel + 1) etx attempt t s).2.db = s.db
        ∧ (handleInProgressEthTx w (fuel + 1) etx attempt t s).2.log
            = .submit etx attempt :: s.log)
    ∧ (∀ (fuel : Nat) (fromAddress : Address) (s : St) (etx : EthTx) (attempt : EthTxAttempt)
        (e : SendError),
      getInProgressEthTx s.db fromAddress = .ok (some etx) →
      etx.EthTxAttempts = [attempt] →
      ctxErr w s = false →
      w.GetChecker etx = none → w.BuildChecker etx = none →
      checkPasses (w.Check (s.tick + 1) etx attempt) = true →
      w.sendTransaction (s.tick + 2) attempt etx = some e →
      classifiedInsufficientFunds e = true →
        (processUnstartedEthTxs w (fuel + 1) fromAddress s).2.db = s.db
        ∧ (processUnstartedEthTxs w (fuel + 1) fromAddress s).2.log
            = .submit etx attempt :: s.log
        ∧ (processUnstartedEthTxs w (fuel + 1) fromAddress s).1 =
            if ctxErr w { s with tick := s.tick + 3 } then .ret none
            else .ret (some (.wrap (.wrap (.send (some e)) "handleAnyInProgressEthTx failed")
              "processUnstartedEthTxs failed")))
    ∧ (∀ (fuel passes : Nat) (fromAddress : Address) (s s1 : St) (etx : EthTx)
        (attempt : EthTxAttempt),
      (w.EvmMaxInFlightTransactions = 0 ∨
        CountUnconfirmedTransactions s.db fromAddress w.chainID
          < w.EvmMaxInFlightTransactions) →
      nextUnstartedTransactionWithNonce w s.db fromAddress = .ok (some etx) →
      newAttempt w etx s = (.ok attempt, s1) →
      ∃ db1 etx1 a1, saveInProgressTransaction s.db etx attempt = (none, db1, etx1, a1)
        ∧ etx1.ID = etx.ID ∧ etx1.State = .inProgress ∧ etx1.Nonce = etx.Nonce
        ∧ (∀ r ∈ s.db.eth_txes, r.ID ≠ etx.ID → r ∈ db1.eth_txes)
        ∧ db1.eth_key_states = s.db.eth_key_states
        ∧ ∀ e : SendError, w.GetChecker etx1 = none → w.BuildChecker etx1 = none →
            checkPasses (w.Check (s1.tick + 1) etx1 a1) = true →
            w.sendTransaction (s1.tick + 2) a1 etx1 = some e →
            classifiedInsufficientFunds e = true →
            processUnstartedEthTxsLoop w (fuel + 1) fromAddress (passes + 1) s
              = (.ret (some (.wrap (.send (some e)) "processUnstartedEthTxs failed")),
                  { db := db1, tick := s1.tick + 3,
                    log := .submit etx1 a1 :: .persistInProgress etx1 a1 db1 :: s.log }))
    ∧ (∀ (fuel : Nat) (fromAddress : Address) (s s1 : St) (etx : EthTx)
        (attempt : EthTxAttempt),
      getInProgressEthTx s.db fromAddress = .ok none →
      ctxErr w s.next = false →
      (w.EvmMaxInFlightTransactions = 0 ∨
        CountUnconfirmedTransactions s.db fromAddress w.chainID
          < w.EvmMaxInFlightTransactions) →
      nextUnstartedTransactionWithNonce w s.db fromAddress = .ok (some etx) →
      newAttempt w etx s.next.next = (.ok attempt, s1) →
      ∃ db1 etx1 a1, saveInProgressTransaction s.db etx attempt = (none, db1, etx1, a1)
        ∧ etx1.ID = etx.ID ∧ etx1.State = .inProgress ∧ etx1.Nonce = etx.Nonce
        ∧ (∀ r ∈ s.db.eth_txes, r.ID ≠ etx.ID → r ∈ db1.eth_txes)
        ∧ db1.eth_key_states = s.db.eth_key_states
        ∧ ∀ e : SendError, w.GetChecker etx1 = none → w.BuildChecker etx1 = none →
            checkPasses (w.Check (s1.tick + 1) etx1 a1) = true →
            w.sendTransaction (s1.tick + 2) a1 etx1 = some e →
            classifiedInsufficientFunds e = true →
            processUnstartedEthTxs w (fuel + 1) fromAddress s
              = (.ret (some (.wrap (.send (some e)) "processUnstartedEthTxs failed")),
                  { db := db1, tick := s1.tick + 3,
                    log := .submit etx1 a1 :: .persistInProgress etx1 a1 db1 :: s.log })) := by
  have hpa : ∀ (fuel : Nat) (s1 : St) (etx etx1 : EthTx) (a a1 : EthTxAttempt) (db1 : DB)
      (e : SendError), saveInProgressTransaction s1.db etx a = (none, db1, etx1, a1) →
      etx1.State = .inProgress → w.GetChecker etx1 = none → w.BuildChecker etx1 = none →
      checkPasses (w.Check (s1.tick + 1) etx1 a1) = true →
      w.sendTransaction (s1.tick + 2) a1 etx1 = some e →
      classifiedInsufficientFunds e = true →
      promoteAndHandle w (fuel + 1) etx a s1
        = (.done (.ret (some (.wrap (.send (some e)) "processUnstartedEthTxs failed"))),
            { db := db1, tick := s1.tick + 3,
              log := .submit etx1 a1 :: .persistInProgress etx1 a1 db1 :: s1.log }) := by
    intro fuel s1 etx etx1 a a1 db1 e hsave hst hgc hbc hchk hsend he
    unfold promoteAndHandle
    rw [hsave]
    simp only
    have hchk2 : checkPasses (w.Check
        ((({ s1 with db := db1 } : St).record (.persistInProgress etx1 a1 db1)).next).tick
        etx1 a1) = true := hchk
    rw [handleInProgressEthTx_send hst hgc hbc hchk2]
    have hsend2 : w.sendTransaction
        (((({ s1 with db := db1 } : St).record (.persistInProgress etx1 a1 db1)).next).tick + 1)
        a1 etx1 = some e := hsend
    rw [hsend2, handleSendError_insufficient he]
    rfl
  refine ⟨?_, ?_, ?_, ?_⟩
  · intro fuel etx attempt t s e hst hgc hbc hchk hsend he
    rw [handleInProgressEthTx_send hst hgc hbc hchk, hsend, handleSendError_insufficient he]
    exact ⟨rfl, rfl, rfl⟩
  · intro fuel A s etx attempt e hget hatt hctx hgc hbc hchk hsend he
    obtain ⟨row, a, hrow, hetx, _, _⟩ := getInProgressEthTx_some hget
    have hst : etx.State = .inProgress := by
      have := List.find?_some hrow
      simp only [Bool.and_eq_true, decide_eq_true_eq] at this
      rw [hetx]; exact this.2
    have hh : handleInProgressEthTx w (fuel + 1) etx attempt etx.CreatedAt s.next =
        (.ret (some (.send (some e))), ((s.next.next).next).record (.submit etx attempt)) := by
      rw [handleInProgressEthTx_send hst hgc hbc hchk]
      have : w.sendTransaction (s.next.tick + 1) attempt etx = some e := hsend
      rw [this, handleSendError_insufficient he]
    have hany : handleAnyInProgressEthTx w (fuel + 1) A s =
        (.ret (some (.wrap (.send (some e)) "handleAnyInProgressEthTx failed")),
          ((s.next.next).next).record (.submit etx attempt)) := by
      unfold handleAnyInProgressEthTx
      simp only [hctx, hget, hatt, hh]
      rfl
    unfold processUnstartedEthTxs
    rw [hany]
    simp only
    have hc : ctxErr w (((s.next.next).next).record (.submit etx attempt))
        = ctxErr w { s with tick := s.tick + 3 } := rfl
    rw [hc]
    split <;> exact ⟨rfl, rfl, rfl⟩
  · intro fuel passes A s s1 etx attempt hopen hnext hnew
    obtain ⟨db1, etx1, a1, hsave, h1, h2, h3, h4, h5, hdb, hlog, hbody⟩ :=
      @body_promotes w (fuel + 1) A s s1 etx attempt hopen hnext hnew
    refine ⟨db1, etx1, a1, hsave, h1, h2, h3, h4, h5, ?_⟩
    intro e hgc hbc hchk hsend he
    rw [processUnstartedEthTxsLoop, hbody,
      hpa fuel s1 etx etx1 attempt a1 db1 e (by rw [hdb]; exact hsave) h2 hgc hbc hchk hsend he,
      hlog]
  · intro fuel A s s1 etx attempt hget hctx hopen hnext hnew
    obtain ⟨db1, etx1, a1, hsave, h1, h2, h3, h4, h5, hdb, hlog, hbody⟩ :=
      @body_promotes w (fuel + 1) A s.next.next s1 etx attempt hopen hnext hnew
    refine ⟨db1, etx1, a1, hsave, h1, h2, h3, h4, h5, ?_⟩
    intro e hgc hbc hchk hsend he
    have hany : handleAnyInProgressEthTx w (fuel + 1) A s = (.ret none, s.next) := by
      unfold handleAnyInProgressEthTx
      simp only [hget]
      split <;> rfl
    unfold processUnstartedEthTxs
    rw [hany]
    simp only [hctx]
    rw [processUnstartedEthTxsLoop, hbody,
      hpa fuel s1 etx etx1 attempt a1 db1 e (by rw [hdb]; exact hsave) h2 hgc hbc hchk hsend he,
      hlog]
    rfl

/-- Witness for C8: one cycle over `pendingStore` against a remote node that answers insufficient
funds; and one cycle over `queuedPair` against the same node: the first queued transaction is
promoted with nonce 7, the cycle returns the error, the second is still unstarted and the counter
is still 7, also when the loop had passes left. -/
theorem insufficient_funds_leaves_store_witness :
    ((processUnstartedEthTxs brokeWorld 1 10 (St.init pendingStore)).2.db = pendingStore
      ∧ (processUnstartedEthTxs brokeWorld 1 10 (St.init pendingStore)).1 =
          .ret (some (.wrap (.wrap (.send (some { plainSendError with insufficientEth := true }))
            "handleAnyInProgressEthTx failed") "processUnstartedEthTxs failed")))
    ∧ ((processUnstartedEthTxs brokeWorld 1 10 (St.init queuedPair)).1 =
          .ret (some (.wrap (.send (some { plainSendError with insufficientEth := true }))
            "processUnstartedEthTxs failed"))
      ∧ (processUnstartedEthTxs brokeWorld 1 10 (St.init queuedPair)).2.db.eth_txes.map
          (fun r => (r.ID, r.State, r.Nonce))
          = [(1, .inProgress, some 7), (2, .unstarted, none)]
      ∧ (processUnstartedEthTxs brokeWorld 1 10 (St.init queuedPair)).2.db.eth_key_states
          = [keyRow])
    ∧ ((processUnstartedEthTxs brokeWorld 3 10 (St.init queuedPair)).1 =
          .ret (some (.wrap (.send (some { plainSendError with insufficientEth := true }))
            "processUnstartedEthTxs failed"))
      ∧ (processUnstartedEthTxs brokeWorld 3 10 (St.init queuedPair)).2.db.eth_txes.map
          (fun r => (r.ID, r.State, r.Nonce))
          = [(1, .inProgress, some 7), (2, .unstarted, none)]) :=
  ⟨match (insufficient_funds_leaves_store brokeWorld).2.1 0 10 (St.init pendingStore)
      { pendingTx with EthTxAttempts := [pendingAttempt] } pendingAttempt
      { plainSendError with insufficientEth := true } rfl rfl rfl rfl rfl rfl rfl rfl with
    | ⟨h1, _, h3⟩ => ⟨h1, h3⟩,
   match (insufficient_funds_leaves_store brokeWorld).2.2.2 0 10 (St.init queuedPair)
      ((newAttempt brokeWorld { queuedTx with Nonce := some 7 }
        ((St.init queuedPair).next.next)).2)
      { queuedTx with Nonce := some 7 }
      { ID := 0, EthTxID := 1, GasPrice := some 20, GasTipCap := none, GasFeeCap := none,
        ChainSpecificGasLimit := 21000, Hash := 1003, State := .inProgress, TxType := 0 }
      rfl rfl (Or.inl rfl) rfl rfl with
    | ⟨_, _, _, _, _, _, _, _, _, h⟩ =>
      ⟨congrArg Prod.fst
        (h { plainSendError with insufficientEth := true } rfl rfl rfl rfl rfl),
        by decide, by decide⟩,
   by decide⟩


/-- Claim C9 (transmit-check timeout), the code at the failing input: when the check returns
`context.DeadlineExceeded`, `handleInProgressEthTx` saves the transaction as fatal_error with that
message, deletes its attempt and submits nothing; the same call with `context.Canceled` does
submit the attempt. -/
theorem transmit_check_deadline_is_fatal :
    (handleInProgressEthTx deadlineWorld 1 pendingTx pendingAttempt 5 (St.init pendingStore)).1
        = .ret none
    ∧ (handleInProgressEthTx deadlineWorld 1 pendingTx pendingAttempt 5
        (St.init pendingStore)).2.db
        = { eth_txes := [{ queuedTx with
                           State := .fatalError, Error := some "context deadline exceeded" }],
            eth_tx_attempts := [],
            eth_key_states := [keyRow] }
    ∧ (∀ e ∈ (handleInProgressEthTx deadlineWorld 1 pendingTx pendingAttempt 5
        (St.init pendingStore)).2.log, e ≠ .submit pendingTx pendingAttempt)
    ∧ (handleInProgressEthTx canceledWorld 1 pendingTx pendingAttempt 5
        (St.init pendingStore)).2.log.contains (.submit pendingTx pendingAttempt) = true := by
  refine ⟨by decide, by decide, by decide, by decide⟩

/-- Claim C10 (legacy bump ceiling): for a legacy attempt priced `p` whose bumped price is `b`,
if `b = p` or `b` is at least the maximum gas price then `tryAgainBumpingLegacyGas` returns the
terminal error without calling the submit path again and with the store and history untouched;
otherwise, when signing succeeds and the transaction row is stored, the attempts with the id of the
old attempt are deleted, one new in_progress legacy attempt at price `b` is stored (the only
attempt of the transaction if the old one was), and the result is that of the submit path entered
again with this attempt. -/
theorem legacy_bump_ceiling (w : World)
    (handle : EthTx → EthTxAttempt → Time → St → Result × St) (etx : EthTx)
    (attempt : EthTxAttempt) (t : Time) (s : St) (p b : Int) (gl : Nat)
    (hp : attempt.GasPrice = some p)
    (hb : w.BumpLegacyGas s.tick (some p) etx.GasLimit = .ok (b, gl)) :
    ((b = p ∨ b ≥ w.EvmMaxGasPriceWei) →
      tryAgainBumpingLegacyGas w handle etx attempt t s =
        (.ret (some (.new
          "Hit gas price bump ceiling, will not bump further. This is a terminal error")),
          s.next))
    ∧ (¬ (b = p ∨ b ≥ w.EvmMaxGasPriceWei) →
      ∀ hash : Nat, w.SignTx (s.tick + 1) etx = .ok hash →
      attempt.State = .inProgress →
      (∃ r ∈ s.db.eth_txes, r.ID = etx.ID) →
      ∃ (replacement : EthTxAttempt) (db1 : DB),
        replacement.EthTxID = etx.ID ∧ replacement.GasPrice = some b
        ∧ replacement.State = .inProgress ∧ replacement.TxType = 0
        ∧ replacement.Hash = hash ∧ replacement.ChainSpecificGasLimit = gl
        ∧ db1.eth_txes = s.db.eth_txes ∧ db1.eth_key_states = s.db.eth_key_states
        ∧ db1.eth_tx_attempts =
            s.db.eth_tx_attempts.filter (fun a => decide (a.ID ≠ attempt.ID)) ++ [replacement]
        ∧ (s.db.eth_tx_attempts.filter (fun a => decide (a.EthTxID = etx.ID)) = [attempt] →
            db1.eth_tx_attempts.filter (fun a => decide (a.EthTxID = etx.ID)) = [replacement])
        ∧ tryAgainBumpingLegacyGas w handle etx attempt t s =
            handle etx replacement t
              { db := db1, tick := s.tick + 2,
                log := .replaceAttempt attempt replacement db1 :: s.log }) := by
  constructor
  · intro hceil
    unfold tryAgainBumpingLegacyGas
    rw [hp, hb]
    simp only
    rw [if_pos hceil]
  · intro hceil hash hsign hast ⟨r, hr, hrid⟩
    have hany : (s.db.eth_txes.any fun r => decide (r.ID = etx.ID)) = true :=
      List.any_eq_true.2 ⟨r, hr, by simpa using hrid⟩
    let tx1 : DB := ⟨s.db.eth_txes,
      s.db.eth_tx_attempts.filter (fun a => decide (a.ID ≠ attempt.ID)), s.db.eth_key_states⟩
    let repl : EthTxAttempt :=
      { ID := freshAttemptID tx1, EthTxID := etx.ID, GasPrice := some b, GasTipCap := none,
        GasFeeCap := none, ChainSpecificGasLimit := gl, Hash := hash, State := .inProgress,
        TxType := 0 }
    refine ⟨repl, ⟨s.db.eth_txes, tx1.eth_tx_attempts ++ [repl], s.db.eth_key_states⟩,
      rfl, rfl, rfl, rfl, rfl, rfl, rfl, rfl, rfl, ?_, ?_⟩
    rotate_left
    ·
      unfold tryAgainBumpingLegacyGas
      rw [hp, hb]
      simp only
      rw [if_neg hceil]
      unfold tryAgainWithNewLegacyGas NewLegacyAttempt
      have hs : w.SignTx s.next.tick etx = .ok hash := hsign
      rw [hs]
      simp only
      unfold saveReplacementInProgressAttempt
      rw [if_neg (by simp [hast])]
      simp only [insertEthTxAttempt, St.next, hany, if_true]
      rfl
    · intro hone
      rw [List.filter_append, List.filter_filter]
      have : (s.db.eth_tx_attempts.filter
          (fun a => decide (a.EthTxID = etx.ID) && decide (a.ID ≠ attempt.ID))) = [] := by
        rw [List.filter_eq_nil_iff]
        intro a ha hpa
        simp only [Bool.and_eq_true, decide_eq_true_eq] at hpa
        have hmem : a ∈ s.db.eth_tx_attempts.filter (fun a => decide (a.EthTxID = etx.ID)) :=
          List.mem_filter.2 ⟨ha, by simpa using hpa.1⟩
        rw [hone] at hmem
        exact hpa.2 (by rw [List.mem_singleton.1 hmem])
      rw [this]
      simp [repl]

/-- Witness for C10: with a maximum of 25 a bump from 20 to 30 hits the ceiling; with a maximum of
1000 the attempt is replaced by one priced 30. -/
theorem legacy_bump_ceiling_witness :
    tryAgainBumpingLegacyGas cappedWorld (handleInProgressEthTx cappedWorld 1) pendingTx
        pendingAttempt 5 (St.init pendingStore)
      = (.ret (some (.new
          "Hit gas price bump ceiling, will not bump further. This is a terminal error")),
          (St.init pendingStore).next)
    ∧ ∃ replacement : EthTxAttempt,
        replacement.GasPrice = some 30 ∧ replacement.State = .inProgress :=
  ⟨(legacy_bump_ceiling cappedWorld (handleInProgressEthTx cappedWorld 1) pendingTx
      pendingAttempt 5 (St.init pendingStore) 20 30 21000 rfl rfl).1 (Or.inr (by decide)),
    match (legacy_bump_ceiling quietWorld (handleInProgressEthTx quietWorld 1) pendingTx
      pendingAttempt 5 (St.init pendingStore) 20 30 21000 rfl rfl).2 (by decide) 1001 rfl rfl
      ⟨pendingTx, by decide, rfl⟩ with
    | ⟨replacement, _, _, h2, h3, _⟩ => ⟨replacement, h2, h3⟩⟩
/-- Claim C11 (the resume callback gates the fatal persist): for an in_progress transaction with
its error set and its row stored, `saveFatallyErroredTransaction` (1) when the task run id is set
and a callback is configured calls the callback exactly once; if the callback returns nil or the
row-missing error the function returns nil, the store is the fatal store and the history gains
the call followed by the fatal persist; if the callback returns another error the function
returns that error wrapped, the store is as before and the history gains the call only; (2) when
the task run id is unset or no callback is configured it makes no call, returns nil and the store
is the fatal store. -/
theorem resume_gates_fatal_persist (w : World) (etx : EthTx) (s : St) (msg : String) (r0 : EthTx)
    (hst : etx.State = .inProgress) (hmsg : etx.Error = some msg)
    (hr0 : s.db.eth_txes.find? (fun r => decide (r.ID = etx.ID)) = some r0) :
    (∀ id cb, etx.PipelineTaskRunID = some id → w.resumeCallback = some cb →
      resumeCalls (saveFatallyErroredTransaction w etx s).2.log = resumeCalls s.log + 1
      ∧ (cb s.tick id (resumeText msg) = none ∨ cb s.tick id (resumeText msg) = some .noRows →
          (saveFatallyErroredTransaction w etx s).1 = none
          ∧ (saveFatallyErroredTransaction w etx s).2.db = fatalStore s.db etx.ID msg
          ∧ ∃ row, row.State = .fatalError ∧
              (saveFatallyErroredTransaction w etx s).2.log
                = [.persistFatal row (fatalStore s.db etx.ID msg), .resume id (resumeText msg)]
                    ++ s.log)
      ∧ (∀ m, cb s.tick id (resumeText msg) = some (.failed m) →
          (saveFatallyErroredTransaction w etx s).1
            = some (.wrap (.new m) "failed to resume pipeline")
          ∧ (saveFatallyErroredTransaction w etx s).2.db = s.db
          ∧ (saveFatallyErroredTransaction w etx s).2.log
              = .resume id (resumeText msg) :: s.log))
    ∧ (etx.PipelineTaskRunID = none ∨ w.resumeCallback = none →
        resumeCalls (saveFatallyErroredTransaction w etx s).2.log = resumeCalls s.log
        ∧ (saveFatallyErroredTransaction w etx s).1 = none
        ∧ (saveFatallyErroredTransaction w etx s).2.db = fatalStore s.db etx.ID msg
        ∧ ∃ row, row.State = .fatalError ∧
            (saveFatallyErroredTransaction w etx s).2.log
              = .persistFatal row (fatalStore s.db etx.ID msg) :: s.log) := by
  refine ⟨?_, ?_⟩
  · intro id cb hid hcb
    refine ⟨?_, ?_, ?_⟩
    · cases hres : cb s.tick id (resumeText msg) with
      | none =>
        rw [saveFatallyErroredTransaction_called hst hmsg hr0 hid hcb (Or.inl hres)]
        rfl
      | some e =>
        cases e with
        | noRows =>
          rw [saveFatallyErroredTransaction_called hst hmsg hr0 hid hcb (Or.inr hres)]
          rfl
        | failed m =>
          rw [saveFatallyErroredTransaction_failed hst hmsg hid hcb hres]
          rfl
    · intro hres
      rw [saveFatallyErroredTransaction_called hst hmsg hr0 hid hcb hres]
      exact ⟨rfl, rfl, _, rfl, rfl⟩
    · intro m hres
      rw [saveFatallyErroredTransaction_failed hst hmsg hid hcb hres]
      exact ⟨rfl, rfl, rfl⟩
  · intro hno
    rw [saveFatallyErroredTransaction_uncalled hst hmsg hr0 hno]
    exact ⟨rfl, rfl, rfl, _, rfl, rfl⟩

/-- Witness for C11: with a callback that fails, the fatal save of the in_progress transaction
of `pendingStore` returns the error and leaves the store as it was, after one call. -/
theorem resume_gates_fatal_persist_witness :
    (saveFatallyErroredTransaction stuckWorld pipelineTx (St.init pendingStore)).1
      = some (.wrap (.new "pipeline down") "failed to resume pipeline")
    ∧ (saveFatallyErroredTransaction stuckWorld pipelineTx (St.init pendingStore)).2.db
      = pendingStore
    ∧ (saveFatallyErroredTransaction stuckWorld pipelineTx (St.init pendingStore)).2.log
      = [.resume 5 (resumeText "boom")] :=
  ((resume_gates_fatal_persist stuckWorld pipelineTx (St.init pendingStore) "boom" pendingTx
      rfl rfl rfl).1 5 (fun _ _ _ => some (.failed "pipeline down")) rfl rfl).2.2
    "pipeline down" rfl

/-- Claim C12 (in-flight throttle): in one pass of the loop body of `processUnstartedEthTxs`,
(1) when the limit is positive and the unconfirmed count has reached it, the pass continues with
the state exactly as it was: nothing is looked up or promoted; (2) so a pass that changes the
state ran with limit 0 or with the count below the limit; (3) with limit 0, whatever the count,
or with the count below the limit, the transaction returned by the look-up, once its attempt is
built, is promoted: the history gains the commit of the promotion, in whose store every row with
the id of the transaction is in_progress. -/
theorem in_flight_throttle (w : World) (fuel : Nat) (fromAddress : Address) (s : St) :
    (w.EvmMaxInFlightTransactions > 0 →
      CountUnconfirmedTransactions s.db fromAddress w.chainID ≥ w.EvmMaxInFlightTransactions →
      processUnstartedEthTxsBody w fuel fromAddress s = (.continue, s))
    ∧ ((processUnstartedEthTxsBody w fuel fromAddress s).2 ≠ s →
        w.EvmMaxInFlightTransactions = 0 ∨
          CountUnconfirmedTransactions s.db fromAddress w.chainID < w.EvmMaxInFlightTransactions)
    ∧ (w.EvmMaxInFlightTransactions = 0 ∨
        CountUnconfirmedTransactions s.db fromAddress w.chainID < w.EvmMaxInFlightTransactions →
        ∀ etx a s1, nextUnstartedTransactionWithNonce w s.db fromAddress = .ok (some etx) →
          newAttempt w etx s = (.ok a, s1) →
          ∃ etx1 a1 d new,
            (processUnstartedEthTxsBody w fuel fromAddress s).2.log
              = new ++ .persistInProgress etx1 a1 d :: s.log
            ∧ etx1.ID = etx.ID ∧ etx1.State = .inProgress ∧ etx1.Nonce = etx.Nonce
            ∧ (∃ row ∈ d.eth_txes, row.ID = etx.ID)
            ∧ ∀ row ∈ d.eth_txes, row.ID = etx.ID → row.State = .inProgress) := by
  refine ⟨fun h1 h2 => body_throttled ⟨h1, h2⟩, ?_, ?_⟩
  · intro hne
    by_contra hno
    exact hne (by rw [body_throttled (by omega)])
  · intro hopen etx a s1 hnext hnew
    obtain ⟨row, v, hrow, _, hstate, _, _, hetx⟩ := nextUnstartedTransactionWithNonce_some hnext
    obtain ⟨hfk, hast⟩ := newAttempt_ok hnew
    have hframe := newAttempt_frame w etx s
    rw [hnew] at hframe
    obtain ⟨hdb, hlog, _⟩ := hframe
    simp only at hdb hlog
    obtain ⟨r0, hr0⟩ := find_id_of_mem hrow
    have hid : etx.ID = row.ID := by rw [hetx]
    have hst : etx.State = .unstarted := by rw [hetx]; exact hstate
    rw [← hid, ← hdb] at hr0
    rw [body_open hopen hnext hnew, ← hlog]
    exact promoteAndHandle_promotes hst hast hfk hr0

/-- Witness for C12: with a limit of 2, two unconfirmed and three unstarted transactions, the
pass continues with the state as it was and a whole cycle leaves the store as it was; with
limit 0 the same store has its first unstarted transaction promoted and broadcast. -/
theorem in_flight_throttle_witness :
    processUnstartedEthTxsBody throttlingWorld 1 10 (St.init throttledStore)
      = (.continue, St.init throttledStore)
    ∧ (processUnstartedEthTxs throttlingWorld 3 10 (St.init throttledStore)).2.db = throttledStore
    ∧ (processUnstartedEthTxsBody quietWorld 1 10 (St.init throttledStore)).2.db.eth_txes.map
        (fun r => (r.ID, r.State))
      = [(1, .unconfirmed), (2, .unconfirmed), (3, .unconfirmed), (4, .unstarted),
          (5, .unstarted)] :=
  ⟨(in_flight_throttle throttlingWorld 1 10 (St.init throttledStore)).1 (by decide) (by decide),
    by decide, by decide⟩

/-- Claim C13 (dynamic-fee bump ceiling), the code at the failing input: when a bumped cap equals
the current one or the bumped tip cap reaches the maximum gas price,
`tryAgainBumpingDynamicFeeGas` returns the terminal error with the store and history as they
were; but the bumped fee cap is not compared with the maximum: with a maximum of 1000 and a bump
from (tip 2, fee 30) to (tip 3, fee 1000) the function stores a replacement attempt whose fee
cap is 1000, submits it and returns nil. -/
theorem dynamic_fee_cap_unchecked :
    (∀ (w : World) (handle : EthTx → EthTxAttempt → Time → St → Result × St) (etx : EthTx)
        (attempt : EthTxAttempt) (t : Time) (s : St) (bumped : DynamicFee) (gasLimit : Nat)
        (tip oldTip fee oldFee : Int),
      w.BumpDynamicFee s.tick attempt.DynamicFee etx.GasLimit = .ok (bumped, gasLimit) →
      bumped.TipCap = some tip → attempt.GasTipCap = some oldTip →
      bumped.FeeCap = some fee → attempt.GasFeeCap = some oldFee →
      tip = oldTip ∨ fee = oldFee ∨ tip ≥ w.EvmMaxGasPriceWei →
      tryAgainBumpingDynamicFeeGas w handle etx attempt t s
        = (.ret (some (.new
            "Hit gas price bump ceiling, will not bump further. This is a terminal error")),
            s.next))
    ∧ steepWorld.EvmMaxGasPriceWei = 1000
    ∧ steepWorld.BumpDynamicFee 0 dynamicAttempt.DynamicFee pendingTx.GasLimit
        = .ok ({ FeeCap := some 1000, TipCap := some 3 }, 21000)
    ∧ (tryAgainBumpingDynamicFeeGas steepWorld (handleInProgressEthTx steepWorld 1) pendingTx
        dynamicAttempt 50 (St.init dynamicStore)).1 = .ret none
    ∧ (tryAgainBumpingDynamicFeeGas steepWorld (handleInProgressEthTx steepWorld 1) pendingTx
        dynamicAttempt 50 (St.init dynamicStore)).2.db.eth_tx_attempts.map
          (fun a => (a.GasTipCap, a.GasFeeCap, a.State))
        = [(some 3, some 1000, .broadcast)]
    ∧ (tryAgainBumpingDynamicFeeGas steepWorld (handleInProgressEthTx steepWorld 1) pendingTx
        dynamicAttempt 50 (St.init dynamicStore)).2.log.map
          (fun e => match e with
            | .replaceAttempt _ a _ => (1, a.GasFeeCap)
            | .submit _ a => (2, a.GasFeeCap)
            | .persistBroadcast _ a _ => (3, a.GasFeeCap)
            | _ => (0, none))
        = [(3, some 1000), (2, some 1000), (1, some 1000)] := by
  refine ⟨?_, rfl, rfl, by decide, by decide, by decide⟩
  intro w handle etx attempt t s bumped gasLimit tip oldTip fee oldFee hb h1 h2 h3 h4 h
  unfold tryAgainBumpingDynamicFeeGas
  rw [hb]
  have hc : dynamicFeeCeiling w bumped attempt = some true := by
    unfold dynamicFeeCeiling
    rw [h1, h2, h3, h4]
    simp only
    by_cases e1 : tip = oldTip
    · rw [if_pos e1]
    · rw [if_neg e1]
      by_cases e2 : fee = oldFee
      · rw [if_pos e2]
      · rw [if_neg e2]
        have e3 : tip ≥ w.EvmMaxGasPriceWei := by
          rcases h with h | h | h
          · exact absurd h e1
          · exact absurd h e2
          · exact h
        rw [if_pos e3]
  simp only [hc]

/-- Claim C14 (corrupted in-progress state, amended): `getInProgressEthTx` returns none exactly
when the sender has no in_progress transaction; otherwise it reads the first in_progress row of
the sender, which is the only one when there is at most one: it returns that transaction, with
its attempt loaded, when the row has exactly one attempt and that attempt is in_progress, and it
returns an error, never a transaction, when the attempts of the row are not exactly one attempt
in state in_progress. -/
theorem getInProgressEthTx_first_row (db : DB) (fromAddress : Address) :
    (getInProgressEthTx db fromAddress = .ok none ↔ NoInProgress fromAddress db)
    ∧ (∀ row, db.eth_txes.find? (inProgressOf fromAddress) = some row →
        (∀ a, db.eth_tx_attempts.filter (fun x => decide (x.EthTxID = row.ID)) = [a] →
          a.State = .inProgress →
          getInProgressEthTx db fromAddress = .ok (some { row with EthTxAttempts := [a] }))
        ∧ ((¬ ∃ a, db.eth_tx_attempts.filter (fun x => decide (x.EthTxID = row.ID)) = [a]
              ∧ a.State = .inProgress) →
            ∃ m, getInProgressEthTx db fromAddress = .error (.new m)))
    ∧ (∀ row ∈ db.eth_txes, inProgressOf fromAddress row = true →
        db.eth_txes.countP (inProgressOf fromAddress) ≤ 1 →
        db.eth_txes.find? (inProgressOf fromAddress) = some row) := by
  refine ⟨⟨getInProgressEthTx_none_noInProgress, ?_⟩, fun row => getInProgressEthTx_first, ?_⟩
  · intro h
    apply getInProgressEthTx_none
    intro r hr hfrom hst
    have := h r hr
    rw [inProgressOf_iff.2 ⟨hfrom, hst⟩] at this
    cases this
  · intro row hrow hp hcount
    cases hf : db.eth_txes.find? (inProgressOf fromAddress) with
    | none =>
      rw [List.find?_eq_none] at hf
      exact absurd hp (hf row hrow)
    | some r =>
      rw [eq_of_countP_le_one hcount (List.mem_of_find?_eq_some hf) hrow (List.find?_some hf) hp]

/-- Witness for C14: the in_progress transaction of `pendingStore` is returned with its attempt. -/
theorem getInProgressEthTx_first_row_witness :
    getInProgressEthTx pendingStore 10
      = .ok (some { pendingTx with EthTxAttempts := [pendingAttempt] }) :=
  ((getInProgressEthTx_first_row pendingStore 10).2.1 pendingTx rfl).1 pendingAttempt rfl rfl

/-- Counterexample for C14 as stated: in `twinStore` sender 10 has two in_progress transactions,
and `getInProgressEthTx` returns the first of them, not an error. -/
theorem getInProgressEthTx_two_in_progress :
    twinStore.eth_txes.countP (inProgressOf 10) = 2
    ∧ getInProgressEthTx twinStore 10
      = .ok (some { pendingTx with EthTxAttempts := [pendingAttempt] }) := by
  decide

/-- Claim C15 (illegal transitions are rejected without touching the store):
`saveInProgressTransaction` fails and returns the store it was given unless the transaction is
unstarted and the attempt in_progress; `saveAttempt` does so unless the transaction is
in_progress, the attempt in_progress and the new attempt state broadcast;
`saveFatallyErroredTransaction` fails and leaves the whole state (store, history, so no call of
the resume callback) as it was unless the transaction is in_progress; and
`handleInProgressEthTx` on a transaction that is not in_progress returns the invariant error and
leaves the whole state as it was, so nothing is submitted, whatever the collaborators would
answer. -/
theorem illegal_transitions_rejected :
    (∀ (db : DB) (etx : EthTx) (attempt : EthTxAttempt),
      ¬ (etx.State = .unstarted ∧ attempt.State = .inProgress) →
        (saveInProgressTransaction db etx attempt).1 ≠ none
        ∧ (saveInProgressTransaction db etx attempt).2.1 = db)
    ∧ (∀ (db : DB) (etx : EthTx) (attempt : EthTxAttempt) (st : EthTxAttemptState)
        (callbacks : List (DB → Except Err DB)) (now : Time),
      ¬ (etx.State = .inProgress ∧ attempt.State = .inProgress ∧ st = .broadcast) →
        (saveAttempt db etx attempt st callbacks now).1 ≠ none
        ∧ (saveAttempt db etx attempt st callbacks now).2.1 = db)
    ∧ (∀ (w : World) (etx : EthTx) (s : St), etx.State ≠ .inProgress →
        (saveFatallyErroredTransaction w etx s).1 ≠ none
        ∧ (saveFatallyErroredTransaction w etx s).2 = s)
    ∧ (∀ (w : World) (fuel : Nat) (etx : EthTx) (attempt : EthTxAttempt) (t : Time) (s : St),
        etx.State ≠ .inProgress →
        handleInProgressEthTx w (fuel + 1) etx attempt t s
          = (.ret (some (.new "invariant violation: expected transaction to be in_progress")), s)
        ∧ (handleInProgressEthTx w fuel etx attempt t s).2 = s) := by
  refine ⟨?_, ?_, ?_, ?_⟩
  · intro db etx attempt h
    unfold saveInProgressTransaction
    by_cases h1 : etx.State = .unstarted
    · have h2 : attempt.State ≠ .inProgress := fun h2 => h ⟨h1, h2⟩
      rw [if_neg (not_not.2 h1), if_pos h2]
      exact ⟨by simp, rfl⟩
    · rw [if_pos h1]
      exact ⟨by simp, rfl⟩
  · intro db etx attempt st callbacks now h
    unfold saveAttempt
    by_cases h1 : etx.State = .inProgress
    · rw [if_neg (not_not.2 h1)]
      by_cases h2 : attempt.State = .inProgress
      · have h3 : ¬ st = .broadcast := fun h3 => h ⟨h1, h2, h3⟩
        rw [if_neg (not_not.2 h2), if_pos h3]
        exact ⟨by simp, rfl⟩
      · rw [if_pos h2]
        exact ⟨by simp, rfl⟩
    · rw [if_pos h1]
      exact ⟨by simp, rfl⟩
  · intro w etx s h
    unfold saveFatallyErroredTransaction
    rw [if_pos h]
    exact ⟨by simp, rfl⟩
  · intro w fuel etx attempt t s h
    constructor
    · rw [handleInProgressEthTx, if_pos h]
    · cases fuel with
      | zero => rfl
      | succ n => rw [handleInProgressEthTx, if_pos h]

/-- Witness for C15: the submit path run again for a transaction that is already unconfirmed
returns the invariant error and leaves the state as it was. -/
theorem illegal_transitions_rejected_witness :
    handleInProgressEthTx quietWorld 1 { pendingTx with State := .unconfirmed } pendingAttempt 0
        (St.init pendingStore)
      = (.ret (some (.new "invariant violation: expected transaction to be in_progress")),
          St.init pendingStore) :=
  (illegal_transitions_rejected.2.2.2 quietWorld 0 { pendingTx with State := .unconfirmed }
    pendingAttempt 0 (St.init pendingStore) (by decide)).1

/-- Claim C16 (broadcast timestamps, amended): for every call of `handleInProgressEthTx` with
reference time `t`, with any fuel and any answers of the collaborators, the history grows, and
every broadcast persisted during the call, after any number of fee-bump or re-estimate retries,
commits the store the call ends in, in which the row of the transaction is stored and every row
with its id is unconfirmed with `broadcast_at` and `initial_broadcast_at` both equal to `t`,
whatever `initial_broadcast_at` was before; `t` is the argument of the first call, not the time
of a retry. -/
theorem broadcast_timestamps (w : World) (fuel : Nat) (etx : EthTx) (attempt : EthTxAttempt)
    (t : Time) (s : St) :
    ∃ new, (handleInProgressEthTx w fuel etx attempt t s).2.log = new ++ s.log
      ∧ ∀ etx2 a2 d, Event.persistBroadcast etx2 a2 d ∈ new →
          d = (handleInProgressEthTx w fuel etx attempt t s).2.db
          ∧ etx2.ID = etx.ID ∧ etx2.BroadcastAt = some t ∧ etx2.InitialBroadcastAt = some t
          ∧ (∃ row ∈ d.eth_txes, row.ID = etx.ID)
          ∧ ∀ row ∈ d.eth_txes, row.ID = etx.ID →
              row.State = .unconfirmed ∧ row.BroadcastAt = some t
              ∧ row.InitialBroadcastAt = some t := by
  obtain ⟨new, hlog, hall⟩ := stamps_handleInProgressEthTx w t fuel etx attempt s
  exact ⟨new, hlog, fun etx2 a2 d h => hall _ h⟩

/-- Counterexample for C16 as stated: the in_progress transaction of `stampedStore` has
`initial_broadcast_at = 3`; the call with reference time 50 ends in a broadcast and the stored
`initial_broadcast_at` is 50, not 3.  The second run shows a retry: the first submit (at tick 1)
is answered terminally underpriced, the replacement priced 30 is broadcast, and both times are
the reference time 50, not the time of the retry. -/
theorem initial_broadcast_at_overwritten :
    stampedTx.InitialBroadcastAt = some 3
    ∧ stampedStore.eth_txes.map (fun r => (r.State, r.InitialBroadcastAt))
        = [(.inProgress, some 3)]
    ∧ (handleInProgressEthTx quietWorld 1 stampedTx pendingAttempt 50 (St.init stampedStore)).1
        = .ret none
    ∧ (handleInProgressEthTx quietWorld 1 stampedTx pendingAttempt 50
        (St.init stampedStore)).2.db.eth_txes.map
          (fun r => (r.State, r.BroadcastAt, r.InitialBroadcastAt))
        = [(.unconfirmed, some 50, some 50)]
    ∧ (handleInProgressEthTx retryWorld 2 pendingTx pendingAttempt 50
        (St.init pendingStore)).2.db.eth_txes.map
          (fun r => (r.State, r.BroadcastAt, r.InitialBroadcastAt))
        = [(.unconfirmed, some 50, some 50)]
    ∧ (handleInProgressEthTx retryWorld 2 pendingTx pendingAttempt 50
        (St.init pendingStore)).2.db.eth_tx_attempts.map (fun a => (a.GasPrice, a.State))
        = [(some 30, .broadcast)] := by
  decide


end Txmgr
